import Mathlib

/-!
Chess rules engine of `chess122/Gaming/main.cpp`.

A shallow embedding of the `ChessGame` class: the 8x8 `char` board, the cached
king squares, the side to move, the captured lists and the last-move notation,
together with the attack detector, the move validator, the move executor and the
move enumerator.

* C++ `int` coordinates are `Int` (no coordinate of the program comes near the
  32-bit range: every value is a board index plus or minus a small offset).
* `char` is `Char`; `tolower`, `isupper`, `islower` are `Char.toLower`,
  `Char.isUpper`, `Char.isLower` (the C locale on ASCII).
* Member functions that mutate the object (`moveLeavesKingInCheck`,
  `isMoveValid`, `generateValidMoves`, `makeMove`) pass the state explicitly and
  return the state they leave behind.
* The earlier copy of the class in `{CHESS}/chess122/Gaming/main.cpp` is embedded
  in the namespace `Second`, for the members whose text differs from the first file.
* The unbounded `for(;;)` and `while` loops are structural recursions on a step
  budget; running out of budget is the distinguished result `none`. The lemmas
  `rayLoop_total`, `rookMove_total` and `bishopMove_total` show that the budget
  used by the callers is never exhausted, for every board and all integer
  coordinates, so the boolean members built on the loops are the C++ ones.

The file has four parts: the embedding of the source, the vocabulary in which the
specification is stated, lemmas, and the theorems settling the numbered claims.
-/

namespace Chess

/-! ## Board and state -/

/-- Global helper `isWithinBounds` (`BOARD_SIZE = 8`). -/
def isWithinBounds (r c : Int) : Bool :=
  decide (r ≥ 0) && decide (r < 8) && decide (c ≥ 0) && decide (c < 8)

/-- The member `char board[8][8]`. -/
abbrev Board := Fin 8 → Fin 8 → Char

/-- Array subscript: the `Fin 8` index of an `int` coordinate.  For a coordinate
in `0..7` this is the coordinate itself; a raw subscript outside that range is
undefined behaviour in C++ and is never evaluated on the paths studied here. -/
def idx (i : Int) : Fin 8 := Fin.ofNat i.toNat

/-- Raw read `board[r][c]`. -/
def cell (b : Board) (r c : Int) : Char := b (idx r) (idx c)

/-- Raw write `board[r][c] = v`. -/
def setCell (b : Board) (r c : Int) (v : Char) : Board :=
  fun i j => if i = idx r ∧ j = idx c then v else b i j

/-- The data members of `class ChessGame`. -/
structure ChessGame where
  board : Board
  isWhiteTurn : Bool
  whiteKingRow : Int
  whiteKingCol : Int
  blackKingRow : Int
  blackKingCol : Int
  lastMoveNotation : String
  whiteCaptured : List Char
  blackCaptured : List Char

/-- The struct `Move`. -/
structure Move where
  startR : Int
  startC : Int
  endR : Int
  endC : Int
  score : Int
  deriving DecidableEq, Repr

/-! ## Basic helpers -/

/-- Member `notationToIndex`: `none` is `return false`, `some (r, c)` is
`return true` with the two output parameters. -/
def notationToIndex (n : String) : Option (Int × Int) :=
  match n.data with
  | [c0, c1] =>
    let f := c0.toLower
    let rnk := c1
    if f < 'a' || f > 'h' || rnk < '1' || rnk > '8' then none
    else
      let c : Int := (f.toNat : Int) - ('a'.toNat : Int)
      let r : Int := ('8'.toNat : Int) - (rnk.toNat : Int)
      if isWithinBounds r c then some (r, c) else none
  | _ => none

/-- Member `indexToNotation`: `"??"` off the board, else file letter and rank digit. -/
def indexToNotation (r c : Int) : String :=
  if !isWithinBounds r c then "??"
  else
    let f := Char.ofNat ('a'.toNat + c.toNat)
    let rnk := Char.ofNat ('8'.toNat - r.toNat)
    ("".push f).push rnk

/-- Member `getPieceAt`: the sentinel `' '` off the board, else the cell. -/
def getPieceAt (b : Board) (r c : Int) : Char :=
  if !isWithinBounds r c then ' ' else cell b r c

/-- Member `isPieceWhite`. -/
def isPieceWhite (p : Char) : Bool := p != '.' && p != ' ' && p.isUpper

/-- Member `isPieceBlack`. -/
def isPieceBlack (p : Char) : Bool := p != '.' && p != ' ' && p.isLower

/-! ## Attack and check logic -/

/-- The array `knightMoves` of `isSquareAttacked`. -/
def knightMoves : List (Int × Int) :=
  [(-2, -1), (-2, 1), (-1, -2), (-1, 2), (1, -2), (1, 2), (2, -1), (2, 1)]

/-- The array `rookDirs` of `isSquareAttacked`. -/
def rookDirs : List (Int × Int) := [(-1, 0), (1, 0), (0, -1), (0, 1)]

/-- The array `bishopDirs` of `isSquareAttacked`. -/
def bishopDirs : List (Int × Int) := [(-1, -1), (-1, 1), (1, -1), (1, 1)]

/-- The offsets visited by the king loop `for dr in -1..1, for dc in -1..1`,
with `(0,0)` skipped by `continue`. -/
def kingOffsets : List (Int × Int) :=
  [(-1, -1), (-1, 0), (-1, 1), (0, -1), (0, 1), (1, -1), (1, 0), (1, 1)]

/-- One ray of `isSquareAttacked`: the loop `for(int i=1;;++i)` in direction
`(d0,d1)`, started at counter `i`, looking for `a1` or `a2`.
`some true` is `return true`, `some false` is `break`, `none` is an exhausted
step budget. -/
def rayLoop (b : Board) (r c d0 d1 : Int) (a1 a2 : Char) : Nat → Int → Option Bool
  | 0, _ => none
  | fuel + 1, i =>
    let nr := r + i * d0
    let nc := c + i * d1
    if !isWithinBounds nr nc then some false
    else
      let pc := getPieceAt b nr nc
      if pc != '.' && pc != ' ' then
        (if pc == a1 || pc == a2 then some true else some false)
      else rayLoop b r c d0 d1 a1 a2 fuel (i + 1)

/-- Step budget of the ray and path loops: a line of the board has eight
squares, so the ninth step is off the board. -/
def loopFuel : Nat := 9

/-- Member `isSquareAttacked`. -/
def isSquareAttacked (b : Board) (r c : Int) (attackerIsWhite : Bool) : Bool :=
  let attackingPawn := if attackerIsWhite then 'P' else 'p'
  let attackingRook := if attackerIsWhite then 'R' else 'r'
  let attackingKnight := if attackerIsWhite then 'N' else 'n'
  let attackingBishop := if attackerIsWhite then 'B' else 'b'
  let attackingQueen := if attackerIsWhite then 'Q' else 'q'
  let attackingKing := if attackerIsWhite then 'K' else 'k'
  let pawnAttackSourceDir : Int := if attackerIsWhite then 1 else -1
  if isWithinBounds (r + pawnAttackSourceDir) (c - 1)
      && getPieceAt b (r + pawnAttackSourceDir) (c - 1) == attackingPawn then true
  else if isWithinBounds (r + pawnAttackSourceDir) (c + 1)
      && getPieceAt b (r + pawnAttackSourceDir) (c + 1) == attackingPawn then true
  else if knightMoves.any (fun m =>
      isWithinBounds (r + m.1) (c + m.2) && getPieceAt b (r + m.1) (c + m.2) == attackingKnight)
    then true
  else if rookDirs.any (fun d =>
      rayLoop b r c d.1 d.2 attackingRook attackingQueen loopFuel 1 == some true) then true
  else if bishopDirs.any (fun d =>
      rayLoop b r c d.1 d.2 attackingBishop attackingQueen loopFuel 1 == some true) then true
  else if kingOffsets.any (fun d =>
      isWithinBounds (r + d.1) (c + d.2) && getPieceAt b (r + d.1) (c + d.2) == attackingKing)
    then true
  else false

/-- Member `isKingInCheck`. -/
def isKingInCheck (g : ChessGame) (checkWhiteKing : Bool) : Bool :=
  let kr := if checkWhiteKing then g.whiteKingRow else g.blackKingRow
  let kc := if checkWhiteKing then g.whiteKingCol else g.blackKingCol
  isSquareAttacked g.board kr kc (!checkWhiteKing)

/-- The board and king-cache writes at the top of `moveLeavesKingInCheck`:
relocate the piece, clear the origin, and point the mover's cache at the
destination when the piece is a king. -/
def simulateMove (g : ChessGame) (startR startC endR endC : Int) : ChessGame :=
  let piece := cell g.board startR startC
  let g1 := { g with board := setCell (setCell g.board endR endC piece) startR startC '.' }
  if piece.toLower == 'k' then
    if g1.isWhiteTurn then { g1 with whiteKingRow := endR, whiteKingCol := endC }
    else { g1 with blackKingRow := endR, blackKingCol := endC }
  else g1

/-- Member `moveLeavesKingInCheck`: the answer and the state left behind. -/
def moveLeavesKingInCheck (g : ChessGame) (startR startC endR endC : Int) :
    Bool × ChessGame :=
  let piece := cell g.board startR startC
  let target := cell g.board endR endC
  let origKR : Int :=
    if piece.toLower == 'k' then (if g.isWhiteTurn then g.whiteKingRow else g.blackKingRow)
    else -1
  let origKC : Int :=
    if piece.toLower == 'k' then (if g.isWhiteTurn then g.whiteKingCol else g.blackKingCol)
    else -1
  let g2 := simulateMove g startR startC endR endC
  let inCheck := isKingInCheck g2 g2.isWhiteTurn
  let g3 := { g2 with board := setCell (setCell g2.board startR startC piece) endR endC target }
  let g4 :=
    if origKR != -1 then
      if g3.isWhiteTurn then { g3 with whiteKingRow := origKR, whiteKingCol := origKC }
      else { g3 with blackKingRow := origKR, blackKingCol := origKC }
    else g3
  (inCheck, g4)

/-! ## Piece patterns -/

/-- Member `isValidPawnMove`. -/
def isValidPawnMove (b : Board) (sr sc er ec : Int) (target : Char) : Bool :=
  let p := getPieceAt b sr sc
  let dir : Int := if isPieceWhite p then -1 else 1
  let start : Int := if isPieceWhite p then 6 else 1
  if decide (sc = ec) && decide (er = sr + dir) && getPieceAt b er ec == '.' then true
  else if decide (sc = ec) && decide (sr = start) && decide (er = sr + 2 * dir)
      && getPieceAt b er ec == '.' && getPieceAt b (sr + dir) sc == '.' then true
  else if decide ((sc - ec).natAbs = 1) && decide (er = sr + dir)
      && (target != '.' && target != ' ') then true
  else false

/-- The `while(cr!=er||cc!=ec)` loop shared by `isValidRookMove` and
`isValidBishopMove`, with cursor `(cr,cc)` and step `(stepR,stepC)`.
`none` is an exhausted step budget. -/
def pathLoop (b : Board) (er ec stepR stepC : Int) : Nat → Int → Int → Option Bool
  | 0, cr, cc => if cr != er || cc != ec then none else some true
  | fuel + 1, cr, cc =>
    if cr != er || cc != ec then
      if getPieceAt b cr cc != '.' then some false
      else pathLoop b er ec stepR stepC fuel (cr + stepR) (cc + stepC)
    else some true

/-- Member `isValidRookMove`, with the loop result exposed. -/
def rookMove (b : Board) (sr sc er ec : Int) : Option Bool :=
  if decide (sr ≠ er) && decide (sc ≠ ec) then some false
  else
    let stepR : Int := if er > sr then 1 else (if er < sr then -1 else 0)
    let stepC : Int := if ec > sc then 1 else (if ec < sc then -1 else 0)
    pathLoop b er ec stepR stepC loopFuel (sr + stepR) (sc + stepC)

/-- Member `isValidBishopMove`, with the loop result exposed. -/
def bishopMove (b : Board) (sr sc er ec : Int) : Option Bool :=
  if decide ((sr - er).natAbs ≠ (sc - ec).natAbs) then some false
  else
    let stepR : Int := if er > sr then 1 else -1
    let stepC : Int := if ec > sc then 1 else -1
    pathLoop b er ec stepR stepC loopFuel (sr + stepR) (sc + stepC)

/-- Member `isValidRookMove`. -/
def isValidRookMove (b : Board) (sr sc er ec : Int) : Bool :=
  rookMove b sr sc er ec == some true

/-- Member `isValidKnightMove`. -/
def isValidKnightMove (sr sc er ec : Int) : Bool :=
  let dr := (sr - er).natAbs
  let dc := (sc - ec).natAbs
  (decide (dr = 2) && decide (dc = 1)) || (decide (dr = 1) && decide (dc = 2))

/-- Member `isValidBishopMove`. -/
def isValidBishopMove (b : Board) (sr sc er ec : Int) : Bool :=
  bishopMove b sr sc er ec == some true

/-- Member `isValidQueenMove`. -/
def isValidQueenMove (b : Board) (sr sc er ec : Int) : Bool :=
  isValidRookMove b sr sc er ec || isValidBishopMove b sr sc er ec

/-- Member `isValidKingMove`. -/
def isValidKingMove (sr sc er ec : Int) : Bool :=
  let dr := (sr - er).natAbs
  let dc := (sc - ec).natAbs
  decide (dr ≤ 1) && decide (dc ≤ 1)

/-! ## Move validation -/

/-- The distinct values written to `errorMsg` by `isMoveValid`, with the squares
and the piece that the message text is built from. -/
inductive MoveError where
  | outOfBounds
  | emptyOrigin (startR startC : Int)
  | wrongSide (piece : Char) (startR startC : Int)
  | ownCapture (endR endC : Int)
  | sameSquare
  | unknownPiece
  | badPattern (piece : Char) (startR startC endR endC : Int)
  | selfCheck
  deriving DecidableEq, Repr

/-- The text of each `errorMsg`. -/
def MoveError.text : MoveError → String
  | .outOfBounds => "Coordinates out of bounds."
  | .emptyOrigin r c => "No piece at starting square " ++ indexToNotation r c ++ "."
  | .wrongSide p r c =>
    "It's not that piece's turn (" ++ String.singleton p ++ " at " ++ indexToNotation r c ++ ")."
  | .ownCapture r c => "Cannot capture your own piece at " ++ indexToNotation r c ++ "."
  | .sameSquare => "Start and end square cannot be the same."
  | .unknownPiece => "Unknown piece type."
  | .badPattern p sr sc er ec =>
    "Invalid move pattern for " ++ String.singleton p ++ " from " ++ indexToNotation sr sc
      ++ " to " ++ indexToNotation er ec ++ "."
  | .selfCheck => "Move leaves your king in check."

/-- The `switch (tolower(piece))` of `isMoveValid`: `none` is the `default`
branch, `some v` the value stored in `validPattern`. -/
def patternSwitch (b : Board) (piece : Char) (startR startC endR endC : Int)
    (target : Char) : Option Bool :=
  let k := piece.toLower
  if k == 'p' then some (isValidPawnMove b startR startC endR endC target)
  else if k == 'r' then some (isValidRookMove b startR startC endR endC)
  else if k == 'n' then some (isValidKnightMove startR startC endR endC)
  else if k == 'b' then some (isValidBishopMove b startR startC endR endC)
  else if k == 'q' then some (isValidQueenMove b startR startC endR endC)
  else if k == 'k' then some (isValidKingMove startR startC endR endC)
  else none

/-- Member `isMoveValid` (the overload with `errorMsg`): `none` is `return true`
with an empty `errorMsg`, `some e` is `return false` with message `e`; the second
component is the state left behind. -/
def isMoveValid (g : ChessGame) (startR startC endR endC : Int) :
    Option MoveError × ChessGame :=
  if !isWithinBounds startR startC || !isWithinBounds endR endC then
    (some .outOfBounds, g)
  else
    let piece := getPieceAt g.board startR startC
    if piece == '.' || piece == ' ' then (some (.emptyOrigin startR startC), g)
    else if (g.isWhiteTurn && !isPieceWhite piece) || (!g.isWhiteTurn && !isPieceBlack piece) then
      (some (.wrongSide piece startR startC), g)
    else
      let target := getPieceAt g.board endR endC
      if target != '.' && target != ' '
          && ((g.isWhiteTurn && isPieceWhite target) || (!g.isWhiteTurn && isPieceBlack target)) then
        (some (.ownCapture endR endC), g)
      else if decide (startR = endR) && decide (startC = endC) then (some .sameSquare, g)
      else
        match patternSwitch g.board piece startR startC endR endC target with
        | none => (some .unknownPiece, g)
        | some validPattern =>
          if !validPattern then (some (.badPattern piece startR startC endR endC), g)
          else
            let res := moveLeavesKingInCheck g startR startC endR endC
            if res.1 then (some .selfCheck, res.2) else (none, res.2)

/-- The boolean returned by `isMoveValid`. -/
def accepts (g : ChessGame) (startR startC endR endC : Int) : Bool :=
  (isMoveValid g startR startC endR endC).1.isNone

/-! ## Move enumeration -/

/-- Member `getPieceValue`. -/
def getPieceValue (piece : Char) : Int :=
  let k := piece.toLower
  if k == 'p' then 10
  else if k == 'n' then 30
  else if k == 'b' then 30
  else if k == 'r' then 50
  else if k == 'q' then 90
  else if k == 'k' then 900
  else 0

/-- The values `0, 1, ..., 7` of a loop `for (int i = 0; i < BOARD_SIZE; ++i)`. -/
def boardRange : List Int := [0, 1, 2, 3, 4, 5, 6, 7]

/-- Body of the innermost loop of `generateValidMoves` for destination `(er,ec)`. -/
def genDest (r c er ec : Int) (acc : List Move × ChessGame) : List Move × ChessGame :=
  let res := isMoveValid acc.2 r c er ec
  if res.1.isNone then
    let targetPiece := getPieceAt res.2.board er ec
    let score : Int :=
      if targetPiece != '.' && targetPiece != ' ' then getPieceValue targetPiece else 1
    (acc.1 ++ [Move.mk r c er ec score], res.2)
  else (acc.1, res.2)

/-- Body of the origin loops of `generateValidMoves` for origin `(r,c)`. -/
def genOrigin (r c : Int) (acc : List Move × ChessGame) : List Move × ChessGame :=
  let piece := getPieceAt acc.2.board r c
  if piece != '.' && piece != ' '
      && ((acc.2.isWhiteTurn && isPieceWhite piece) || (!acc.2.isWhiteTurn && isPieceBlack piece)) then
    boardRange.foldl (fun a er => boardRange.foldl (fun a2 ec => genDest r c er ec a2) a) acc
  else acc

/-- Member `generateValidMoves`: the vector returned and the state left behind. -/
def generateValidMoves (g : ChessGame) : List Move × ChessGame :=
  boardRange.foldl (fun a r => boardRange.foldl (fun a2 c => genOrigin r c a2) a) ([], g)

/-! ## Move execution -/

/-- Member `makeMove`. -/
def makeMove (g : ChessGame) (startR startC endR endC : Int) : ChessGame :=
  let pieceMoved := cell g.board startR startC
  let capturedPiece := cell g.board endR endC
  let g1 :=
    if capturedPiece != '.' && capturedPiece != ' ' then
      if isPieceWhite capturedPiece then
        { g with blackCaptured := g.blackCaptured ++ [capturedPiece] }
      else { g with whiteCaptured := g.whiteCaptured ++ [capturedPiece] }
    else g
  let g2 := { g1 with board := setCell (setCell g1.board endR endC pieceMoved) startR startC '.' }
  let g3 :=
    if pieceMoved.toLower == 'k' then
      if g2.isWhiteTurn then { g2 with whiteKingRow := endR, whiteKingCol := endC }
      else { g2 with blackKingRow := endR, blackKingCol := endC }
    else g2
  let n1 := indexToNotation startR startC
  let n2 := n1 ++ (if capturedPiece != '.' && capturedPiece != ' ' then "x" else "-")
  let n3 := n2 ++ indexToNotation endR endC
  let opponentInCheck := isKingInCheck g3 (!g3.isWhiteTurn)
  let n4 := if opponentInCheck then n3 ++ "+" else n3
  { g3 with lastMoveNotation := n4, isWhiteTurn := !g3.isWhiteTurn }

/-- The board written by `initializeBoard`, row 0 (rank 8) first. -/
def initialRows : List (List Char) :=
  [['r', 'n', 'b', 'q', 'k', 'b', 'n', 'r'],
   ['p', 'p', 'p', 'p', 'p', 'p', 'p', 'p'],
   ['.', '.', '.', '.', '.', '.', '.', '.'],
   ['.', '.', '.', '.', '.', '.', '.', '.'],
   ['.', '.', '.', '.', '.', '.', '.', '.'],
   ['.', '.', '.', '.', '.', '.', '.', '.'],
   ['P', 'P', 'P', 'P', 'P', 'P', 'P', 'P'],
   ['R', 'N', 'B', 'Q', 'K', 'B', 'N', 'R']]

/-- A board given by its eight rows. -/
def boardOfRows (rows : List (List Char)) : Board :=
  fun r c => (rows.getD r.val []).getD c.val '.'

/-- Member `initializeBoard` (the state built by the constructor). -/
def initializeBoard : ChessGame :=
  { board := boardOfRows initialRows
    isWhiteTurn := true
    whiteKingRow := 7
    whiteKingCol := 4
    blackKingRow := 0
    blackKingCol := 4
    lastMoveNotation := "N/A"
    whiteCaptured := []
    blackCaptured := [] }

/-! ## AI move selection and game loop -/

/-- Member `makeAIMove`, with the value returned by `rand()` as a parameter.
`none` is undefined behaviour (a zero modulus or an index outside `bestMoves`);
`some (b, g)` is the boolean returned and the state left behind. -/
def makeAIMove (g : ChessGame) (rnd : Nat) : Option (Bool × ChessGame) :=
  let res := generateValidMoves g
  let validMoves := res.1
  if validMoves.isEmpty then some (false, res.2)
  else
    let bestScore : Int :=
      validMoves.foldl (fun best move => if move.score > best then move.score else best) (-1)
    let bestMoves := validMoves.filter (fun move => move.score == bestScore)
    if bestMoves.length = 0 then none
    else
      match bestMoves[rnd % bestMoves.length]? with
      | none => none
      | some chosenMove =>
        some (true, makeMove res.2 chosenMove.startR chosenMove.startC chosenMove.endR
          chosenMove.endC)

/-- The two announcements of the terminal test of `play`. -/
inductive GameEnd where
  | checkmate
  | stalemate
  deriving DecidableEq, Repr

/-- The terminal test at the top of the loop of `play`: `none` when the side to
move has a legal move, else checkmate or stalemate; and the state left behind. -/
def terminalTest (g : ChessGame) : Option GameEnd × ChessGame :=
  let res := generateValidMoves g
  if res.1.isEmpty then
    (if isKingInCheck res.2 res.2.isWhiteTurn then some GameEnd.checkmate
      else some GameEnd.stalemate, res.2)
  else (none, res.2)

/-- The decoding of a typed move in `play` (after the commands `exit` and `resign`
have been ruled out): the input must have four characters, `substr(0,2)` and
`substr(2,2)` must both pass `notationToIndex`. -/
def decodeInput (input : String) : Option (Int × Int × Int × Int) :=
  if input.length != 4 then none
  else
    match notationToIndex (String.mk (input.data.take 2)) with
    | none => none
    | some (startR, startC) =>
      match notationToIndex (String.mk ((input.data.drop 2).take 2)) with
      | none => none
      | some (endR, endC) => some (startR, startC, endR, endC)

/-! ## The second copy of the engine

The file `{CHESS}/chess122/Gaming/main.cpp` holds an earlier copy of the class.
Its members `isWithinBounds`, `notationToIndex`, `indexToNotation`, `getPieceAt`,
`isPieceWhite`, `isPieceBlack`, `isValidRookMove`, `isValidKnightMove`,
`isValidBishopMove`, `isValidQueenMove`, `isValidKingMove` and `initializeBoard`
have the same text as in the first file and are the definitions above; the members
below differ in text, or call a member that does. -/

namespace Second

/-- One ray of `isSquareAttacked` in the second copy: a square stops the ray when
it is not `'.'`. -/
def rayLoop (b : Board) (r c d0 d1 : Int) (a1 a2 : Char) : Nat → Int → Option Bool
  | 0, _ => none
  | fuel + 1, i =>
    let nr := r + i * d0
    let nc := c + i * d1
    if !isWithinBounds nr nc then some false
    else
      let pc := getPieceAt b nr nc
      if pc != '.' then
        (if pc == a1 || pc == a2 then some true else some false)
      else rayLoop b r c d0 d1 a1 a2 fuel (i + 1)

/-- Member `isSquareAttacked` of the second copy. -/
def isSquareAttacked (b : Board) (r c : Int) (attackerIsWhite : Bool) : Bool :=
  let attackingPawn := if attackerIsWhite then 'P' else 'p'
  let attackingRook := if attackerIsWhite then 'R' else 'r'
  let attackingKnight := if attackerIsWhite then 'N' else 'n'
  let attackingBishop := if attackerIsWhite then 'B' else 'b'
  let attackingQueen := if attackerIsWhite then 'Q' else 'q'
  let attackingKing := if attackerIsWhite then 'K' else 'k'
  let pawnAttackSourceDir : Int := if attackerIsWhite then 1 else -1
  if isWithinBounds (r + pawnAttackSourceDir) (c - 1)
      && getPieceAt b (r + pawnAttackSourceDir) (c - 1) == attackingPawn then true
  else if isWithinBounds (r + pawnAttackSourceDir) (c + 1)
      && getPieceAt b (r + pawnAttackSourceDir) (c + 1) == attackingPawn then true
  else if knightMoves.any (fun m =>
      isWithinBounds (r + m.1) (c + m.2) && getPieceAt b (r + m.1) (c + m.2) == attackingKnight)
    then true
  else if rookDirs.any (fun d =>
      rayLoop b r c d.1 d.2 attackingRook attackingQueen loopFuel 1 == some true) then true
  else if bishopDirs.any (fun d =>
      rayLoop b r c d.1 d.2 attackingBishop attackingQueen loopFuel 1 == some true) then true
  else if kingOffsets.any (fun d =>
      isWithinBounds (r + d.1) (c + d.2) && getPieceAt b (r + d.1) (c + d.2) == attackingKing)
    then true
  else false

/-- Member `isKingInCheck` of the second copy. -/
def isKingInCheck (g : ChessGame) (checkWhiteKing : Bool) : Bool :=
  let kr := if checkWhiteKing then g.whiteKingRow else g.blackKingRow
  let kc := if checkWhiteKing then g.whiteKingCol else g.blackKingCol
  isSquareAttacked g.board kr kc (!checkWhiteKing)

/-- Member `moveLeavesKingInCheck` of the second copy: the answer and the state
left behind. -/
def moveLeavesKingInCheck (g : ChessGame) (startR startC endR endC : Int) :
    Bool × ChessGame :=
  let piece := cell g.board startR startC
  let target := cell g.board endR endC
  let origKR : Int :=
    if piece.toLower == 'k' then (if g.isWhiteTurn then g.whiteKingRow else g.blackKingRow)
    else -1
  let origKC : Int :=
    if piece.toLower == 'k' then (if g.isWhiteTurn then g.whiteKingCol else g.blackKingCol)
    else -1
  let g2 := simulateMove g startR startC endR endC
  let inCheck := isKingInCheck g2 g2.isWhiteTurn
  let g3 := { g2 with board := setCell (setCell g2.board startR startC piece) endR endC target }
  let g4 :=
    if origKR != -1 then
      if g3.isWhiteTurn then { g3 with whiteKingRow := origKR, whiteKingCol := origKC }
      else { g3 with blackKingRow := origKR, blackKingCol := origKC }
    else g3
  (inCheck, g4)

/-- Member `isValidPawnMove` of the second copy. -/
def isValidPawnMove (b : Board) (sr sc er ec : Int) (target : Char) : Bool :=
  let p := getPieceAt b sr sc
  let dir : Int := if isPieceWhite p then -1 else 1
  let start : Int := if isPieceWhite p then 6 else 1
  if decide (sc = ec) && decide (er = sr + dir) && target == '.' then true
  else if decide (sc = ec) && decide (sr = start) && decide (er = sr + 2 * dir)
      && target == '.' && getPieceAt b (sr + dir) sc == '.' then true
  else if decide ((sc - ec).natAbs = 1) && decide (er = sr + dir) && target != '.' then true
  else false

/-- The distinct values written to `errorMsg` by `isMoveValid` of the second copy. -/
inductive MoveError where
  | outOfBounds
  | emptyOrigin
  | wrongSide
  | ownCapture
  | sameSquare
  | unknownPiece
  | badPattern (piece : Char)
  | selfCheck
  deriving DecidableEq, Repr

/-- The text of each `errorMsg` of the second copy. -/
def MoveError.text : MoveError → String
  | .outOfBounds => "Coords out of bounds."
  | .emptyOrigin => "No piece at start."
  | .wrongSide => "Not your turn for that piece."
  | .ownCapture => "Cannot capture own piece."
  | .sameSquare => "Start=End."
  | .unknownPiece => "Unknown piece."
  | .badPattern p => "Invalid move pattern for " ++ String.singleton p ++ "."
  | .selfCheck => "Move leaves King in check."

/-- The `switch (tolower(piece))` of `isMoveValid` of the second copy. -/
def patternSwitch (b : Board) (piece : Char) (startR startC endR endC : Int)
    (target : Char) : Option Bool :=
  let k := piece.toLower
  if k == 'p' then some (isValidPawnMove b startR startC endR endC target)
  else if k == 'r' then some (isValidRookMove b startR startC endR endC)
  else if k == 'n' then some (isValidKnightMove startR startC endR endC)
  else if k == 'b' then some (isValidBishopMove b startR startC endR endC)
  else if k == 'q' then some (isValidQueenMove b startR startC endR endC)
  else if k == 'k' then some (isValidKingMove startR startC endR endC)
  else none

/-- Member `isMoveValid` of the second copy: `none` is `return true`, `some e` is
`return false` with message `e`; the second component is the state left behind. -/
def isMoveValid (g : ChessGame) (startR startC endR endC : Int) :
    Option MoveError × ChessGame :=
  if !isWithinBounds startR startC || !isWithinBounds endR endC then
    (some .outOfBounds, g)
  else
    let piece := getPieceAt g.board startR startC
    if piece == '.' then (some .emptyOrigin, g)
    else if isPieceWhite piece != g.isWhiteTurn then (some .wrongSide, g)
    else
      let target := getPieceAt g.board endR endC
      if target != '.' && (isPieceWhite target == g.isWhiteTurn) then (some .ownCapture, g)
      else if decide (startR = endR) && decide (startC = endC) then (some .sameSquare, g)
      else
        match patternSwitch g.board piece startR startC endR endC target with
        | none => (some .unknownPiece, g)
        | some valid =>
          if !valid then (some (.badPattern piece), g)
          else
            let res := moveLeavesKingInCheck g startR startC endR endC
            if res.1 then (some .selfCheck, res.2) else (none, res.2)

/-- Member `makeMove` of the second copy. -/
def makeMove (g : ChessGame) (startR startC endR endC : Int) : ChessGame :=
  let pieceMoved := cell g.board startR startC
  let capturedPiece := cell g.board endR endC
  let g1 :=
    if capturedPiece != '.' then
      if isPieceWhite capturedPiece then
        { g with blackCaptured := g.blackCaptured ++ [capturedPiece] }
      else { g with whiteCaptured := g.whiteCaptured ++ [capturedPiece] }
    else g
  let g2 := { g1 with board := setCell (setCell g1.board endR endC pieceMoved) startR startC '.' }
  let g3 :=
    if pieceMoved.toLower == 'k' then
      if g2.isWhiteTurn then { g2 with whiteKingRow := endR, whiteKingCol := endC }
      else { g2 with blackKingRow := endR, blackKingCol := endC }
    else g2
  let n1 := indexToNotation startR startC
  let n2 := n1 ++ (if capturedPiece != '.' then "x" else "-")
  let n3 := n2 ++ indexToNotation endR endC
  let opponentInCheck := isKingInCheck g3 (!g3.isWhiteTurn)
  let n4 := if opponentInCheck then n3 ++ "+" else n3
  { g3 with lastMoveNotation := n4, isWhiteTurn := !g3.isWhiteTurn }

end Second

/-! ## Vocabulary of the specification -/

/-- The twelve piece symbols. -/
def pieceSymbols : List Char := ['P', 'N', 'B', 'R', 'Q', 'K', 'p', 'n', 'b', 'r', 'q', 'k']

/-- A board that holds only the twelve piece symbols or `'.'`. -/
def BoardOK (b : Board) : Prop := ∀ i j, b i j = '.' ∨ b i j ∈ pieceSymbols

instance (b : Board) : Decidable (BoardOK b) := by unfold BoardOK; infer_instance

/-- The pattern rule of each of the twelve piece symbols (pawn, rook, knight,
bishop, queen, king of either colour). -/
def pieceRule (b : Board) (piece : Char) (sr sc er ec : Int) : Bool :=
  if piece = 'P' ∨ piece = 'p' then isValidPawnMove b sr sc er ec (getPieceAt b er ec)
  else if piece = 'R' ∨ piece = 'r' then isValidRookMove b sr sc er ec
  else if piece = 'N' ∨ piece = 'n' then isValidKnightMove sr sc er ec
  else if piece = 'B' ∨ piece = 'b' then isValidBishopMove b sr sc er ec
  else if piece = 'Q' ∨ piece = 'q' then isValidQueenMove b sr sc er ec
  else if piece = 'K' ∨ piece = 'k' then isValidKingMove sr sc er ec
  else false

/-- The seven checks of the validator in the order of the specification: for
each, whether it fails on the candidate move, and the error it then reports. -/
def orderedChecks (g : ChessGame) (sr sc er ec : Int) : List (Bool × MoveError) :=
  let piece := getPieceAt g.board sr sc
  let target := getPieceAt g.board er ec
  [ (!(isWithinBounds sr sc && isWithinBounds er ec), .outOfBounds),
    (piece == '.', .emptyOrigin sr sc),
    (isPieceWhite piece != g.isWhiteTurn, .wrongSide piece sr sc),
    (target != '.' && isPieceWhite target == g.isWhiteTurn, .ownCapture er ec),
    (decide (sr = er ∧ sc = ec), .sameSquare),
    (!pieceRule g.board piece sr sc er ec, .badPattern piece sr sc er ec),
    (isKingInCheck (simulateMove g sr sc er ec) g.isWhiteTurn, .selfCheck) ]

/-- The error of the first failing check, `none` when no check fails. -/
def firstFailure (g : ChessGame) (sr sc er ec : Int) : Option MoveError :=
  ((orderedChecks g sr sc er ec).find? (fun chk => chk.1)).map (fun chk => chk.2)

/-- Both cached king squares lie inside the board. -/
def KingsInBounds (g : ChessGame) : Prop :=
  isWithinBounds g.whiteKingRow g.whiteKingCol = true
    ∧ isWithinBounds g.blackKingRow g.blackKingCol = true

instance (g : ChessGame) : Decidable (KingsInBounds g) := by unfold KingsInBounds; infer_instance

/-- Every square strictly between `(r,c)` and `(r',c')`, walking from the first
towards the second along their common row, column or diagonal, is empty. -/
def PathClear (b : Board) (r c r' c' : Int) : Prop :=
  ∀ t : Int, 0 < t → t < max |r' - r| |c' - c| →
    getPieceAt b (r + t * Int.sign (r' - r)) (c + t * Int.sign (c' - c)) = '.'

/-- A pawn of the attacker stands diagonally behind `(r,c)` as seen from its own
direction of travel: on row `r+1` for White, `r-1` for Black, one column aside. -/
def PawnAttacks (b : Board) (r c : Int) (w : Bool) : Prop :=
  ∃ r' c' : Int, isWithinBounds r' c' = true
    ∧ getPieceAt b r' c' = (if w then 'P' else 'p')
    ∧ r' = (if w then r + 1 else r - 1) ∧ (c' = c - 1 ∨ c' = c + 1)

/-- A knight of the attacker stands at one of the eight knight offsets. -/
def KnightAttacks (b : Board) (r c : Int) (w : Bool) : Prop :=
  ∃ r' c' : Int, isWithinBounds r' c' = true
    ∧ getPieceAt b r' c' = (if w then 'N' else 'n')
    ∧ ((|r' - r| = 1 ∧ |c' - c| = 2) ∨ (|r' - r| = 2 ∧ |c' - c| = 1))

/-- A rook or queen of the attacker stands on another square of the same row or
column, with every square strictly between empty. -/
def StraightAttacks (b : Board) (r c : Int) (w : Bool) : Prop :=
  ∃ r' c' : Int, isWithinBounds r' c' = true
    ∧ (getPieceAt b r' c' = (if w then 'R' else 'r')
        ∨ getPieceAt b r' c' = (if w then 'Q' else 'q'))
    ∧ ((r' = r ∧ c' ≠ c) ∨ (c' = c ∧ r' ≠ r))
    ∧ PathClear b r c r' c'

/-- A bishop or queen of the attacker stands on another square of a common
diagonal, with every square strictly between empty. -/
def DiagonalAttacks (b : Board) (r c : Int) (w : Bool) : Prop :=
  ∃ r' c' : Int, isWithinBounds r' c' = true
    ∧ (getPieceAt b r' c' = (if w then 'B' else 'b')
        ∨ getPieceAt b r' c' = (if w then 'Q' else 'q'))
    ∧ |r' - r| = |c' - c| ∧ r' ≠ r
    ∧ PathClear b r c r' c'

/-- The king of the attacker stands on one of the eight neighbouring squares. -/
def KingAttacks (b : Board) (r c : Int) (w : Bool) : Prop :=
  ∃ r' c' : Int, isWithinBounds r' c' = true
    ∧ getPieceAt b r' c' = (if w then 'K' else 'k')
    ∧ |r' - r| ≤ 1 ∧ |c' - c| ≤ 1 ∧ (r' ≠ r ∨ c' ≠ c)

/-- The attack relation of the specification: some square holds a piece of the
attacker that attacks `(r,c)`. -/
def AttackedBy (b : Board) (r c : Int) (w : Bool) : Prop :=
  PawnAttacks b r c w ∨ KnightAttacks b r c w ∨ StraightAttacks b r c w
    ∨ DiagonalAttacks b r c w ∨ KingAttacks b r c w

/-- Some piece of colour `w` on a square other than `(r,c)` has a pattern move
to `(r,c)`. -/
def ReachedBy (b : Board) (r c : Int) (w : Bool) : Prop :=
  ∃ sr sc : Int, isWithinBounds sr sc = true
    ∧ getPieceAt b sr sc ≠ '.'
    ∧ isPieceWhite (getPieceAt b sr sc) = w
    ∧ ¬ (sr = r ∧ sc = c)
    ∧ pieceRule b (getPieceAt b sr sc) sr sc r c = true

/-- The candidate move passes checks 1 to 6 of `isMoveValid`: the verdict is
success or the self-check error, the only one issued after the pattern check. -/
def passesChecks1to6 (g : ChessGame) (sr sc er ec : Int) : Bool :=
  match (isMoveValid g sr sc er ec).1 with
  | none => true
  | some .selfCheck => true
  | some _ => false

/-- `c`'s king square is reached by a candidate move of the opponent that passes
checks 1 to 6 in the same position with the opponent to move. -/
def KingTargeted (g : ChessGame) (c : Bool) : Prop :=
  ∃ fromR fromC : Int,
    passesChecks1to6 { g with isWhiteTurn := !c } fromR fromC
      (if c then g.whiteKingRow else g.blackKingRow)
      (if c then g.whiteKingCol else g.blackKingCol) = true

/-- The test of `generateValidMoves` on an origin square: it holds a piece of the
side to move. -/
def ownsOrigin (g : ChessGame) (r c : Int) : Bool :=
  let piece := getPieceAt g.board r c
  piece != '.' && piece != ' '
    && ((g.isWhiteTurn && isPieceWhite piece) || (!g.isWhiteTurn && isPieceBlack piece))

/-- The score `generateValidMoves` gives to a move onto a square holding `t`. -/
def scoreOf (t : Char) : Int :=
  if t != '.' && t != ' ' then getPieceValue t else 1

/-- The moves contributed by one destination square. -/
def destMoves (g : ChessGame) (r c er ec : Int) : List Move :=
  if accepts g r c er ec then [Move.mk r c er ec (scoreOf (getPieceAt g.board er ec))] else []

/-- The moves contributed by one origin square. -/
def originMoves (g : ChessGame) (r c : Int) : List Move :=
  if ownsOrigin g r c then
    boardRange.flatMap (fun er => boardRange.flatMap (fun ec => destMoves g r c er ec))
  else []

/-- The material value of each of the twelve piece symbols. -/
def materialValue (t : Char) : Option Int :=
  if t = 'P' ∨ t = 'p' then some 10
  else if t = 'N' ∨ t = 'n' then some 30
  else if t = 'B' ∨ t = 'b' then some 30
  else if t = 'R' ∨ t = 'r' then some 50
  else if t = 'Q' ∨ t = 'q' then some 90
  else if t = 'K' ∨ t = 'k' then some 900
  else none

/-- Strict lexicographic order on `(startR, startC, endR, endC)`. -/
def moveLt (a b : Move) : Prop :=
  a.startR < b.startR ∨ (a.startR = b.startR ∧ (a.startC < b.startC ∨ (a.startC = b.startC
    ∧ (a.endR < b.endR ∨ (a.endR = b.endR ∧ a.endC < b.endC)))))

instance (a b : Move) : Decidable (moveLt a b) := by unfold moveLt; infer_instance

/-- The board of `sentinelState`: White king e1, White rooks a1 and h1, Black rooks
a8 and h2, Black king h8. -/
def sentinelRows : List (List Char) :=
  [['r', '.', '.', '.', '.', '.', '.', 'k'],
   ['.', '.', '.', '.', '.', '.', '.', '.'],
   ['.', '.', '.', '.', '.', '.', '.', '.'],
   ['.', '.', '.', '.', '.', '.', '.', '.'],
   ['.', '.', '.', '.', '.', '.', '.', '.'],
   ['.', '.', '.', '.', '.', '.', '.', '.'],
   ['.', '.', '.', '.', '.', '.', '.', 'r'],
   ['R', '.', '.', '.', 'K', '.', '.', 'R']]

/-- The state on `sentinelRows` with White to move and the White king cache
`(-1, 0)`. -/
def sentinelState : ChessGame :=
  { board := boardOfRows sentinelRows
    isWhiteTurn := true
    whiteKingRow := -1
    whiteKingCol := 0
    blackKingRow := 0
    blackKingCol := 7
    lastMoveNotation := "N/A"
    whiteCaptured := []
    blackCaptured := [] }

/-- The coordinates of a move. -/
def Move.key (m : Move) : Int × Int × Int × Int := (m.startR, m.startC, m.endR, m.endC)

/-- The twenty opening moves of White: the one- and two-square advances of the
eight pawns of row 6, and the knight moves b1-a3, b1-c3, g1-f3, g1-h3. -/
def openingMoves : List (Int × Int × Int × Int) :=
  boardRange.flatMap (fun c => [(6, c, 4, c), (6, c, 5, c)])
    ++ [(7, 1, 5, 0), (7, 1, 5, 2), (7, 6, 5, 5), (7, 6, 5, 7)]

/-- The king symbol of a colour (`true` is White). -/
def kingSym (w : Bool) : Char := if w then 'K' else 'k'

/-- The cached king row of a colour. -/
def kingRow (g : ChessGame) (w : Bool) : Int := if w then g.whiteKingRow else g.blackKingRow

/-- The cached king column of a colour. -/
def kingCol (g : ChessGame) (w : Bool) : Int := if w then g.whiteKingCol else g.blackKingCol

/-- The states of a game: the opening position, and every state obtained from a
state of a game by `makeMove` of a move that `isMoveValid` accepted there (applied
to the state that `isMoveValid` left behind). -/
inductive Reachable : ChessGame → Prop where
  | init : Reachable initializeBoard
  | step (g : ChessGame) (sr sc er ec : Int) :
      Reachable g → (isMoveValid g sr sc er ec).1 = none →
      Reachable (makeMove (isMoveValid g sr sc er ec).2 sr sc er ec)

/-- The invariant of the game: the board holds piece symbols and `'.'`, each cached
king square is on the board and is the one square holding that king, and the side
that is not to move is not in check. -/
structure GameInv (g : ChessGame) : Prop where
  boardOK : BoardOK g.board
  inb : ∀ w, isWithinBounds (kingRow g w) (kingCol g w) = true
  king : ∀ w (i j : Fin 8),
    g.board i j = kingSym w ↔ (i = idx (kingRow g w) ∧ j = idx (kingCol g w))
  safe : isKingInCheck g (!g.isWhiteTurn) = false

/-- The algebraic name of a square: file letter `a` to `h` for columns 0 to 7, then
rank digit `8` down to `1` for rows 0 to 7. -/
def algebraicName (r c : Int) : String :=
  String.mk ["abcdefgh".data.getD c.toNat '?', "87654321".data.getD r.toNat '?']

/-- The state after 1. e2-e4 d7-d5. -/
def scandinavianState : ChessGame := makeMove (makeMove initializeBoard 6 4 4 4) 1 3 3 3

/-- The state after 1. f2-f3 e7-e5 2. g2-g4 d8-h4, each move decoded from its typed
form and applied to the state its validation left behind. -/
def foolsMateState : ChessGame :=
  makeMove (isMoveValid
    (makeMove (isMoveValid
      (makeMove (isMoveValid
        (makeMove (isMoveValid initializeBoard 6 5 5 5).2 6 5 5 5) 1 4 3 4).2 1 4 3 4)
      6 6 4 6).2 6 6 4 6)
    0 3 4 7).2 0 3 4 7

/-- The board of `openFileState`: White king e1, White rook a1, Black queen e8,
Black king h8. -/
def openFileRows : List (List Char) :=
  [['.', '.', '.', '.', 'q', '.', '.', 'k'],
   ['.', '.', '.', '.', '.', '.', '.', '.'],
   ['.', '.', '.', '.', '.', '.', '.', '.'],
   ['.', '.', '.', '.', '.', '.', '.', '.'],
   ['.', '.', '.', '.', '.', '.', '.', '.'],
   ['.', '.', '.', '.', '.', '.', '.', '.'],
   ['.', '.', '.', '.', '.', '.', '.', '.'],
   ['R', '.', '.', '.', 'K', '.', '.', '.']]

/-- The state on `openFileRows` with White to move. -/
def openFileState : ChessGame :=
  { board := boardOfRows openFileRows
    isWhiteTurn := true
    whiteKingRow := 7
    whiteKingCol := 4
    blackKingRow := 0
    blackKingCol := 7
    lastMoveNotation := "N/A"
    whiteCaptured := []
    blackCaptured := [] }

/-- The board of `captureState`: Black king h8, Black rook a8, White rook a1, White
king e1. -/
def captureRows : List (List Char) :=
  [['r', '.', '.', '.', '.', '.', '.', 'k'],
   ['.', '.', '.', '.', '.', '.', '.', '.'],
   ['.', '.', '.', '.', '.', '.', '.', '.'],
   ['.', '.', '.', '.', '.', '.', '.', '.'],
   ['.', '.', '.', '.', '.', '.', '.', '.'],
   ['.', '.', '.', '.', '.', '.', '.', '.'],
   ['.', '.', '.', '.', '.', '.', '.', '.'],
   ['R', '.', '.', '.', 'K', '.', '.', '.']]

/-- The state on `captureRows` with Black to move: one capture, a8xa1 of value 50,
among quiet moves. -/
def captureState : ChessGame :=
  { board := boardOfRows captureRows
    isWhiteTurn := false
    whiteKingRow := 7
    whiteKingCol := 4
    blackKingRow := 0
    blackKingCol := 7
    lastMoveNotation := "N/A"
    whiteCaptured := []
    blackCaptured := [] }

/-- The candidate move passes checks 1 to 5 of `isMoveValid`: the verdict is none
of the five errors issued before the pattern check. -/
def passesChecks1to5 (g : ChessGame) (sr sc er ec : Int) : Bool :=
  match (isMoveValid g sr sc er ec).1 with
  | some .outOfBounds => false
  | some (.emptyOrigin _ _) => false
  | some (.wrongSide _ _ _) => false
  | some (.ownCapture _ _) => false
  | some .sameSquare => false
  | _ => true

/-- The row step of a pawn: towards row 0 for White, towards row 7 for Black. -/
def pawnForward (w : Bool) : Int := if w then -1 else 1

/-- The home row of the pawns: row 6 for White, row 1 for Black. -/
def pawnHomeRow (w : Bool) : Int := if w then 6 else 1

/-- The square holds a piece that is not of colour `w`: it is neither empty (`'.'`,
or the off-board `' '`) nor a piece of colour `w`. -/
def EnemyOccupied (w : Bool) (t : Char) : Prop :=
  t ≠ '.' ∧ t ≠ ' ' ∧ (if w then isPieceWhite t else isPieceBlack t) = false

instance (w : Bool) (t : Char) : Decidable (EnemyOccupied w t) := by
  unfold EnemyOccupied; infer_instance

/-- Pawn pattern (a): same column, one row forward, destination empty. -/
def PawnStep (b : Board) (w : Bool) (sr sc er ec : Int) : Prop :=
  sc = ec ∧ er = sr + pawnForward w ∧ getPieceAt b er ec = '.'

/-- Pawn pattern (b): same column, two rows forward from the home row, the skipped
square and the destination empty. -/
def PawnDoubleStep (b : Board) (w : Bool) (sr sc er ec : Int) : Prop :=
  sc = ec ∧ er = sr + 2 * pawnForward w ∧ sr = pawnHomeRow w
    ∧ getPieceAt b (sr + pawnForward w) sc = '.' ∧ getPieceAt b er ec = '.'

/-- Pawn pattern (c): one column aside, one row forward, destination occupied by an
enemy piece. -/
def PawnCapture (b : Board) (w : Bool) (sr sc er ec : Int) : Prop :=
  |ec - sc| = 1 ∧ er = sr + pawnForward w ∧ EnemyOccupied w (getPieceAt b er ec)

instance (b : Board) (w : Bool) (sr sc er ec : Int) : Decidable (PawnStep b w sr sc er ec) := by
  unfold PawnStep; infer_instance

instance (b : Board) (w : Bool) (sr sc er ec : Int) :
    Decidable (PawnDoubleStep b w sr sc er ec) := by
  unfold PawnDoubleStep; infer_instance

instance (b : Board) (w : Bool) (sr sc er ec : Int) :
    Decidable (PawnCapture b w sr sc er ec) := by
  unfold PawnCapture; infer_instance

/-- The board of `lastRowState`: a White pawn on a8, the Black king on e8, the White
king on e1. -/
def lastRowRows : List (List Char) :=
  [['P', '.', '.', '.', 'k', '.', '.', '.'],
   ['.', '.', '.', '.', '.', '.', '.', '.'],
   ['.', '.', '.', '.', '.', '.', '.', '.'],
   ['.', '.', '.', '.', '.', '.', '.', '.'],
   ['.', '.', '.', '.', '.', '.', '.', '.'],
   ['.', '.', '.', '.', '.', '.', '.', '.'],
   ['.', '.', '.', '.', '.', '.', '.', '.'],
   ['.', '.', '.', '.', 'K', '.', '.', '.']]

/-- The state on `lastRowRows` with White to move. -/
def lastRowState : ChessGame :=
  { board := boardOfRows lastRowRows
    isWhiteTurn := true
    whiteKingRow := 7
    whiteKingCol := 4
    blackKingRow := 0
    blackKingCol := 4
    lastMoveNotation := "N/A"
    whiteCaptured := []
    blackCaptured := [] }

/-- The first loop of `makeAIMove`: the running maximum `bestScore` of the scores,
started at `-1`. -/
def bestScoreOf (validMoves : List Move) : Int :=
  validMoves.foldl (fun best move => if move.score > best then move.score else best) (-1)

/-- The second loop of `makeAIMove`: the vector `bestMoves` of the moves whose score
is `bestScore`. -/
def bestMovesOf (validMoves : List Move) : List Move :=
  validMoves.filter (fun move => move.score == bestScoreOf validMoves)

/-- Member `isValidRookMove` with its `while` loop limited to `fuel` iterations:
`none` when the loop needs more. -/
def rookMoveWithin (b : Board) (sr sc er ec : Int) (fuel : Nat) : Option Bool :=
  if decide (sr ≠ er) && decide (sc ≠ ec) then some false
  else
    let stepR : Int := if er > sr then 1 else (if er < sr then -1 else 0)
    let stepC : Int := if ec > sc then 1 else (if ec < sc then -1 else 0)
    pathLoop b er ec stepR stepC fuel (sr + stepR) (sc + stepC)

/-- The 64 squares of the board, row by row. -/
def allSquares : List (Fin 8 × Fin 8) :=
  (List.finRange 8).flatMap (fun i => (List.finRange 8).map (fun j => (i, j)))

/-- The number of occupied squares of a board: the cells that do not hold `'.'`. -/
def occupiedCount (b : Board) : Nat := allSquares.countP (fun p => b p.1 p.2 != '.')

/-- The Black pieces that can be captured: every Black symbol but the king. -/
def blackCapturable : List Char := ['p', 'n', 'b', 'r', 'q']

/-- The White pieces that can be captured: every White symbol but the king. -/
def whiteCapturable : List Char := ['P', 'N', 'B', 'R', 'Q']

/-- The material account of the specification: 32 pieces on the board or captured,
Black pieces only in `whiteCaptured`, White pieces only in `blackCaptured`, no king
in either. -/
def MaterialInv (g : ChessGame) : Prop :=
  occupiedCount g.board + g.whiteCaptured.length + g.blackCaptured.length = 32
    ∧ (∀ t ∈ g.whiteCaptured, t ∈ blackCapturable)
    ∧ (∀ t ∈ g.blackCaptured, t ∈ whiteCapturable)

/-- The state after 1. e2-e4 d7-d5 2. e4xd5, each move applied to the state its
validation left behind. -/
def pawnTakenState : ChessGame :=
  makeMove (isMoveValid
    (makeMove (isMoveValid
      (makeMove (isMoveValid initializeBoard 6 4 4 4).2 6 4 4 4) 1 3 3 3).2 1 3 3 3)
    4 4 3 3).2 4 4 3 3

/-- The check of the second copy that corresponds to each error of the first. -/
def MoveError.toSecond : MoveError → Second.MoveError
  | .outOfBounds => .outOfBounds
  | .emptyOrigin _ _ => .emptyOrigin
  | .wrongSide _ _ _ => .wrongSide
  | .ownCapture _ _ => .ownCapture
  | .sameSquare => .sameSquare
  | .unknownPiece => .unknownPiece
  | .badPattern p _ _ _ _ => .badPattern p
  | .selfCheck => .selfCheck

/-- The piece of the other colour: an upper-case letter becomes lower-case and a
lower-case letter upper-case; `'.'` and every other character stay. -/
def swapColour (p : Char) : Char :=
  if p.isUpper then p.toLower else if p.isLower then p.toUpper else p

/-- The board reflected top to bottom (row `r` becomes row `7 - r`) with the colour
of every piece swapped. -/
def mirrorBoard (b : Board) : Board := fun i j => swapColour (b (Fin.rev i) j)

/-- The mirror image of a state: the board reflected and recoloured, the two cached
king squares swapped and reflected, the side to move flipped, the captured lists
swapped and recoloured. -/
def mirror (g : ChessGame) : ChessGame :=
  { board := mirrorBoard g.board
    isWhiteTurn := !g.isWhiteTurn
    whiteKingRow := 7 - g.blackKingRow
    whiteKingCol := g.blackKingCol
    blackKingRow := 7 - g.whiteKingRow
    blackKingCol := g.whiteKingCol
    lastMoveNotation := g.lastMoveNotation
    whiteCaptured := g.blackCaptured.map swapColour
    blackCaptured := g.whiteCaptured.map swapColour }

/-! ## Lemmas -/

theorem isWithinBounds_iff (r c : Int) :
    isWithinBounds r c = true ↔ (0 ≤ r ∧ r < 8 ∧ 0 ≤ c ∧ c < 8) := by
  simp [isWithinBounds, and_assoc]

theorem isWithinBounds_false_iff (r c : Int) :
    isWithinBounds r c = false ↔ ¬ (0 ≤ r ∧ r < 8 ∧ 0 ≤ c ∧ c < 8) := by
  rw [← isWithinBounds_iff]; simp

theorem idx_val (i : Int) (h0 : 0 ≤ i) (h8 : i < 8) : ((idx i).val : Int) = i := by
  unfold idx Fin.ofNat
  simp
  omega

theorem idx_inj (i j : Int) (hi0 : 0 ≤ i) (hi8 : i < 8) (hj0 : 0 ≤ j) (hj8 : j < 8) :
    idx i = idx j ↔ i = j := by
  constructor
  · intro h
    have := idx_val i hi0 hi8
    rw [h, idx_val j hj0 hj8] at this
    exact this.symm
  · intro h; rw [h]

theorem sym_cases {c : Char} (h : c = '.' ∨ c ∈ pieceSymbols) :
    c = '.' ∨ c = 'P' ∨ c = 'N' ∨ c = 'B' ∨ c = 'R' ∨ c = 'Q' ∨ c = 'K'
      ∨ c = 'p' ∨ c = 'n' ∨ c = 'b' ∨ c = 'r' ∨ c = 'q' ∨ c = 'k' := by
  simpa [pieceSymbols] using h

theorem getPieceAt_inb (b : Board) (r c : Int) (h : isWithinBounds r c = true) :
    getPieceAt b r c = cell b r c := by
  simp [getPieceAt, h]

theorem getPieceAt_oob (b : Board) (r c : Int) (h : isWithinBounds r c = false) :
    getPieceAt b r c = ' ' := by
  simp [getPieceAt, h]

theorem getPieceAt_sym (b : Board) (hb : BoardOK b) (r c : Int)
    (h : isWithinBounds r c = true) :
    getPieceAt b r c = '.' ∨ getPieceAt b r c ∈ pieceSymbols := by
  rw [getPieceAt_inb b r c h]; exact hb _ _

theorem emptyTest_sym {p : Char} (h : p = '.' ∨ p ∈ pieceSymbols) :
    (p == '.' || p == ' ') = (p == '.') := by
  rcases sym_cases h with h | h | h | h | h | h | h | h | h | h | h | h | h <;> subst h <;> decide

theorem sideTest_sym {p : Char} (h : p = '.' ∨ p ∈ pieceSymbols) (hne : p ≠ '.') (w : Bool) :
    ((w && !isPieceWhite p) || (!w && !isPieceBlack p)) = (isPieceWhite p != w) := by
  rcases sym_cases h with h | h | h | h | h | h | h | h | h | h | h | h | h <;> subst h <;>
    cases w <;> first | decide | exact absurd rfl hne

theorem ownTest_sym {t : Char} (h : t = '.' ∨ t ∈ pieceSymbols) (w : Bool) :
    (t != '.' && t != ' ' && ((w && isPieceWhite t) || (!w && isPieceBlack t)))
      = (t != '.' && isPieceWhite t == w) := by
  rcases sym_cases h with h | h | h | h | h | h | h | h | h | h | h | h | h <;> subst h <;>
    cases w <;> decide

theorem patternSwitch_sym (b : Board) {p : Char} (h : p = '.' ∨ p ∈ pieceSymbols)
    (hne : p ≠ '.') (sr sc er ec : Int) :
    patternSwitch b p sr sc er ec (getPieceAt b er ec) = some (pieceRule b p sr sc er ec) := by
  rcases sym_cases h with h | h | h | h | h | h | h | h | h | h | h | h | h <;> subst h <;>
    first
    | exact absurd rfl hne
    | simp [patternSwitch, pieceRule]

theorem simulateMove_isWhiteTurn (g : ChessGame) (sr sc er ec : Int) :
    (simulateMove g sr sc er ec).isWhiteTurn = g.isWhiteTurn := by
  unfold simulateMove
  simp only
  split_ifs <;> rfl

theorem moveLeavesKingInCheck_fst (g : ChessGame) (sr sc er ec : Int) :
    (moveLeavesKingInCheck g sr sc er ec).1
      = isKingInCheck (simulateMove g sr sc er ec) g.isWhiteTurn := by
  simp [moveLeavesKingInCheck, simulateMove_isWhiteTurn]

theorem setCell_restore (b : Board) (sr sc er ec : Int) :
    setCell (setCell (setCell (setCell b er ec (cell b sr sc)) sr sc '.') sr sc (cell b sr sc))
      er ec (cell b er ec) = b := by
  funext i j
  simp only [setCell, cell]
  by_cases h1 : i = idx er ∧ j = idx ec
  · simp [h1]
  · by_cases h2 : i = idx sr ∧ j = idx sc
    · simp only [h1, h2, and_self, if_true, if_false]
      split_ifs with h3
      · rw [h3.1, h3.2]
      · rfl
    · simp [h1, h2]

theorem simulateMove_board (g : ChessGame) (sr sc er ec : Int) :
    (simulateMove g sr sc er ec).board
      = setCell (setCell g.board er ec (cell g.board sr sc)) sr sc '.' := by
  unfold simulateMove
  simp only
  split_ifs <;> rfl

/-- The board is put back by `moveLeavesKingInCheck` in every state. -/
theorem moveLeavesKingInCheck_board (g : ChessGame) (sr sc er ec : Int) :
    (moveLeavesKingInCheck g sr sc er ec).2.board = g.board := by
  have h := setCell_restore g.board sr sc er ec
  unfold moveLeavesKingInCheck
  simp only [simulateMove_board]
  split_ifs <;> exact h

/-- The whole state is put back by `moveLeavesKingInCheck` when the cached row of
the mover's king is not the sentinel `-1`. -/
theorem moveLeavesKingInCheck_state (g : ChessGame) (sr sc er ec : Int)
    (hk : (if g.isWhiteTurn then g.whiteKingRow else g.blackKingRow) ≠ -1) :
    (moveLeavesKingInCheck g sr sc er ec).2 = g := by
  have h := setCell_restore g.board sr sc er ec
  obtain ⟨b, w, wr, wc, br, bc, n, wl, bl⟩ := g
  simp only at h hk
  unfold moveLeavesKingInCheck simulateMove
  by_cases hking : ((cell b sr sc).toLower == 'k') = true
  · cases w
    · simp only [Bool.false_eq_true, if_false] at hk
      simp [hking, hk, h]
    · simp only [if_true] at hk
      simp [hking, hk, h]
  · simp [hking, h]

theorem KingsInBounds.mover_ne (g : ChessGame) (h : KingsInBounds g) :
    (if g.isWhiteTurn then g.whiteKingRow else g.blackKingRow) ≠ -1 := by
  obtain ⟨h1, h2⟩ := h
  rw [isWithinBounds_iff] at h1 h2
  split_ifs <;> omega

/-- The state left by `isMoveValid` is the state it was called in, or the state
left by the self-check probe. -/
theorem isMoveValid_snd (g : ChessGame) (sr sc er ec : Int) :
    (isMoveValid g sr sc er ec).2 = g
      ∨ (isMoveValid g sr sc er ec).2 = (moveLeavesKingInCheck g sr sc er ec).2 := by
  unfold isMoveValid
  simp only []
  repeat' split
  all_goals first | (left; rfl) | (right; rfl)

/-- The board is left as found by `isMoveValid` in every state. -/
theorem isMoveValid_board (g : ChessGame) (sr sc er ec : Int) :
    (isMoveValid g sr sc er ec).2.board = g.board := by
  rcases isMoveValid_snd g sr sc er ec with h | h
  · rw [h]
  · rw [h]; exact moveLeavesKingInCheck_board g sr sc er ec

theorem isMoveValid_state_of_ne (g : ChessGame) (sr sc er ec : Int)
    (hk : (if g.isWhiteTurn then g.whiteKingRow else g.blackKingRow) ≠ -1) :
    (isMoveValid g sr sc er ec).2 = g := by
  rcases isMoveValid_snd g sr sc er ec with h | h
  · exact h
  · rw [h]; exact moveLeavesKingInCheck_state g sr sc er ec hk

theorem rayLoop_some_true_iff (b : Board) (r c d0 d1 : Int) (a1 a2 : Char)
    (h1 : a1 ≠ '.' ∧ a1 ≠ ' ') (h2 : a2 ≠ '.' ∧ a2 ≠ ' ') :
    ∀ (fuel : Nat) (i : Int),
      rayLoop b r c d0 d1 a1 a2 fuel i = some true ↔
        ∃ k : Nat, k < fuel
          ∧ isWithinBounds (r + (i + k) * d0) (c + (i + k) * d1) = true
          ∧ (getPieceAt b (r + (i + k) * d0) (c + (i + k) * d1) = a1
              ∨ getPieceAt b (r + (i + k) * d0) (c + (i + k) * d1) = a2)
          ∧ ∀ j : Nat, j < k →
              isWithinBounds (r + (i + j) * d0) (c + (i + j) * d1) = true
              ∧ (getPieceAt b (r + (i + j) * d0) (c + (i + j) * d1) = '.'
                  ∨ getPieceAt b (r + (i + j) * d0) (c + (i + j) * d1) = ' ') := by
  intro fuel
  induction fuel with
  | zero => intro i; simp [rayLoop]
  | succ n ih =>
    intro i
    rw [rayLoop]
    simp only []
    by_cases hin : isWithinBounds (r + i * d0) (c + i * d1) = true
    · simp only [hin, Bool.not_true, Bool.false_eq_true, if_false]
      by_cases hemp : getPieceAt b (r + i * d0) (c + i * d1) = '.'
          ∨ getPieceAt b (r + i * d0) (c + i * d1) = ' '
      · have hne : (getPieceAt b (r + i * d0) (c + i * d1) != '.'
            && getPieceAt b (r + i * d0) (c + i * d1) != ' ') = false := by
          rcases hemp with h | h <;> simp [h]
        simp only [hne, Bool.false_eq_true, if_false]
        rw [ih (i + 1)]
        constructor
        · rintro ⟨k, hk, hkin, hkp, hkj⟩
          refine ⟨k + 1, by omega, ?_, ?_, ?_⟩
          · have : (i + ((k + 1 : Nat) : Int)) = i + 1 + k := by push_cast; ring
            rw [this]; exact hkin
          · have : (i + ((k + 1 : Nat) : Int)) = i + 1 + k := by push_cast; ring
            rw [this]; exact hkp
          · intro j hj
            cases j with
            | zero => simpa using ⟨hin, hemp⟩
            | succ j =>
              have : (i + ((j + 1 : Nat) : Int)) = i + 1 + j := by push_cast; ring
              rw [this]; exact hkj j (by omega)
        · rintro ⟨k, hk, hkin, hkp, hkj⟩
          cases k with
          | zero =>
            exfalso
            simp only [Nat.cast_zero, add_zero] at hkp
            rcases hkp with h | h <;> rcases hemp with h' | h' <;> rw [h] at h'
            · exact h1.1 h'
            · exact h1.2 h'
            · exact h2.1 h'
            · exact h2.2 h'
          | succ k =>
            have e : ∀ m : Nat, (i + ((m + 1 : Nat) : Int)) = i + 1 + m := by
              intro m; push_cast; ring
            refine ⟨k, by omega, ?_, ?_, ?_⟩
            · rw [← e]; exact hkin
            · rw [← e]; exact hkp
            · intro j hj
              rw [← e]; exact hkj (j + 1) (by omega)
      · have hne : (getPieceAt b (r + i * d0) (c + i * d1) != '.'
            && getPieceAt b (r + i * d0) (c + i * d1) != ' ') = true := by
          simp only [not_or] at hemp
          simp [hemp.1, hemp.2]
        simp only [hne, if_true]
        constructor
        · intro h
          have hp : getPieceAt b (r + i * d0) (c + i * d1) = a1
              ∨ getPieceAt b (r + i * d0) (c + i * d1) = a2 := by
            by_contra hcon
            simp only [not_or] at hcon
            simp [hcon.1, hcon.2] at h
          exact ⟨0, by omega, by simpa using hin, by simpa using hp, by intro j hj; omega⟩
        · rintro ⟨k, hk, hkin, hkp, hkj⟩
          cases k with
          | zero =>
            simp only [Nat.cast_zero, add_zero] at hkp
            rcases hkp with h | h <;> simp [h]
          | succ k =>
            exfalso
            have := (hkj 0 (by omega)).2
            simp only [Nat.cast_zero, add_zero] at this
            exact hemp this
    · have hin' : isWithinBounds (r + i * d0) (c + i * d1) = false := by simpa using hin
      simp only [hin', Bool.not_false, if_true]
      constructor
      · intro h; cases h
      · rintro ⟨k, hk, hkin, hkp, hkj⟩
        exfalso
        cases k with
        | zero => simp [hin'] at hkin
        | succ k =>
          have := (hkj 0 (by omega)).1
          simp [hin'] at this

theorem pathLoop_some_true_iff (b : Board) (er ec stepR stepC : Int) :
    ∀ (fuel : Nat) (cr cc : Int),
      pathLoop b er ec stepR stepC fuel cr cc = some true ↔
        ∃ n : Nat, n ≤ fuel ∧ cr + n * stepR = er ∧ cc + n * stepC = ec
          ∧ ∀ j : Nat, j < n →
              (cr + j * stepR ≠ er ∨ cc + j * stepC ≠ ec)
              ∧ getPieceAt b (cr + j * stepR) (cc + j * stepC) = '.' := by
  intro fuel
  induction fuel with
  | zero =>
    intro cr cc
    rw [pathLoop]
    by_cases hat : cr = er ∧ cc = ec
    · have : (cr != er || cc != ec) = false := by simp [hat.1, hat.2]
      simp only [this, Bool.false_eq_true, if_false, true_iff]
      exact ⟨0, le_refl _, by simpa using hat.1, by simpa using hat.2, by intro j hj; omega⟩
    · have : (cr != er || cc != ec) = true := by
        simp only [Bool.or_eq_true, bne_iff_ne]; tauto
      simp only [this, if_true]
      constructor
      · intro h; cases h
      · rintro ⟨n, hn, h1, h2, -⟩
        have : n = 0 := by omega
        subst this
        simp only [Nat.cast_zero, zero_mul, add_zero] at h1 h2
        exact absurd ⟨h1, h2⟩ hat
  | succ f ih =>
    intro cr cc
    rw [pathLoop]
    have e : ∀ (x s : Int) (m : Nat), x + ((m + 1 : Nat) : Int) * s = x + s + m * s := by
      intro x s m; push_cast; ring
    by_cases hat : cr = er ∧ cc = ec
    · have : (cr != er || cc != ec) = false := by simp [hat.1, hat.2]
      simp only [this, Bool.false_eq_true, if_false, true_iff]
      exact ⟨0, by omega, by simpa using hat.1, by simpa using hat.2, by intro j hj; omega⟩
    · have hne : (cr != er || cc != ec) = true := by
        simp only [Bool.or_eq_true, bne_iff_ne]; tauto
      simp only [hne, if_true]
      by_cases hemp : getPieceAt b cr cc = '.'
      · have : (getPieceAt b cr cc != '.') = false := by simp [hemp]
        simp only [this, Bool.false_eq_true, if_false]
        rw [ih]
        constructor
        · rintro ⟨n, hn, h1, h2, hj⟩
          refine ⟨n + 1, by omega, by rw [e]; exact h1, by rw [e]; exact h2, ?_⟩
          intro j hjn
          cases j with
          | zero =>
            simp only [Nat.cast_zero, zero_mul, add_zero]
            exact ⟨by tauto, hemp⟩
          | succ j => rw [e, e]; exact hj j (by omega)
        · rintro ⟨n, hn, h1, h2, hj⟩
          cases n with
          | zero =>
            simp only [Nat.cast_zero, zero_mul, add_zero] at h1 h2
            exact absurd ⟨h1, h2⟩ hat
          | succ n =>
            refine ⟨n, by omega, by rw [← e]; exact h1, by rw [← e]; exact h2, ?_⟩
            intro j hjn
            rw [← e, ← e]; exact hj (j + 1) (by omega)
      · have : (getPieceAt b cr cc != '.') = true := by simp [hemp]
        simp only [this, if_true]
        constructor
        · intro h; cases h
        · rintro ⟨n, hn, h1, h2, hj⟩
          cases n with
          | zero =>
            simp only [Nat.cast_zero, zero_mul, add_zero] at h1 h2
            exact absurd ⟨h1, h2⟩ hat
          | succ n =>
            have := (hj 0 (by omega)).2
            simp only [Nat.cast_zero, zero_mul, add_zero] at this
            exact absurd this hemp

theorem getPieceAt_dot_inb {b : Board} {r c : Int} (h : getPieceAt b r c = '.') :
    0 ≤ r ∧ r < 8 ∧ 0 ≤ c ∧ c < 8 := by
  by_contra hcon
  rw [← isWithinBounds_false_iff] at hcon
  rw [getPieceAt_oob b r c hcon] at h
  exact absurd h (by decide)

theorem unit_dir_cases {d0 d1 : Int} (hd : (d0, d1) ∈ kingOffsets) :
    (d0 = -1 ∧ d1 = -1) ∨ (d0 = -1 ∧ d1 = 0) ∨ (d0 = -1 ∧ d1 = 1) ∨ (d0 = 0 ∧ d1 = -1)
      ∨ (d0 = 0 ∧ d1 = 1) ∨ (d0 = 1 ∧ d1 = -1) ∨ (d0 = 1 ∧ d1 = 0) ∨ (d0 = 1 ∧ d1 = 1) := by
  simpa [kingOffsets] using hd

/-- The path loop started one step from `(sr,sc)` in a unit direction, with the
target `n ≥ 1` steps away, succeeds exactly when the `n-1` squares in between are
all `'.'`; the step budget is never the reason for failing. -/
theorem pathLoop_line (b : Board) (sr sc d0 d1 : Int) (hd : (d0, d1) ∈ kingOffsets)
    (n : Int) (hn : 1 ≤ n) :
    pathLoop b (sr + n * d0) (sc + n * d1) d0 d1 loopFuel (sr + d0) (sc + d1) = some true
      ↔ ∀ t : Int, 0 < t → t < n → getPieceAt b (sr + t * d0) (sc + t * d1) = '.' := by
  rw [pathLoop_some_true_iff]
  constructor
  · rintro ⟨m, -, h1, h2, hj⟩ t ht0 htn
    have hm : (m : Int) = n - 1 := by
      rcases unit_dir_cases hd with h | h | h | h | h | h | h | h <;>
        obtain ⟨rfl, rfl⟩ := h <;> omega
    have := (hj (t - 1).toNat (by omega)).2
    have e : (((t - 1).toNat : Nat) : Int) = t - 1 := by omega
    rw [e] at this
    have e1 : sr + d0 + (t - 1) * d0 = sr + t * d0 := by ring
    have e2 : sc + d1 + (t - 1) * d1 = sc + t * d1 := by ring
    rw [e1, e2] at this
    exact this
  · intro h
    have hbound : n ≤ 9 := by
      by_contra hcon
      have i1 := getPieceAt_dot_inb (h 1 (by omega) (by omega))
      have i9 := getPieceAt_dot_inb (h 9 (by omega) (by omega))
      rcases unit_dir_cases hd with h | h | h | h | h | h | h | h <;>
        obtain ⟨rfl, rfl⟩ := h <;> omega
    refine ⟨(n - 1).toNat, by unfold loopFuel; omega, ?_, ?_, ?_⟩
    · have e : (((n - 1).toNat : Nat) : Int) = n - 1 := by omega
      rw [e]; ring
    · have e : (((n - 1).toNat : Nat) : Int) = n - 1 := by omega
      rw [e]; ring
    · intro j hj
      have hj' : (j : Int) + 1 < n := by omega
      constructor
      · rcases unit_dir_cases hd with h | h | h | h | h | h | h | h <;>
          obtain ⟨rfl, rfl⟩ := h <;> omega
      · have := h (j + 1) (by omega) hj'
        have e1 : sr + d0 + j * d0 = sr + (j + 1) * d0 := by ring
        have e2 : sc + d1 + j * d1 = sc + (j + 1) * d1 := by ring
        rw [e1, e2]; exact this

theorem pathClear_dir (b : Board) (r c d0 d1 : Int) (hd : (d0, d1) ∈ kingOffsets)
    (n : Int) (hn : 0 ≤ n) :
    PathClear b r c (r + n * d0) (c + n * d1)
      ↔ ∀ t : Int, 0 < t → t < n → getPieceAt b (r + t * d0) (c + t * d1) = '.' := by
  unfold PathClear
  rcases hn.eq_or_lt with h0 | hpos
  · subst h0
    simp only [zero_mul, add_zero, sub_self, abs_zero, max_self]
    constructor <;> intro _ t h1 h2 <;> omega
  · have hmax : max |r + n * d0 - r| |c + n * d1 - c| = n := by
      rcases unit_dir_cases hd with h | h | h | h | h | h | h | h <;>
        obtain ⟨rfl, rfl⟩ := h <;> simp only [abs] <;> omega
    have hs0 : Int.sign (r + n * d0 - r) = d0 := by
      rcases unit_dir_cases hd with h | h | h | h | h | h | h | h <;>
        obtain ⟨rfl, rfl⟩ := h <;>
        first
        | (simp only [mul_zero, add_zero, sub_self]; rfl)
        | (apply Int.sign_eq_one_of_pos; omega)
        | (apply Int.sign_eq_neg_one_of_neg; omega)
    have hs1 : Int.sign (c + n * d1 - c) = d1 := by
      rcases unit_dir_cases hd with h | h | h | h | h | h | h | h <;>
        obtain ⟨rfl, rfl⟩ := h <;>
        first
        | (simp only [mul_zero, add_zero, sub_self]; rfl)
        | (apply Int.sign_eq_one_of_pos; omega)
        | (apply Int.sign_eq_neg_one_of_neg; omega)
    rw [hmax, hs0, hs1]

theorem sign_cases (x : Int) :
    (x < 0 ∧ Int.sign x = -1) ∨ (x = 0 ∧ Int.sign x = 0) ∨ (0 < x ∧ Int.sign x = 1) := by
  rcases lt_trichotomy x 0 with h | h | h
  · exact Or.inl ⟨h, Int.sign_eq_neg_one_of_neg h⟩
  · exact Or.inr (Or.inl ⟨h, by rw [h]; rfl⟩)
  · exact Or.inr (Or.inr ⟨h, Int.sign_eq_one_of_pos h⟩)

/-- Two squares on a common row, column or diagonal, `n` unit steps apart. -/
theorem line_decompose (r c r' c' : Int)
    (h : r = r' ∨ c = c' ∨ |r' - r| = |c' - c|) :
    (r' = r ∧ c' = c) ∨ ∃ d0 d1 n, (d0, d1) ∈ kingOffsets ∧ 1 ≤ n ∧ n = max |r' - r| |c' - c|
      ∧ r' = r + n * d0 ∧ c' = c + n * d1 := by
  by_cases hsame : r' = r ∧ c' = c
  · exact Or.inl hsame
  · right
    refine ⟨Int.sign (r' - r), Int.sign (c' - c), max |r' - r| |c' - c|, ?_, ?_, rfl, ?_, ?_⟩
    · rcases sign_cases (r' - r) with ⟨h1, e1⟩ | ⟨h1, e1⟩ | ⟨h1, e1⟩ <;>
        rcases sign_cases (c' - c) with ⟨h2, e2⟩ | ⟨h2, e2⟩ | ⟨h2, e2⟩ <;>
        rw [e1, e2] <;>
        first
        | (exfalso; omega)
        | (simp [kingOffsets])
    · simp only [abs] at h ⊢; omega
    · rcases sign_cases (r' - r) with ⟨h1, e1⟩ | ⟨h1, e1⟩ | ⟨h1, e1⟩ <;> rw [e1] <;>
        simp only [abs] at h ⊢ <;> omega
    · rcases sign_cases (c' - c) with ⟨h1, e1⟩ | ⟨h1, e1⟩ | ⟨h1, e1⟩ <;> rw [e1] <;>
        simp only [abs] at h ⊢ <;> omega

theorem rookStep_dir (x d n : Int) (hd : d = -1 ∨ d = 0 ∨ d = 1) (hn : 1 ≤ n) :
    (if x + n * d > x then (1 : Int) else (if x + n * d < x then -1 else 0)) = d := by
  rcases hd with rfl | rfl | rfl <;> split_ifs <;> omega

theorem bishopStep_dir (x d n : Int) (hd : d = -1 ∨ d = 1) (hn : 1 ≤ n) :
    (if x + n * d > x then (1 : Int) else -1) = d := by
  rcases hd with rfl | rfl <;> split_ifs <;> omega

/-- `isValidRookMove` is true exactly for two squares on a common row or column
with every square strictly between them `'.'` (for all integer coordinates). -/
theorem isValidRookMove_iff (b : Board) (sr sc er ec : Int) :
    isValidRookMove b sr sc er ec = true
      ↔ (sr = er ∨ sc = ec) ∧ PathClear b sr sc er ec := by
  by_cases hline : sr = er ∨ sc = ec
  · rcases line_decompose sr sc er ec (by tauto) with ⟨rfl, rfl⟩ |
      ⟨d0, d1, n, hd, hn, -, rfl, rfl⟩
    · simp only [isValidRookMove, rookMove, pathLoop, loopFuel, PathClear]
      simp only [ne_eq, not_true_eq_false, decide_False, Bool.and_self, Bool.false_eq_true,
        if_false, gt_iff_lt, lt_self_iff_false, add_zero, bne_self_eq_false, Bool.or_self,
        beq_self_eq_true, sub_self, abs_zero, max_self, true_or, true_and, true_iff]
      intro t h1 h2; omega
    · have h0 : d0 = -1 ∨ d0 = 0 ∨ d0 = 1 := by
        rcases unit_dir_cases hd with h | h | h | h | h | h | h | h <;> omega
      have h1 : d1 = -1 ∨ d1 = 0 ∨ d1 = 1 := by
        rcases unit_dir_cases hd with h | h | h | h | h | h | h | h <;> omega
      have hne : ¬ (sr ≠ sr + n * d0 ∧ sc ≠ sc + n * d1) := by tauto
      have hne' : (decide (sr ≠ sr + n * d0) && decide (sc ≠ sc + n * d1)) = false := by
        simpa using hne
      unfold isValidRookMove rookMove
      simp only [hne', Bool.false_eq_true, if_false, rookStep_dir sr d0 n h0 hn,
        rookStep_dir sc d1 n h1 hn, beq_iff_eq]
      rw [pathLoop_line b sr sc d0 d1 hd n hn, pathClear_dir b sr sc d0 d1 hd n (by omega)]
      exact ⟨fun h => ⟨hline, h⟩, fun h => h.2⟩
  · have hne : (decide (sr ≠ er) && decide (sc ≠ ec)) = true := by
      simp only [not_or] at hline
      simp [hline.1, hline.2]
    have hr : rookMove b sr sc er ec = some false := by
      unfold rookMove; rw [if_pos hne]
    simp [isValidRookMove, hr, hline]

/-- `isValidBishopMove` is true exactly for two distinct squares on a common
diagonal with every square strictly between them `'.'` (for all integer
coordinates). -/
theorem isValidBishopMove_iff (b : Board) (sr sc er ec : Int) :
    isValidBishopMove b sr sc er ec = true
      ↔ |sr - er| = |sc - ec| ∧ sr ≠ er ∧ PathClear b sr sc er ec := by
  by_cases hdiag : |sr - er| = |sc - ec|
  · have hnat : ¬ (sr - er).natAbs ≠ (sc - ec).natAbs := by
      simp only [abs] at hdiag; omega
    rcases line_decompose sr sc er ec (by right; right; simp only [abs] at hdiag ⊢; omega) with
      ⟨rfl, rfl⟩ | ⟨d0, d1, n, hd, hn, -, rfl, rfl⟩
    · unfold isValidBishopMove bishopMove
      simp only [sub_self, ne_eq, not_true_eq_false, decide_False, Bool.false_eq_true, if_false,
        gt_iff_lt, lt_self_iff_false, beq_iff_eq, false_and, and_false, iff_false]
      rw [pathLoop_some_true_iff]
      rintro ⟨m, -, h1, -⟩
      omega
    · have h01 : (d0 = -1 ∨ d0 = 1) ∧ (d1 = -1 ∨ d1 = 1) := by
        rcases unit_dir_cases hd with h | h | h | h | h | h | h | h <;>
          obtain ⟨rfl, rfl⟩ := h <;>
          simp only [abs] at hdiag <;> omega
      obtain ⟨h0, h1⟩ := h01
      have hne : sr ≠ sr + n * d0 := by rcases h0 with rfl | rfl <;> omega
      unfold isValidBishopMove bishopMove
      simp only [hnat, decide_False, Bool.false_eq_true, if_false, bishopStep_dir sr d0 n h0 hn,
        bishopStep_dir sc d1 n h1 hn, beq_iff_eq]
      rw [pathLoop_line b sr sc d0 d1 hd n hn, pathClear_dir b sr sc d0 d1 hd n (by omega)]
      exact ⟨fun h => ⟨hdiag, hne, h⟩, fun h => h.2.2⟩
  · have hnat : (sr - er).natAbs ≠ (sc - ec).natAbs := by
      simp only [abs] at hdiag; omega
    have hr : bishopMove b sr sc er ec = some false := by
      unfold bishopMove; rw [if_pos (by simpa using hnat)]
    simp [isValidBishopMove, hr, hdiag]

theorem knightMoves_mem (a d : Int) :
    (a, d) ∈ knightMoves ↔ (|a| = 1 ∧ |d| = 2) ∨ (|a| = 2 ∧ |d| = 1) := by
  simp only [knightMoves, List.mem_cons, Prod.mk.injEq, List.mem_singleton, abs,
    List.not_mem_nil, or_false]
  omega

theorem kingOffsets_mem (a d : Int) :
    (a, d) ∈ kingOffsets ↔ |a| ≤ 1 ∧ |d| ≤ 1 ∧ (a ≠ 0 ∨ d ≠ 0) := by
  simp only [kingOffsets, List.mem_cons, Prod.mk.injEq, List.mem_singleton, abs,
    List.not_mem_nil, or_false]
  omega

theorem rookDirs_mem (a d : Int) :
    (a, d) ∈ rookDirs ↔ (a, d) ∈ kingOffsets ∧ (a = 0 ∨ d = 0) := by
  simp only [rookDirs, kingOffsets, List.mem_cons, Prod.mk.injEq, List.mem_singleton,
    List.not_mem_nil, or_false]
  omega

theorem bishopDirs_mem (a d : Int) :
    (a, d) ∈ bishopDirs ↔ (a, d) ∈ kingOffsets ∧ a ≠ 0 ∧ d ≠ 0 := by
  simp only [bishopDirs, kingOffsets, List.mem_cons, Prod.mk.injEq, List.mem_singleton,
    List.not_mem_nil, or_false]
  omega

theorem pawn_scan_iff (b : Board) (r c : Int) (w : Bool) :
    ((isWithinBounds (r + (if w then 1 else -1)) (c - 1)
        && getPieceAt b (r + (if w then 1 else -1)) (c - 1) == (if w then 'P' else 'p')) = true
      ∨ (isWithinBounds (r + (if w then 1 else -1)) (c + 1)
        && getPieceAt b (r + (if w then 1 else -1)) (c + 1) == (if w then 'P' else 'p')) = true)
      ↔ PawnAttacks b r c w := by
  unfold PawnAttacks
  have e : (if w then r + 1 else r - 1) = r + (if w then 1 else -1) := by
    cases w <;> simp [sub_eq_add_neg]
  simp only [Bool.and_eq_true, beq_iff_eq, e]
  constructor
  · rintro (⟨h1, h2⟩ | ⟨h1, h2⟩)
    · exact ⟨_, _, h1, h2, rfl, Or.inl rfl⟩
    · exact ⟨_, _, h1, h2, rfl, Or.inr rfl⟩
  · rintro ⟨r', c', h1, h2, rfl, rfl | rfl⟩
    · exact Or.inl ⟨h1, h2⟩
    · exact Or.inr ⟨h1, h2⟩

theorem knight_scan_iff (b : Board) (r c : Int) (w : Bool) :
    knightMoves.any (fun m => isWithinBounds (r + m.1) (c + m.2)
        && getPieceAt b (r + m.1) (c + m.2) == (if w then 'N' else 'n')) = true
      ↔ KnightAttacks b r c w := by
  unfold KnightAttacks
  simp only [List.any_eq_true, Bool.and_eq_true, beq_iff_eq, Prod.exists]
  constructor
  · rintro ⟨a, d, hm, h1, h2⟩
    refine ⟨r + a, c + d, h1, h2, ?_⟩
    rw [knightMoves_mem] at hm
    simpa using hm
  · rintro ⟨r', c', h1, h2, h3⟩
    refine ⟨r' - r, c' - c, (knightMoves_mem _ _).mpr h3, ?_, ?_⟩
    · simpa using h1
    · simpa using h2

theorem king_scan_iff (b : Board) (r c : Int) (w : Bool) :
    kingOffsets.any (fun m => isWithinBounds (r + m.1) (c + m.2)
        && getPieceAt b (r + m.1) (c + m.2) == (if w then 'K' else 'k')) = true
      ↔ KingAttacks b r c w := by
  unfold KingAttacks
  simp only [List.any_eq_true, Bool.and_eq_true, beq_iff_eq, Prod.exists]
  constructor
  · rintro ⟨a, d, hm, h1, h2⟩
    refine ⟨r + a, c + d, h1, h2, ?_⟩
    rw [kingOffsets_mem] at hm
    simp only [add_sub_cancel_left]
    refine ⟨hm.1, hm.2.1, ?_⟩
    rcases hm.2.2 with h | h
    · left; omega
    · right; omega
  · rintro ⟨r', c', h1, h2, h3, h4, h5⟩
    refine ⟨r' - r, c' - c, (kingOffsets_mem _ _).mpr ⟨h3, h4, ?_⟩, ?_, ?_⟩
    · rcases h5 with h | h
      · left; omega
      · right; omega
    · simpa using h1
    · simpa using h2

theorem getPieceAt_not_space (b : Board) (hb : BoardOK b) (r c : Int)
    (h : isWithinBounds r c = true) : getPieceAt b r c ≠ ' ' := by
  rcases sym_cases (getPieceAt_sym b hb r c h) with h | h | h | h | h | h | h | h | h | h | h | h | h <;>
    rw [h] <;> decide

/-- One ray of `isSquareAttacked` in a unit direction finds its piece exactly when
that piece stands `n ≥ 1` steps away with the `n-1` squares in between `'.'`; the
step budget is never the reason for failing. -/
theorem rayLoop_line (b : Board) (hb : BoardOK b) (r c d0 d1 : Int)
    (hd : (d0, d1) ∈ kingOffsets) (a1 a2 : Char)
    (h1 : a1 ≠ '.' ∧ a1 ≠ ' ') (h2 : a2 ≠ '.' ∧ a2 ≠ ' ') :
    rayLoop b r c d0 d1 a1 a2 loopFuel 1 = some true
      ↔ ∃ n : Int, 1 ≤ n ∧ isWithinBounds (r + n * d0) (c + n * d1) = true
          ∧ (getPieceAt b (r + n * d0) (c + n * d1) = a1
              ∨ getPieceAt b (r + n * d0) (c + n * d1) = a2)
          ∧ ∀ t : Int, 0 < t → t < n → getPieceAt b (r + t * d0) (c + t * d1) = '.' := by
  rw [rayLoop_some_true_iff b r c d0 d1 a1 a2 h1 h2]
  constructor
  · rintro ⟨k, -, hin, hp, hj⟩
    refine ⟨1 + k, by omega, hin, hp, ?_⟩
    intro t ht0 htn
    have := hj (t - 1).toNat (by omega)
    have e : (1 : Int) + (((t - 1).toNat : Nat) : Int) = t := by omega
    rw [e] at this
    rcases this.2 with h | h
    · exact h
    · exact absurd h (getPieceAt_not_space b hb _ _ this.1)
  · rintro ⟨n, hn, hin, hp, ht⟩
    have hbound : n ≤ 9 := by
      by_contra hcon
      have i1 := getPieceAt_dot_inb (ht 1 (by omega) (by omega))
      have i9 := getPieceAt_dot_inb (ht 9 (by omega) (by omega))
      rcases unit_dir_cases hd with h | h | h | h | h | h | h | h <;>
        obtain ⟨rfl, rfl⟩ := h <;> omega
    have e : (1 : Int) + (((n - 1).toNat : Nat) : Int) = n := by omega
    refine ⟨(n - 1).toNat, by unfold loopFuel; omega, by rw [e]; exact hin, by rw [e]; exact hp, ?_⟩
    intro j hj
    have hd := ht (1 + j) (by omega) (by omega)
    refine ⟨?_, Or.inl hd⟩
    rw [isWithinBounds_iff]
    exact getPieceAt_dot_inb hd

theorem straight_scan_iff (b : Board) (hb : BoardOK b) (r c : Int) (w : Bool) :
    rookDirs.any (fun d => rayLoop b r c d.1 d.2 (if w then 'R' else 'r')
        (if w then 'Q' else 'q') loopFuel 1 == some true) = true
      ↔ StraightAttacks b r c w := by
  unfold StraightAttacks
  simp only [List.any_eq_true, beq_iff_eq, Prod.exists]
  have ha1 : (if w then 'R' else 'r') ≠ '.' ∧ (if w then 'R' else 'r') ≠ ' ' := by
    cases w <;> decide
  have ha2 : (if w then 'Q' else 'q') ≠ '.' ∧ (if w then 'Q' else 'q') ≠ ' ' := by
    cases w <;> decide
  constructor
  · rintro ⟨d0, d1, hm, hray⟩
    rw [rookDirs_mem] at hm
    obtain ⟨hd, hz⟩ := hm
    rw [rayLoop_line b hb r c d0 d1 hd _ _ ha1 ha2] at hray
    obtain ⟨n, hn, hin, hp, ht⟩ := hray
    refine ⟨r + n * d0, c + n * d1, hin, hp, ?_, (pathClear_dir b r c d0 d1 hd n (by omega)).mpr ht⟩
    rcases unit_dir_cases hd with h | h | h | h | h | h | h | h <;>
      obtain ⟨rfl, rfl⟩ := h <;> omega
  · rintro ⟨r', c', hin, hp, hline, hclear⟩
    rcases line_decompose r c r' c' (by rcases hline with h | h <;> simp [h.1]) with
      ⟨rfl, rfl⟩ | ⟨d0, d1, n, hd, hn, -, rfl, rfl⟩
    · rcases hline with h | h <;> exact absurd rfl h.2
    · refine ⟨d0, d1, (rookDirs_mem d0 d1).mpr ⟨hd, ?_⟩, ?_⟩
      · rcases unit_dir_cases hd with h | h | h | h | h | h | h | h <;>
          obtain ⟨rfl, rfl⟩ := h <;> omega
      · rw [rayLoop_line b hb r c d0 d1 hd _ _ ha1 ha2]
        exact ⟨n, hn, hin, hp, (pathClear_dir b r c d0 d1 hd n (by omega)).mp hclear⟩

theorem diagonal_scan_iff (b : Board) (hb : BoardOK b) (r c : Int) (w : Bool) :
    bishopDirs.any (fun d => rayLoop b r c d.1 d.2 (if w then 'B' else 'b')
        (if w then 'Q' else 'q') loopFuel 1 == some true) = true
      ↔ DiagonalAttacks b r c w := by
  unfold DiagonalAttacks
  simp only [List.any_eq_true, beq_iff_eq, Prod.exists]
  have ha1 : (if w then 'B' else 'b') ≠ '.' ∧ (if w then 'B' else 'b') ≠ ' ' := by
    cases w <;> decide
  have ha2 : (if w then 'Q' else 'q') ≠ '.' ∧ (if w then 'Q' else 'q') ≠ ' ' := by
    cases w <;> decide
  constructor
  · rintro ⟨d0, d1, hm, hray⟩
    rw [bishopDirs_mem] at hm
    obtain ⟨hd, hz⟩ := hm
    rw [rayLoop_line b hb r c d0 d1 hd _ _ ha1 ha2] at hray
    obtain ⟨n, hn, hin, hp, ht⟩ := hray
    refine ⟨r + n * d0, c + n * d1, hin, hp, ?_, ?_,
      (pathClear_dir b r c d0 d1 hd n (by omega)).mpr ht⟩
    · rcases unit_dir_cases hd with h | h | h | h | h | h | h | h <;>
        obtain ⟨rfl, rfl⟩ := h <;> simp only [abs] <;> omega
    · rcases unit_dir_cases hd with h | h | h | h | h | h | h | h <;>
        obtain ⟨rfl, rfl⟩ := h <;> omega
  · rintro ⟨r', c', hin, hp, hdiag, hne, hclear⟩
    rcases line_decompose r c r' c' (Or.inr (Or.inr hdiag)) with
      ⟨rfl, rfl⟩ | ⟨d0, d1, n, hd, hn, -, rfl, rfl⟩
    · exact absurd rfl hne
    · refine ⟨d0, d1, (bishopDirs_mem d0 d1).mpr ⟨hd, ?_⟩, ?_⟩
      · rcases unit_dir_cases hd with h | h | h | h | h | h | h | h <;>
          obtain ⟨rfl, rfl⟩ := h <;>
          simp only [abs] at hdiag <;> omega
      · rw [rayLoop_line b hb r c d0 d1 hd _ _ ha1 ha2]
        exact ⟨n, hn, hin, hp, (pathClear_dir b r c d0 d1 hd n (by omega)).mp hclear⟩

theorem if_true_else (a x : Bool) : (if a = true then true else x) = (a || x) := by
  cases a <;> simp

/-- `isSquareAttacked` computes the attack relation, on every board of piece
symbols and `'.'` and for all integer coordinates. -/
theorem isSquareAttacked_iff_attackedBy (b : Board) (hb : BoardOK b) (r c : Int) (w : Bool) :
    isSquareAttacked b r c w = true ↔ AttackedBy b r c w := by
  unfold isSquareAttacked AttackedBy
  simp only [if_true_else, Bool.or_false, Bool.or_eq_true]
  rw [← pawn_scan_iff, ← knight_scan_iff, ← straight_scan_iff b hb, ← diagonal_scan_iff b hb,
    ← king_scan_iff]
  tauto

/-- The verdict of `isMoveValid` is the error of the first failing check of the
ordered list, on a board of piece symbols and `'.'`. -/
theorem isMoveValid_fst (g : ChessGame) (hb : BoardOK g.board) (sr sc er ec : Int) :
    (isMoveValid g sr sc er ec).1 = firstFailure g sr sc er ec := by
  unfold isMoveValid firstFailure orderedChecks
  by_cases h1 : isWithinBounds sr sc = true
  · by_cases h2 : isWithinBounds er ec = true
    · have hp := getPieceAt_sym g.board hb sr sc h1
      have ht := getPieceAt_sym g.board hb er ec h2
      simp only [h1, h2, Bool.not_true, Bool.or_self, Bool.false_eq_true, if_false,
        emptyTest_sym hp, Bool.and_self]
      by_cases h3 : getPieceAt g.board sr sc = '.'
      · simp [h3]
      · have h3b : (getPieceAt g.board sr sc == '.') = false := by simpa using h3
        simp only [h3b, Bool.false_eq_true, if_false, sideTest_sym hp h3,
          ownTest_sym ht, patternSwitch_sym g.board hp h3]
        cases h4 : (isPieceWhite (getPieceAt g.board sr sc) != g.isWhiteTurn)
        · cases h5 : (getPieceAt g.board er ec != '.' &&
              isPieceWhite (getPieceAt g.board er ec) == g.isWhiteTurn)
          · by_cases h6 : sr = er ∧ sc = ec
            · simp [h6, List.find?]
            · have h6b : (decide (sr = er) && decide (sc = ec)) = false := by
                simpa using h6
              cases h7 : pieceRule g.board (getPieceAt g.board sr sc) sr sc er ec
              · simp [h6, h6b, h7, List.find?]
              · cases h8 : isKingInCheck (simulateMove g sr sc er ec) g.isWhiteTurn
                · simp [h6, h6b, h7, h8, List.find?, moveLeavesKingInCheck_fst]
                · simp [h6, h6b, h7, h8, List.find?, moveLeavesKingInCheck_fst]
          · simp [List.find?]
        · simp [List.find?]
    · simp [h1, h2, List.find?]
  · simp [h1, List.find?]

theorem pathClear_dir' (b : Board) (r c d0 d1 : Int) (hd : (d0, d1) ∈ kingOffsets)
    (n : Int) (hn : 0 ≤ n) (r' c' : Int) (hr : r' = r + n * d0) (hc : c' = c + n * d1) :
    PathClear b r c r' c'
      ↔ ∀ t : Int, 0 < t → t < n → getPieceAt b (r + t * d0) (c + t * d1) = '.' := by
  subst hr hc
  exact pathClear_dir b r c d0 d1 hd n hn

theorem kingOffsets_neg {d0 d1 : Int} (hd : (d0, d1) ∈ kingOffsets) :
    (-d0, -d1) ∈ kingOffsets := by
  rcases unit_dir_cases hd with h | h | h | h | h | h | h | h <;>
    obtain ⟨rfl, rfl⟩ := h <;> decide

/-- The squares strictly between two squares of a common line are the same in
both directions. -/
theorem pathClear_symm (b : Board) (r c r' c' : Int)
    (h : r = r' ∨ c = c' ∨ |r' - r| = |c' - c|) :
    PathClear b r c r' c' ↔ PathClear b r' c' r c := by
  rcases line_decompose r c r' c' h with ⟨rfl, rfl⟩ | ⟨d0, d1, n, hd, hn, -, rfl, rfl⟩
  · exact Iff.rfl
  · rw [pathClear_dir b r c d0 d1 hd n (by omega),
      pathClear_dir' b (r + n * d0) (c + n * d1) (-d0) (-d1) (kingOffsets_neg hd) n (by omega)
        r c (by ring) (by ring)]
    constructor
    · intro h t h0 hn'
      have := h (n - t) (by omega) (by omega)
      have e1 : r + n * d0 + t * -d0 = r + (n - t) * d0 := by ring
      have e2 : c + n * d1 + t * -d1 = c + (n - t) * d1 := by ring
      rw [e1, e2]; exact this
    · intro h t h0 hn'
      have := h (n - t) (by omega) (by omega)
      have e1 : r + n * d0 + (n - t) * -d0 = r + t * d0 := by ring
      have e2 : c + n * d1 + (n - t) * -d1 = c + t * d1 := by ring
      rw [e1, e2] at this; exact this

/-- The pawn pattern onto an occupied square is the diagonal capture alone. -/
theorem isValidPawnMove_occupied (b : Board) (sr sc er ec : Int) (w : Bool)
    (hp : getPieceAt b sr sc = (if w then 'P' else 'p'))
    (ht : getPieceAt b er ec ≠ '.' ∧ getPieceAt b er ec ≠ ' ') :
    isValidPawnMove b sr sc er ec (getPieceAt b er ec) = true
      ↔ (sc - ec).natAbs = 1 ∧ er = sr + (if w then -1 else 1) := by
  unfold isValidPawnMove
  have hw : isPieceWhite (if w then 'P' else 'p') = w := by cases w <;> decide
  simp only [hp, hw]
  have h1 : (getPieceAt b er ec == '.') = false := by simpa using ht.1
  have h2 : (getPieceAt b er ec != '.' && getPieceAt b er ec != ' ') = true := by
    simp [ht.1, ht.2]
  simp only [h1, h2, Bool.and_false, Bool.false_and, Bool.false_eq_true, if_false, Bool.and_true]
  simp

theorem piece_kind_cases {p : Char} (h : p = '.' ∨ p ∈ pieceSymbols) (hne : p ≠ '.') :
    p = (if isPieceWhite p then 'P' else 'p') ∨ p = (if isPieceWhite p then 'R' else 'r')
      ∨ p = (if isPieceWhite p then 'N' else 'n') ∨ p = (if isPieceWhite p then 'B' else 'b')
      ∨ p = (if isPieceWhite p then 'Q' else 'q') ∨ p = (if isPieceWhite p then 'K' else 'k') := by
  rcases sym_cases h with h | h | h | h | h | h | h | h | h | h | h | h | h <;> subst h <;>
    first
    | exact absurd rfl hne
    | decide

theorem pieceRule_pawn (b : Board) (w : Bool) (sr sc er ec : Int) :
    pieceRule b (if w then 'P' else 'p') sr sc er ec
      = isValidPawnMove b sr sc er ec (getPieceAt b er ec) := by
  cases w <;> simp [pieceRule]

theorem pieceRule_rook (b : Board) (w : Bool) (sr sc er ec : Int) :
    pieceRule b (if w then 'R' else 'r') sr sc er ec = isValidRookMove b sr sc er ec := by
  cases w <;> simp [pieceRule]

theorem pieceRule_knight (b : Board) (w : Bool) (sr sc er ec : Int) :
    pieceRule b (if w then 'N' else 'n') sr sc er ec = isValidKnightMove sr sc er ec := by
  cases w <;> simp [pieceRule]

theorem pieceRule_bishop (b : Board) (w : Bool) (sr sc er ec : Int) :
    pieceRule b (if w then 'B' else 'b') sr sc er ec = isValidBishopMove b sr sc er ec := by
  cases w <;> simp [pieceRule]

theorem pieceRule_queen (b : Board) (w : Bool) (sr sc er ec : Int) :
    pieceRule b (if w then 'Q' else 'q') sr sc er ec = isValidQueenMove b sr sc er ec := by
  cases w <;> simp [pieceRule]

theorem pieceRule_king (b : Board) (w : Bool) (sr sc er ec : Int) :
    pieceRule b (if w then 'K' else 'k') sr sc er ec = isValidKingMove sr sc er ec := by
  cases w <;> simp [pieceRule]

theorem isPieceWhite_kind (w : Bool) :
    isPieceWhite (if w then 'P' else 'p') = w ∧ isPieceWhite (if w then 'R' else 'r') = w
      ∧ isPieceWhite (if w then 'N' else 'n') = w ∧ isPieceWhite (if w then 'B' else 'b') = w
      ∧ isPieceWhite (if w then 'Q' else 'q') = w ∧ isPieceWhite (if w then 'K' else 'k') = w := by
  cases w <;> decide

theorem kind_ne_dot (w : Bool) :
    (if w then 'P' else 'p') ≠ '.' ∧ (if w then 'R' else 'r') ≠ '.'
      ∧ (if w then 'N' else 'n') ≠ '.' ∧ (if w then 'B' else 'b') ≠ '.'
      ∧ (if w then 'Q' else 'q') ≠ '.' ∧ (if w then 'K' else 'k') ≠ '.' := by
  cases w <;> decide

theorem isValidKnightMove_iff (sr sc er ec : Int) :
    isValidKnightMove sr sc er ec = true
      ↔ (|sr - er| = 1 ∧ |sc - ec| = 2) ∨ (|sr - er| = 2 ∧ |sc - ec| = 1) := by
  simp only [isValidKnightMove, Bool.or_eq_true, Bool.and_eq_true, decide_eq_true_eq, abs]
  omega

theorem isValidKingMove_iff (sr sc er ec : Int) :
    isValidKingMove sr sc er ec = true ↔ |sr - er| ≤ 1 ∧ |sc - ec| ≤ 1 := by
  simp only [isValidKingMove, Bool.and_eq_true, decide_eq_true_eq, abs]
  omega

/-- On an occupied square, the attack relation is the existence of a pattern move
of an attacker piece onto that square. -/
theorem attackedBy_iff_reachedBy (b : Board) (hb : BoardOK b) (r c : Int)
    (hin : isWithinBounds r c = true) (hocc : getPieceAt b r c ≠ '.') (w : Bool) :
    AttackedBy b r c w ↔ ReachedBy b r c w := by
  have hocc' : getPieceAt b r c ≠ '.' ∧ getPieceAt b r c ≠ ' ' :=
    ⟨hocc, getPieceAt_not_space b hb r c hin⟩
  obtain ⟨wP, wR, wN, wB, wQ, wK⟩ := isPieceWhite_kind w
  obtain ⟨nP, nR, nN, nB, nQ, nK⟩ := kind_ne_dot w
  constructor
  · rintro (⟨r', c', h1, hp, hr, hc⟩ | ⟨r', c', h1, hp, hoff⟩ | ⟨r', c', h1, hp, hline, hclear⟩ |
      ⟨r', c', h1, hp, hdiag, hne, hclear⟩ | ⟨r', c', h1, hp, hr, hc, hne⟩)
    · refine ⟨r', c', h1, by rw [hp]; exact nP, by rw [hp]; exact wP, ?_, ?_⟩
      · rcases hc with h | h <;> omega
      · rw [hp, pieceRule_pawn, isValidPawnMove_occupied b r' c' r c w hp hocc']
        cases w <;> simp only [if_true, if_false, Bool.false_eq_true] at hr ⊢ <;> omega
    · refine ⟨r', c', h1, by rw [hp]; exact nN, by rw [hp]; exact wN, ?_, ?_⟩
      · simp only [abs] at hoff; omega
      · rw [hp, pieceRule_knight, isValidKnightMove_iff]
        simp only [abs] at hoff ⊢; omega
    · have hrook : isValidRookMove b r' c' r c = true := by
        rw [isValidRookMove_iff]
        refine ⟨by rcases hline with h | h <;> simp [h.1], ?_⟩
        rw [pathClear_symm b r' c' r c (by rcases hline with h | h <;> simp [h.1])]
        exact hclear
      rcases hp with hp | hp
      · refine ⟨r', c', h1, by rw [hp]; exact nR, by rw [hp]; exact wR, ?_, ?_⟩
        · rcases hline with h | h <;> omega
        · rw [hp, pieceRule_rook]; exact hrook
      · refine ⟨r', c', h1, by rw [hp]; exact nQ, by rw [hp]; exact wQ, ?_, ?_⟩
        · rcases hline with h | h <;> omega
        · rw [hp, pieceRule_queen, isValidQueenMove, hrook]; rfl
    · have hbish : isValidBishopMove b r' c' r c = true := by
        rw [isValidBishopMove_iff]
        refine ⟨hdiag, hne, ?_⟩
        rw [pathClear_symm b r' c' r c (by right; right; simp only [abs] at hdiag ⊢; omega)]
        exact hclear
      rcases hp with hp | hp
      · refine ⟨r', c', h1, by rw [hp]; exact nB, by rw [hp]; exact wB, ?_, ?_⟩
        · omega
        · rw [hp, pieceRule_bishop]; exact hbish
      · refine ⟨r', c', h1, by rw [hp]; exact nQ, by rw [hp]; exact wQ, ?_, ?_⟩
        · omega
        · rw [hp, pieceRule_queen, isValidQueenMove, hbish]; simp
    · refine ⟨r', c', h1, by rw [hp]; exact nK, by rw [hp]; exact wK, ?_, ?_⟩
      · rcases hne with h | h <;> omega
      · rw [hp, pieceRule_king, isValidKingMove_iff]
        exact ⟨hr, hc⟩
  · rintro ⟨sr, sc, h1, hne, hw, hdist, hrule⟩
    have hsym := getPieceAt_sym b hb sr sc h1
    have hkind := piece_kind_cases hsym hne
    rw [hw] at hkind
    rcases hkind with hp | hp | hp | hp | hp | hp
    · rw [hp, pieceRule_pawn, isValidPawnMove_occupied b sr sc r c w hp hocc'] at hrule
      left
      refine ⟨sr, sc, h1, hp, ?_, ?_⟩
      · cases w <;> simp only [if_true, if_false, Bool.false_eq_true] at hrule ⊢ <;> omega
      · omega
    · rw [hp, pieceRule_rook, isValidRookMove_iff] at hrule
      right; right; left
      refine ⟨sr, sc, h1, Or.inl hp, by omega, ?_⟩
      rw [pathClear_symm b r c sr sc (by rcases hrule.1 with h | h <;> simp [h])]
      exact hrule.2
    · rw [hp, pieceRule_knight, isValidKnightMove_iff] at hrule
      right; left
      exact ⟨sr, sc, h1, hp, hrule⟩
    · rw [hp, pieceRule_bishop, isValidBishopMove_iff] at hrule
      right; right; right; left
      refine ⟨sr, sc, h1, Or.inl hp, hrule.1, hrule.2.1, ?_⟩
      rw [pathClear_symm b r c sr sc (Or.inr (Or.inr hrule.1))]
      exact hrule.2.2
    · rw [hp, pieceRule_queen, isValidQueenMove, Bool.or_eq_true, isValidRookMove_iff,
        isValidBishopMove_iff] at hrule
      rcases hrule with hrule | hrule
      · right; right; left
        refine ⟨sr, sc, h1, Or.inr hp, by omega, ?_⟩
        rw [pathClear_symm b r c sr sc (by rcases hrule.1 with h | h <;> simp [h])]
        exact hrule.2
      · right; right; right; left
        refine ⟨sr, sc, h1, Or.inr hp, hrule.1, hrule.2.1, ?_⟩
        rw [pathClear_symm b r c sr sc (Or.inr (Or.inr hrule.1))]
        exact hrule.2.2
    · rw [hp, pieceRule_king, isValidKingMove_iff] at hrule
      right; right; right; right
      exact ⟨sr, sc, h1, hp, hrule.1, hrule.2, by omega⟩

theorem find_checks (c1 c2 c3 c4 c5 c6 c7 : Bool) (e1 e2 e3 e4 e5 e6 e7 : MoveError) :
    ([(c1, e1), (c2, e2), (c3, e3), (c4, e4), (c5, e5), (c6, e6), (c7, e7)].find?
        (fun chk => chk.1)).map (fun chk => chk.2)
      = if c1 then some e1 else if c2 then some e2 else if c3 then some e3
        else if c4 then some e4 else if c5 then some e5 else if c6 then some e6
        else if c7 then some e7 else none := by
  cases c1 <;> cases c2 <;> cases c3 <;> cases c4 <;> cases c5 <;> cases c6 <;> cases c7 <;> rfl

theorem passesChecks1to6_iff (g : ChessGame) (hb : BoardOK g.board) (sr sc er ec : Int) :
    passesChecks1to6 g sr sc er ec = true
      ↔ isWithinBounds sr sc = true ∧ isWithinBounds er ec = true
        ∧ getPieceAt g.board sr sc ≠ '.'
        ∧ isPieceWhite (getPieceAt g.board sr sc) = g.isWhiteTurn
        ∧ ¬ (getPieceAt g.board er ec ≠ '.'
              ∧ isPieceWhite (getPieceAt g.board er ec) = g.isWhiteTurn)
        ∧ ¬ (sr = er ∧ sc = ec)
        ∧ pieceRule g.board (getPieceAt g.board sr sc) sr sc er ec = true := by
  unfold passesChecks1to6
  rw [isMoveValid_fst g hb, firstFailure, orderedChecks, find_checks]
  cases h1 : isWithinBounds sr sc <;> cases h2 : isWithinBounds er ec <;>
    simp only [Bool.and_self, Bool.and_true, Bool.and_false, Bool.not_true, Bool.not_false,
      if_true, false_and, and_false, true_and, Bool.false_eq_true, if_false, iff_false]
  by_cases h3 : getPieceAt g.board sr sc = '.'
  · simp [h3]
  · have h3b : (getPieceAt g.board sr sc == '.') = false := by simpa using h3
    simp only [h3b, Bool.false_eq_true, if_false, ne_eq, h3, not_false_eq_true, true_and]
    cases h4 : (isPieceWhite (getPieceAt g.board sr sc) != g.isWhiteTurn)
    · have h4' : isPieceWhite (getPieceAt g.board sr sc) = g.isWhiteTurn := by simpa using h4
      simp only [Bool.false_eq_true, if_false, h4', true_and]
      cases h5 : (getPieceAt g.board er ec != '.' &&
          isPieceWhite (getPieceAt g.board er ec) == g.isWhiteTurn)
      · have h5' : ¬ (¬ getPieceAt g.board er ec = '.'
            ∧ isPieceWhite (getPieceAt g.board er ec) = g.isWhiteTurn) := by
          simpa using h5
        simp only [Bool.false_eq_true, if_false, h5', not_false_eq_true, true_and]
        by_cases h6 : sr = er ∧ sc = ec
        · simp [h6]
        · simp only [h6, decide_False, Bool.false_eq_true, if_false, not_false_eq_true, true_and]
          cases h7 : pieceRule g.board (getPieceAt g.board sr sc) sr sc er ec
          · simp
          · cases h8 : isKingInCheck (simulateMove g sr sc er ec) g.isWhiteTurn <;> simp
      · have h5' : ¬ getPieceAt g.board er ec = '.'
            ∧ isPieceWhite (getPieceAt g.board er ec) = g.isWhiteTurn := by
          simpa using h5
        simp [h5']
    · have h4' : ¬ isPieceWhite (getPieceAt g.board sr sc) = g.isWhiteTurn := by simpa using h4
      simp [h4']

theorem foldl_invariant {α β : Type} (P : β → Prop) (f : β → α → β) :
    ∀ (l : List α) (init : β), P init → (∀ acc x, P acc → P (f acc x)) → P (l.foldl f init) := by
  intro l
  induction l with
  | nil => intro init h0 _; exact h0
  | cons x xs ih => intro init h0 hs; exact ih (f init x) (hs init x h0) hs

theorem foldl_append_state {α : Type} (g : ChessGame) (f : α → List Move)
    (step : List Move × ChessGame → α → List Move × ChessGame)
    (hstep : ∀ x ms, step (ms, g) x = (ms ++ f x, g)) :
    ∀ (l : List α) (ms : List Move), l.foldl step (ms, g) = (ms ++ l.flatMap f, g) := by
  intro l
  induction l with
  | nil => intro ms; simp
  | cons x xs ih =>
    intro ms
    rw [List.foldl_cons, hstep, ih, List.flatMap_cons, List.append_assoc]

theorem genDest_board (r c er ec : Int) (acc : List Move × ChessGame) :
    (genDest r c er ec acc).2.board = acc.2.board := by
  unfold genDest
  simp only []
  split_ifs <;> exact isMoveValid_board acc.2 r c er ec

theorem genDest_eq (g : ChessGame)
    (hk : (if g.isWhiteTurn then g.whiteKingRow else g.blackKingRow) ≠ -1)
    (r c er ec : Int) (ms : List Move) :
    genDest r c er ec (ms, g) = (ms ++ destMoves g r c er ec, g) := by
  unfold genDest destMoves accepts scoreOf
  simp only [isMoveValid_state_of_ne g r c er ec hk]
  split_ifs <;> simp

theorem genOrigin_eq (g : ChessGame)
    (hk : (if g.isWhiteTurn then g.whiteKingRow else g.blackKingRow) ≠ -1)
    (r c : Int) (ms : List Move) :
    genOrigin r c (ms, g) = (ms ++ originMoves g r c, g) := by
  unfold genOrigin originMoves ownsOrigin
  simp only []
  generalize boardRange = L
  split_ifs with h
  · have inner : ∀ (er : Int) (ms : List Move),
        L.foldl (fun a2 ec => genDest r c er ec a2) (ms, g)
          = (ms ++ L.flatMap (fun ec => destMoves g r c er ec), g) := by
      intro er ms
      exact foldl_append_state g (fun ec => destMoves g r c er ec)
        (fun a2 ec => genDest r c er ec a2) (fun ec ms => genDest_eq g hk r c er ec ms)
        L ms
    exact foldl_append_state g
      (fun er => L.flatMap (fun ec => destMoves g r c er ec))
      (fun a er => L.foldl (fun a2 ec => genDest r c er ec a2) a)
      (fun er ms => inner er ms) L ms
  · simp

/-- With the mover's cached king row different from `-1`, `generateValidMoves`
leaves the state as found and returns the accepted moves of the owned origins in
loop order. -/
theorem generateValidMoves_eq (g : ChessGame)
    (hk : (if g.isWhiteTurn then g.whiteKingRow else g.blackKingRow) ≠ -1) :
    generateValidMoves g
      = (boardRange.flatMap (fun r => boardRange.flatMap (fun c => originMoves g r c)), g) := by
  unfold generateValidMoves
  generalize boardRange = L
  have inner : ∀ (r : Int) (ms : List Move),
      L.foldl (fun a2 c => genOrigin r c a2) (ms, g)
        = (ms ++ L.flatMap (fun c => originMoves g r c), g) := by
    intro r ms
    exact foldl_append_state g (fun c => originMoves g r c) (fun a2 c => genOrigin r c a2)
      (fun c ms => genOrigin_eq g hk r c ms) L ms
  have := foldl_append_state g (fun r => L.flatMap (fun c => originMoves g r c))
    (fun a r => L.foldl (fun a2 c => genOrigin r c a2) a)
    (fun r ms => inner r ms) L []
  rw [List.nil_append] at this
  exact this

theorem mem_boardRange (i : Int) : i ∈ boardRange ↔ 0 ≤ i ∧ i < 8 := by
  simp only [boardRange, List.mem_cons, List.mem_singleton, List.not_mem_nil, or_false]
  omega

theorem accepts_inb (g : ChessGame) (sr sc er ec : Int) (h : accepts g sr sc er ec = true) :
    isWithinBounds sr sc = true ∧ isWithinBounds er ec = true := by
  unfold accepts isMoveValid at h
  by_contra hcon
  have : (!isWithinBounds sr sc || !isWithinBounds er ec) = true := by
    cases h1 : isWithinBounds sr sc <;> cases h2 : isWithinBounds er ec <;> simp_all
  rw [if_pos this] at h
  simp at h

/-- An accepted move starts on a square that passes the ownership test of
`generateValidMoves`. -/
theorem accepts_ownsOrigin (g : ChessGame) (sr sc er ec : Int)
    (h : accepts g sr sc er ec = true) : ownsOrigin g sr sc = true := by
  have hin := accepts_inb g sr sc er ec h
  unfold accepts isMoveValid at h
  have h0 : (!isWithinBounds sr sc || !isWithinBounds er ec) = false := by
    simp [hin.1, hin.2]
  rw [if_neg (by simp [h0])] at h
  simp only [] at h
  unfold ownsOrigin
  simp only []
  cases h1 : (getPieceAt g.board sr sc == '.' || getPieceAt g.board sr sc == ' ')
  · simp only [h1, Bool.false_eq_true, if_false] at h
    cases h2 : (g.isWhiteTurn && !isPieceWhite (getPieceAt g.board sr sc)
        || !g.isWhiteTurn && !isPieceBlack (getPieceAt g.board sr sc))
    · have h1' : getPieceAt g.board sr sc ≠ '.' ∧ getPieceAt g.board sr sc ≠ ' ' := by
        simpa using h1
      cases hw : g.isWhiteTurn <;> simp [hw] at h2 <;> simp [h1'.1, h1'.2, h2]
    · simp [h2] at h
  · simp [h1] at h

theorem mem_generateValidMoves (g : ChessGame)
    (hk : (if g.isWhiteTurn then g.whiteKingRow else g.blackKingRow) ≠ -1) (m : Move) :
    m ∈ (generateValidMoves g).1
      ↔ accepts g m.startR m.startC m.endR m.endC = true
        ∧ m.score = scoreOf (getPieceAt g.board m.endR m.endC) := by
  rw [generateValidMoves_eq g hk]
  simp only [List.mem_flatMap, originMoves, destMoves]
  constructor
  · rintro ⟨r, -, c, -, hm⟩
    split_ifs at hm with ho
    · simp only [List.mem_flatMap] at hm
      obtain ⟨er, -, ec, -, hm⟩ := hm
      split_ifs at hm with ha
      · simp only [List.mem_singleton] at hm
        subst hm
        exact ⟨ha, rfl⟩
      · simp at hm
    · simp at hm
  · rintro ⟨ha, hs⟩
    obtain ⟨hs1, he1⟩ := accepts_inb g _ _ _ _ ha
    rw [isWithinBounds_iff] at hs1 he1
    refine ⟨m.startR, (mem_boardRange _).mpr ⟨hs1.1, hs1.2.1⟩, m.startC,
      (mem_boardRange _).mpr ⟨hs1.2.2.1, hs1.2.2.2⟩, ?_⟩
    rw [if_pos (accepts_ownsOrigin g _ _ _ _ ha)]
    simp only [List.mem_flatMap]
    refine ⟨m.endR, (mem_boardRange _).mpr ⟨he1.1, he1.2.1⟩, m.endC,
      (mem_boardRange _).mpr ⟨he1.2.2.1, he1.2.2.2⟩, ?_⟩
    rw [if_pos ha]
    simp only [List.mem_singleton]
    cases m
    simp only [Move.mk.injEq, true_and] at hs ⊢
    exact hs

/-- What `isMoveValid` requires of an accepted move, in every state. -/
theorem accepts_iff (g : ChessGame) (sr sc er ec : Int) :
    accepts g sr sc er ec = true
      ↔ isWithinBounds sr sc = true ∧ isWithinBounds er ec = true
        ∧ ownsOrigin g sr sc = true
        ∧ (getPieceAt g.board er ec != '.' && getPieceAt g.board er ec != ' '
            && ((g.isWhiteTurn && isPieceWhite (getPieceAt g.board er ec))
              || (!g.isWhiteTurn && isPieceBlack (getPieceAt g.board er ec)))) = false
        ∧ ¬ (sr = er ∧ sc = ec)
        ∧ patternSwitch g.board (getPieceAt g.board sr sc) sr sc er ec
            (getPieceAt g.board er ec) = some true
        ∧ isKingInCheck (simulateMove g sr sc er ec) g.isWhiteTurn = false := by
  constructor
  · intro h
    have hin := accepts_inb g sr sc er ec h
    have hown := accepts_ownsOrigin g sr sc er ec h
    refine ⟨hin.1, hin.2, hown, ?_⟩
    unfold accepts isMoveValid at h
    have h0 : ¬ (!isWithinBounds sr sc || !isWithinBounds er ec) = true := by
      simp [hin.1, hin.2]
    rw [if_neg h0] at h
    simp only [] at h
    by_cases h1 : (getPieceAt g.board sr sc == '.' || getPieceAt g.board sr sc == ' ') = true
    · rw [if_pos h1] at h; simp at h
    rw [if_neg h1] at h
    by_cases h2 : (g.isWhiteTurn && !isPieceWhite (getPieceAt g.board sr sc)
        || !g.isWhiteTurn && !isPieceBlack (getPieceAt g.board sr sc)) = true
    · rw [if_pos h2] at h; simp at h
    rw [if_neg h2] at h
    by_cases h3 : (getPieceAt g.board er ec != '.' && getPieceAt g.board er ec != ' '
        && ((g.isWhiteTurn && isPieceWhite (getPieceAt g.board er ec))
          || (!g.isWhiteTurn && isPieceBlack (getPieceAt g.board er ec)))) = true
    · rw [if_pos h3] at h; simp at h
    rw [if_neg h3] at h
    by_cases h4 : (decide (sr = er) && decide (sc = ec)) = true
    · rw [if_pos h4] at h; simp at h
    rw [if_neg h4] at h
    have h3' : (getPieceAt g.board er ec != '.' && getPieceAt g.board er ec != ' '
        && ((g.isWhiteTurn && isPieceWhite (getPieceAt g.board er ec))
          || (!g.isWhiteTurn && isPieceBlack (getPieceAt g.board er ec)))) = false := by
      simpa using h3
    have h4' : ¬ (sr = er ∧ sc = ec) := by simpa using h4
    refine ⟨h3', h4', ?_⟩
    cases hps : patternSwitch g.board (getPieceAt g.board sr sc) sr sc er ec
        (getPieceAt g.board er ec) with
    | none => simp [hps] at h
    | some v =>
      cases v
      · simp [hps] at h
      · simp only [hps, Bool.not_true, Bool.false_eq_true, if_false,
          moveLeavesKingInCheck_fst] at h
        cases hc : isKingInCheck (simulateMove g sr sc er ec) g.isWhiteTurn
        · exact ⟨rfl, rfl⟩
        · simp [hc] at h
  · rintro ⟨h1, h2, h3, h4, h5, h6, h7⟩
    unfold ownsOrigin at h3
    simp only [Bool.and_eq_true, bne_iff_ne, ne_eq] at h3
    unfold accepts isMoveValid
    have h0 : ¬ (!isWithinBounds sr sc || !isWithinBounds er ec) = true := by
      simp [h1, h2]
    have h3a : ¬ (getPieceAt g.board sr sc == '.' || getPieceAt g.board sr sc == ' ') = true := by
      simp [h3.1.1, h3.1.2]
    have h3b : ¬ (g.isWhiteTurn && !isPieceWhite (getPieceAt g.board sr sc)
        || !g.isWhiteTurn && !isPieceBlack (getPieceAt g.board sr sc)) = true := by
      have := h3.2
      cases hw : g.isWhiteTurn <;> simp [hw] at this ⊢ <;> exact this
    have h5' : ¬ (decide (sr = er) && decide (sc = ec)) = true := by simpa using h5
    rw [if_neg h0]
    simp only []
    rw [if_neg h3a, if_neg h3b, if_neg (by simp [h4]), if_neg h5', h6]
    simp [moveLeavesKingInCheck_fst, h7]

theorem makeMove_board (g : ChessGame) (sr sc er ec : Int) :
    (makeMove g sr sc er ec).board
      = setCell (setCell g.board er ec (cell g.board sr sc)) sr sc '.' := by
  unfold makeMove
  simp only []
  split_ifs <;> rfl

theorem makeMove_isWhiteTurn (g : ChessGame) (sr sc er ec : Int) :
    (makeMove g sr sc er ec).isWhiteTurn = !g.isWhiteTurn := by
  unfold makeMove
  simp only []
  split_ifs <;> rfl

/-- The king probe of a state reads the board and the two cached squares only. -/
theorem isKingInCheck_congr (g g' : ChessGame) (hb : g.board = g'.board)
    (h1 : g.whiteKingRow = g'.whiteKingRow) (h2 : g.whiteKingCol = g'.whiteKingCol)
    (h3 : g.blackKingRow = g'.blackKingRow) (h4 : g.blackKingCol = g'.blackKingCol)
    (w : Bool) : isKingInCheck g w = isKingInCheck g' w := by
  unfold isKingInCheck
  rw [hb, h1, h2, h3, h4]

/-- The executed move and the probe of the validator write the same board and
the same king caches. -/
theorem makeMove_simulateMove (g : ChessGame) (sr sc er ec : Int) (w : Bool) :
    isKingInCheck (makeMove g sr sc er ec) w = isKingInCheck (simulateMove g sr sc er ec) w := by
  apply isKingInCheck_congr
  · rw [makeMove_board, simulateMove_board]
  all_goals
    unfold makeMove simulateMove
    simp only []
    split_ifs <;> rfl

theorem mem_destMoves {g : ChessGame} {r c er ec : Int} {m : Move}
    (h : m ∈ destMoves g r c er ec) :
    m.startR = r ∧ m.startC = c ∧ m.endR = er ∧ m.endC = ec := by
  unfold destMoves at h
  split_ifs at h
  · simp only [List.mem_singleton] at h
    subst h
    exact ⟨rfl, rfl, rfl, rfl⟩
  · simp at h

theorem pairwise_flatMap_of_lt (L : List Int) (hL : L.Pairwise (fun a b => a < b))
    (f : Int → List Move) (R : Move → Move → Prop)
    (h1 : ∀ a ∈ L, (f a).Pairwise R)
    (h2 : ∀ a1 a2, a1 < a2 → ∀ x ∈ f a1, ∀ y ∈ f a2, R x y) :
    (L.flatMap f).Pairwise R := by
  rw [List.pairwise_flatMap]
  exact ⟨h1, hL.imp (fun {a b} hab => h2 a b hab)⟩

theorem boardRange_pairwise : boardRange.Pairwise (fun a b => a < b) := by
  unfold boardRange
  decide

theorem destMoves_pairwise (g : ChessGame) (r c er ec : Int) :
    (destMoves g r c er ec).Pairwise moveLt := by
  unfold destMoves
  split_ifs <;> simp

theorem originMoves_pairwise (g : ChessGame) (r c : Int) :
    (originMoves g r c).Pairwise moveLt := by
  unfold originMoves
  have hL := boardRange_pairwise
  generalize boardRange = L at hL ⊢
  split_ifs
  · apply pairwise_flatMap_of_lt L hL
    · intro er _
      apply pairwise_flatMap_of_lt L hL
      · intro ec _; exact destMoves_pairwise g r c er ec
      · intro e1 e2 hlt x hx y hy
        obtain ⟨a1, a2, a3, a4⟩ := mem_destMoves hx
        obtain ⟨b1, b2, b3, b4⟩ := mem_destMoves hy
        unfold moveLt
        rw [a1, a2, a3, a4, b1, b2, b3, b4]
        simp [hlt]
    · intro e1 e2 hlt x hx y hy
      simp only [List.mem_flatMap] at hx hy
      obtain ⟨_, _, hx⟩ := hx
      obtain ⟨_, _, hy⟩ := hy
      obtain ⟨a1, a2, a3, a4⟩ := mem_destMoves hx
      obtain ⟨b1, b2, b3, b4⟩ := mem_destMoves hy
      unfold moveLt
      rw [a1, a2, a3, b1, b2, b3]
      simp [hlt]
  · simp

theorem mem_originMoves {g : ChessGame} {r c : Int} {m : Move} (h : m ∈ originMoves g r c) :
    m.startR = r ∧ m.startC = c := by
  unfold originMoves at h
  split_ifs at h
  · simp only [List.mem_flatMap] at h
    obtain ⟨_, _, _, _, h⟩ := h
    obtain ⟨a1, a2, -, -⟩ := mem_destMoves h
    exact ⟨a1, a2⟩
  · simp at h

/-- The list returned by `generateValidMoves` is strictly increasing in the
lexicographic order of the coordinates, when the mover's cached king row is not
`-1`. -/
theorem generateValidMoves_pairwise (g : ChessGame)
    (hk : (if g.isWhiteTurn then g.whiteKingRow else g.blackKingRow) ≠ -1) :
    (generateValidMoves g).1.Pairwise moveLt := by
  rw [generateValidMoves_eq g hk]
  simp only []
  have hL := boardRange_pairwise
  generalize boardRange = L at hL ⊢
  apply pairwise_flatMap_of_lt L hL
  · intro r _
    apply pairwise_flatMap_of_lt L hL
    · intro c _; exact originMoves_pairwise g r c
    · intro c1 c2 hlt x hx y hy
      obtain ⟨a1, a2⟩ := mem_originMoves hx
      obtain ⟨b1, b2⟩ := mem_originMoves hy
      unfold moveLt
      rw [a1, a2, b1, b2]
      simp [hlt]
  · intro r1 r2 hlt x hx y hy
    simp only [List.mem_flatMap] at hx hy
    obtain ⟨_, _, hx⟩ := hx
    obtain ⟨_, _, hy⟩ := hy
    obtain ⟨a1, -⟩ := mem_originMoves hx
    obtain ⟨b1, -⟩ := mem_originMoves hy
    unfold moveLt
    rw [a1, b1]
    simp [hlt]

theorem moveLt_key_ne {a b : Move} (h : moveLt a b) : a.key ≠ b.key := by
  unfold moveLt at h
  unfold Move.key
  intro he
  simp only [Prod.mk.injEq] at he
  omega

/-- Every move built by `generateValidMoves` carries the score of its destination
square, in every state. -/
theorem generateValidMoves_scores (g : ChessGame) :
    (generateValidMoves g).2.board = g.board
      ∧ ∀ m ∈ (generateValidMoves g).1,
          m.score = scoreOf (getPieceAt g.board m.endR m.endC) := by
  unfold generateValidMoves
  generalize boardRange = L
  have hdest : ∀ r c er ec (acc : List Move × ChessGame),
      (acc.2.board = g.board
        ∧ ∀ m ∈ acc.1, m.score = scoreOf (getPieceAt g.board m.endR m.endC)) →
      ((genDest r c er ec acc).2.board = g.board
        ∧ ∀ m ∈ (genDest r c er ec acc).1,
            m.score = scoreOf (getPieceAt g.board m.endR m.endC)) := by
    intro r c er ec acc ⟨hb, hs⟩
    refine ⟨by rw [genDest_board, hb], ?_⟩
    unfold genDest
    simp only []
    by_cases hv : (isMoveValid acc.2 r c er ec).1.isNone = true
    · rw [if_pos hv]
      intro m hm
      simp only [List.mem_append, List.mem_singleton] at hm
      rcases hm with hm | hm
      · exact hs m hm
      · subst hm
        simp only [scoreOf, isMoveValid_board, hb]
    · rw [if_neg hv]
      exact hs
  have horigin : ∀ r c (acc : List Move × ChessGame),
      (acc.2.board = g.board
        ∧ ∀ m ∈ acc.1, m.score = scoreOf (getPieceAt g.board m.endR m.endC)) →
      ((genOrigin r c acc).2.board = g.board
        ∧ ∀ m ∈ (genOrigin r c acc).1,
            m.score = scoreOf (getPieceAt g.board m.endR m.endC)) := by
    intro r c acc hacc
    unfold genOrigin
    simp only []
    generalize boardRange = L'
    split_ifs
    · exact foldl_invariant _ _ L' acc hacc (fun a er ha =>
        foldl_invariant _ _ L' a ha (fun a2 ec ha2 => hdest r c er ec a2 ha2))
    · exact hacc
  exact foldl_invariant _ _ L ([], g) ⟨rfl, by simp⟩ (fun a r ha =>
    foldl_invariant _ _ L a ha (fun a2 c ha2 => horigin r c a2 ha2))

theorem scoreOf_material (t : Char) :
    ((t = '.' ∨ t = ' ') → scoreOf t = 1) ∧ (∀ v, materialValue t = some v → scoreOf t = v) := by
  constructor
  · rintro (rfl | rfl) <;> decide
  · intro v hv
    unfold materialValue at hv
    split_ifs at hv with h1 h2 h3 h4 h5 h6
    · rcases h1 with rfl | rfl <;> (simp only [Option.some.injEq] at hv; subst hv; decide)
    · rcases h2 with rfl | rfl <;> (simp only [Option.some.injEq] at hv; subst hv; decide)
    · rcases h3 with rfl | rfl <;> (simp only [Option.some.injEq] at hv; subst hv; decide)
    · rcases h4 with rfl | rfl <;> (simp only [Option.some.injEq] at hv; subst hv; decide)
    · rcases h5 with rfl | rfl <;> (simp only [Option.some.injEq] at hv; subst hv; decide)
    · rcases h6 with rfl | rfl <;> (simp only [Option.some.injEq] at hv; subst hv; decide)

theorem opening_keys : (generateValidMoves initializeBoard).1.map Move.key = openingMoves := by
  decide!

theorem accepts_passes (g : ChessGame) (sr sc er ec : Int) (h : accepts g sr sc er ec = true) :
    passesChecks1to6 g sr sc er ec = true := by
  unfold accepts at h
  unfold passesChecks1to6
  rw [Option.isNone_iff_eq_none] at h
  rw [h]

theorem makeMove_caches (g : ChessGame) (sr sc er ec : Int) :
    (makeMove g sr sc er ec).whiteKingRow = (simulateMove g sr sc er ec).whiteKingRow
      ∧ (makeMove g sr sc er ec).whiteKingCol = (simulateMove g sr sc er ec).whiteKingCol
      ∧ (makeMove g sr sc er ec).blackKingRow = (simulateMove g sr sc er ec).blackKingRow
      ∧ (makeMove g sr sc er ec).blackKingCol = (simulateMove g sr sc er ec).blackKingCol := by
  refine ⟨?_, ?_, ?_, ?_⟩
  all_goals
    unfold makeMove simulateMove
    simp only []
    split_ifs <;> rfl

theorem simulateMove_kingRow (g : ChessGame) (sr sc er ec : Int) (w : Bool) :
    kingRow (simulateMove g sr sc er ec) w
      = if ((cell g.board sr sc).toLower == 'k') = true ∧ w = g.isWhiteTurn then er
        else kingRow g w := by
  unfold simulateMove kingRow
  simp only []
  cases w <;> cases g.isWhiteTurn <;>
    by_cases hk : ((cell g.board sr sc).toLower == 'k') = true <;> simp [hk]

theorem simulateMove_kingCol (g : ChessGame) (sr sc er ec : Int) (w : Bool) :
    kingCol (simulateMove g sr sc er ec) w
      = if ((cell g.board sr sc).toLower == 'k') = true ∧ w = g.isWhiteTurn then ec
        else kingCol g w := by
  unfold simulateMove kingCol
  simp only []
  cases w <;> cases g.isWhiteTurn <;>
    by_cases hk : ((cell g.board sr sc).toLower == 'k') = true <;> simp [hk]

theorem makeMove_kingRow (g : ChessGame) (sr sc er ec : Int) (w : Bool) :
    kingRow (makeMove g sr sc er ec) w
      = if ((cell g.board sr sc).toLower == 'k') = true ∧ w = g.isWhiteTurn then er
        else kingRow g w := by
  rw [← simulateMove_kingRow]
  obtain ⟨h1, -, h3, -⟩ := makeMove_caches g sr sc er ec
  unfold kingRow
  rw [h1, h3]

theorem makeMove_kingCol (g : ChessGame) (sr sc er ec : Int) (w : Bool) :
    kingCol (makeMove g sr sc er ec) w
      = if ((cell g.board sr sc).toLower == 'k') = true ∧ w = g.isWhiteTurn then ec
        else kingCol g w := by
  rw [← simulateMove_kingCol]
  obtain ⟨-, h2, -, h4⟩ := makeMove_caches g sr sc er ec
  unfold kingCol
  rw [h2, h4]

theorem king_piece_iff {p : Char} (h : p = '.' ∨ p ∈ pieceSymbols) (w : Bool)
    (hw : isPieceWhite p = w) : (p.toLower == 'k') = true ↔ p = kingSym w := by
  rcases sym_cases h with h | h | h | h | h | h | h | h | h | h | h | h | h <;> subst h <;>
    subst hw <;> decide

theorem kingSym_white (w : Bool) : isPieceWhite (kingSym w) = w ∧ kingSym w ≠ '.' := by
  cases w <;> decide

theorem isKingInCheck_eq (g : ChessGame) (c : Bool) :
    isKingInCheck g c = isSquareAttacked g.board (kingRow g c) (kingCol g c) (!c) := rfl

/-- In a state satisfying the invariant, no accepted move lands on a king. -/
theorem accepted_target_not_king (g : ChessGame) (hinv : GameInv g) (sr sc er ec : Int)
    (ha : accepts g sr sc er ec = true) (w : Bool) :
    getPieceAt g.board er ec ≠ kingSym w := by
  obtain ⟨h1, h2, h3, h4, h5, h6, h7⟩ :=
    (passesChecks1to6_iff g hinv.boardOK sr sc er ec).mp (accepts_passes g sr sc er ec ha)
  intro ht
  by_cases hw : w = g.isWhiteTurn
  · apply h5
    rw [ht]
    exact ⟨(kingSym_white w).2, by rw [(kingSym_white w).1, hw]⟩
  · have hw' : w = !g.isWhiteTurn := by
      cases w <;> cases hg : g.isWhiteTurn <;> simp_all
    have hcell : g.board (idx er) (idx ec) = kingSym w := by
      rw [← ht, getPieceAt_inb _ _ _ h2]; rfl
    obtain ⟨e1, e2⟩ := (hinv.king w _ _).mp hcell
    have hin := hinv.inb w
    rw [isWithinBounds_iff] at h2 hin
    have er_eq : er = kingRow g w :=
      (idx_inj _ _ h2.1 h2.2.1 hin.1 hin.2.1).mp e1
    have ec_eq : ec = kingCol g w :=
      (idx_inj _ _ h2.2.2.1 h2.2.2.2 hin.2.2.1 hin.2.2.2).mp e2
    have hatt : isSquareAttacked g.board er ec g.isWhiteTurn = true := by
      rw [isSquareAttacked_iff_attackedBy g.board hinv.boardOK,
        attackedBy_iff_reachedBy g.board hinv.boardOK er ec
          ((isWithinBounds_iff _ _).mpr h2) (by rw [ht]; exact (kingSym_white w).2)]
      exact ⟨sr, sc, h1, h3, h4, h6, h7⟩
    have hsafe := hinv.safe
    rw [isKingInCheck_eq, ← hw', ← er_eq, ← ec_eq, hw', Bool.not_not, hatt] at hsafe
    cases hsafe

theorem makeMove_board_apply (g : ChessGame) (sr sc er ec : Int) (i j : Fin 8) :
    (makeMove g sr sc er ec).board i j
      = if i = idx sr ∧ j = idx sc then '.'
        else if i = idx er ∧ j = idx ec then cell g.board sr sc else g.board i j := by
  rw [makeMove_board]
  rfl

/-- The invariant is kept by `makeMove` of an accepted move. -/
theorem gameInv_makeMove (g : ChessGame) (hinv : GameInv g) (sr sc er ec : Int)
    (ha : accepts g sr sc er ec = true) : GameInv (makeMove g sr sc er ec) := by
  obtain ⟨h1, h2, h3, h4, h5, h6, h7⟩ :=
    (passesChecks1to6_iff g hinv.boardOK sr sc er ec).mp (accepts_passes g sr sc er ec ha)
  have hpiece : getPieceAt g.board sr sc = cell g.board sr sc := getPieceAt_inb _ _ _ h1
  have hsym := getPieceAt_sym g.board hinv.boardOK sr sc h1
  rw [hpiece] at hsym h3 h4
  have htarget : getPieceAt g.board er ec = g.board (idx er) (idx ec) :=
    getPieceAt_inb _ _ _ h2
  have hkp := king_piece_iff hsym g.isWhiteTurn h4
  have hSE : ¬ (idx sr = idx er ∧ idx sc = idx ec) := by
    have a := (isWithinBounds_iff _ _).mp h1
    have b := (isWithinBounds_iff _ _).mp h2
    rw [idx_inj _ _ a.1 a.2.1 b.1 b.2.1, idx_inj _ _ a.2.2.1 a.2.2.2 b.2.2.1 b.2.2.2]
    exact h6
  refine ⟨?_, ?_, ?_, ?_⟩
  · intro i j
    rw [makeMove_board_apply]
    split_ifs
    · left; rfl
    · exact hsym
    · exact hinv.boardOK i j
  · intro w
    rw [makeMove_kingRow, makeMove_kingCol]
    split_ifs
    · exact h2
    · exact hinv.inb w
  · intro w i j
    rw [makeMove_board_apply, makeMove_kingRow, makeMove_kingCol]
    by_cases hA : ((cell g.board sr sc).toLower == 'k') = true ∧ w = g.isWhiteTurn
    · rw [if_pos hA, if_pos hA]
      have hp : cell g.board sr sc = kingSym w := by rw [hA.2]; exact hkp.mp hA.1
      by_cases hS : i = idx sr ∧ j = idx sc
      · rw [if_pos hS]
        constructor
        · intro h; exact absurd h.symm (kingSym_white w).2
        · rintro ⟨e1, e2⟩
          exact absurd ⟨hS.1.symm.trans e1, hS.2.symm.trans e2⟩ hSE
      · rw [if_neg hS]
        by_cases hE : i = idx er ∧ j = idx ec
        · rw [if_pos hE]
          exact ⟨fun _ => hE, fun _ => hp⟩
        · rw [if_neg hE]
          constructor
          · intro h
            exfalso
            have hold := (hinv.king w i j).mp h
            have hstart := (hinv.king w (idx sr) (idx sc)).mp hp
            exact hS ⟨hold.1.trans hstart.1.symm, hold.2.trans hstart.2.symm⟩
          · intro h; exact absurd h hE
    · rw [if_neg hA, if_neg hA]
      have hp : cell g.board sr sc ≠ kingSym w := by
        intro hp
        have hc : w = g.isWhiteTurn := by
          rw [← h4, hp]; exact (kingSym_white w).1.symm
        exact hA ⟨hkp.mpr (by rw [hp, hc]), hc⟩
      have ht := accepted_target_not_king g hinv sr sc er ec ha w
      rw [htarget] at ht
      by_cases hS : i = idx sr ∧ j = idx sc
      · rw [if_pos hS]
        constructor
        · intro h; exact absurd h.symm (kingSym_white w).2
        · intro h
          exfalso
          apply hp
          have := (hinv.king w (idx sr) (idx sc)).mpr ⟨hS.1.symm.trans h.1, hS.2.symm.trans h.2⟩
          exact this
      · rw [if_neg hS]
        by_cases hE : i = idx er ∧ j = idx ec
        · rw [if_pos hE]
          constructor
          · intro h; exact absurd h hp
          · intro h
            exfalso
            apply ht
            exact (hinv.king w (idx er) (idx ec)).mpr ⟨hE.1.symm.trans h.1, hE.2.symm.trans h.2⟩
        · rw [if_neg hE]
          exact hinv.king w i j
  · rw [makeMove_isWhiteTurn, Bool.not_not, makeMove_simulateMove]
    exact ((accepts_iff g sr sc er ec).mp ha).2.2.2.2.2.2

theorem gameInv_kingsInBounds (g : ChessGame) (hinv : GameInv g) : KingsInBounds g :=
  ⟨hinv.inb true, hinv.inb false⟩

theorem gameInv_init : GameInv initializeBoard := by
  refine ⟨by decide, by decide, ?_, by decide!⟩
  intro w
  cases w <;> decide

/-- Every state of a game satisfies the invariant. -/
theorem reachable_gameInv (g : ChessGame) (h : Reachable g) : GameInv g := by
  induction h with
  | init => exact gameInv_init
  | step g sr sc er ec _ hv ih =>
    have hstate := isMoveValid_state_of_ne g sr sc er ec
      (KingsInBounds.mover_ne g (gameInv_kingsInBounds g ih))
    rw [hstate]
    apply gameInv_makeMove g ih
    unfold accepts
    rw [hv]
    rfl

theorem scoreOf_king {t : Char} (h : t = '.' ∨ t ∈ pieceSymbols) (hs : scoreOf t = 900) :
    t = 'K' ∨ t = 'k' := by
  rcases sym_cases h with h | h | h | h | h | h | h | h | h | h | h | h | h <;> subst h <;>
    first
    | (left; rfl)
    | (right; rfl)
    | (exfalso; revert hs; decide)

theorem gameInv_unique_king (g : ChessGame) (hinv : GameInv g) (w : Bool) :
    ∃! p : Fin 8 × Fin 8, g.board p.1 p.2 = kingSym w := by
  refine ⟨(idx (kingRow g w), idx (kingCol g w)), (hinv.king w _ _).mpr ⟨rfl, rfl⟩, ?_⟩
  rintro ⟨i, j⟩ hp
  obtain ⟨e1, e2⟩ := (hinv.king w i j).mp hp
  rw [e1, e2]

theorem reachable_step_opening : (isMoveValid initializeBoard 6 4 4 4).1 = none := by
  decide!

theorem toLower_eq_k (p : Char) : (p.toLower == 'k') = true ↔ (p = 'K' ∨ p = 'k') := by
  rw [beq_iff_eq]
  constructor
  · intro h
    unfold Char.toLower at h
    simp only [] at h
    split_ifs at h with hc
    · left
      have h1 := congrArg Char.toNat h
      have hlt : p.toNat + 32 < 0xd800 := by omega
      have hv : (p.toNat + 32).isValidChar := Or.inl hlt
      rw [Char.ofNat, dif_pos hv] at h1
      have e : ('k' : Char).toNat = 107 := rfl
      rw [e] at h1
      have h2 : p.toNat + 32 = 107 := h1
      have h3 : p.toNat = ('K' : Char).toNat := by
        have e2 : ('K' : Char).toNat = 75 := rfl
        rw [e2]; omega
      apply Char.ext
      apply UInt32.ext
      exact h3
    · right; exact h
  · rintro (rfl | rfl) <;> rfl

theorem indexToNotation_boardRange :
    ∀ r ∈ boardRange, ∀ c ∈ boardRange, indexToNotation r c = algebraicName r c := by
  decide!

theorem indexToNotation_eq_algebraicName (r c : Int) (h : isWithinBounds r c = true) :
    indexToNotation r c = algebraicName r c := by
  rw [isWithinBounds_iff] at h
  exact indexToNotation_boardRange r ((mem_boardRange r).mpr ⟨h.1, h.2.1⟩) c
    ((mem_boardRange c).mpr ⟨h.2.2.1, h.2.2.2⟩)

theorem makeMove_whiteCaptured (g : ChessGame) (sr sc er ec : Int) :
    (makeMove g sr sc er ec).whiteCaptured
      = if (cell g.board er ec != '.' && cell g.board er ec != ' ') = true
            ∧ isPieceWhite (cell g.board er ec) = false
        then g.whiteCaptured ++ [cell g.board er ec] else g.whiteCaptured := by
  unfold makeMove
  simp only []
  by_cases h1 : (cell g.board er ec != '.' && cell g.board er ec != ' ') = true
  · cases h2 : isPieceWhite (cell g.board er ec) <;>
      by_cases h3 : ((cell g.board sr sc).toLower == 'k') = true <;>
      cases h4 : g.isWhiteTurn <;> simp [h1, h2, h3, h4]
  · by_cases h3 : ((cell g.board sr sc).toLower == 'k') = true <;>
      cases h4 : g.isWhiteTurn <;> simp [h1, h3, h4]

theorem makeMove_blackCaptured (g : ChessGame) (sr sc er ec : Int) :
    (makeMove g sr sc er ec).blackCaptured
      = if (cell g.board er ec != '.' && cell g.board er ec != ' ') = true
            ∧ isPieceWhite (cell g.board er ec) = true
        then g.blackCaptured ++ [cell g.board er ec] else g.blackCaptured := by
  unfold makeMove
  simp only []
  by_cases h1 : (cell g.board er ec != '.' && cell g.board er ec != ' ') = true
  · cases h2 : isPieceWhite (cell g.board er ec) <;>
      by_cases h3 : ((cell g.board sr sc).toLower == 'k') = true <;>
      cases h4 : g.isWhiteTurn <;> simp [h1, h2, h3, h4]
  · by_cases h3 : ((cell g.board sr sc).toLower == 'k') = true <;>
      cases h4 : g.isWhiteTurn <;> simp [h1, h3, h4]

theorem makeMove_lastMoveNotation_raw (g : ChessGame) (sr sc er ec : Int) :
    (makeMove g sr sc er ec).lastMoveNotation
      = if isKingInCheck (makeMove g sr sc er ec) (makeMove g sr sc er ec).isWhiteTurn = true
        then indexToNotation sr sc
          ++ (if (cell g.board er ec != '.' && cell g.board er ec != ' ') = true then "x" else "-")
          ++ indexToNotation er ec ++ "+"
        else indexToNotation sr sc
          ++ (if (cell g.board er ec != '.' && cell g.board er ec != ' ') = true then "x" else "-")
          ++ indexToNotation er ec := rfl

theorem makeMove_lastMoveNotation (g : ChessGame) (sr sc er ec : Int) :
    (makeMove g sr sc er ec).lastMoveNotation
      = indexToNotation sr sc
        ++ (if (cell g.board er ec != '.' && cell g.board er ec != ' ') = true then "x" else "-")
        ++ indexToNotation er ec
        ++ (if isKingInCheck (makeMove g sr sc er ec) (makeMove g sr sc er ec).isWhiteTurn = true
            then "+" else "") := by
  rw [makeMove_lastMoveNotation_raw]
  split_ifs <;> simp

/-- The probe of the validator never touches the side to move or the captured
lists, in any state. -/
theorem moveLeavesKingInCheck_frame (g : ChessGame) (sr sc er ec : Int) :
    (moveLeavesKingInCheck g sr sc er ec).2.isWhiteTurn = g.isWhiteTurn
      ∧ (moveLeavesKingInCheck g sr sc er ec).2.whiteCaptured = g.whiteCaptured
      ∧ (moveLeavesKingInCheck g sr sc er ec).2.blackCaptured = g.blackCaptured := by
  refine ⟨?_, ?_, ?_⟩
  all_goals
    unfold moveLeavesKingInCheck simulateMove
    simp only []
    split_ifs <;> rfl

theorem isMoveValid_frame (g : ChessGame) (sr sc er ec : Int) :
    (isMoveValid g sr sc er ec).2.isWhiteTurn = g.isWhiteTurn
      ∧ (isMoveValid g sr sc er ec).2.whiteCaptured = g.whiteCaptured
      ∧ (isMoveValid g sr sc er ec).2.blackCaptured = g.blackCaptured := by
  rcases isMoveValid_snd g sr sc er ec with h | h
  · rw [h]; exact ⟨rfl, rfl, rfl⟩
  · rw [h]; exact moveLeavesKingInCheck_frame g sr sc er ec

theorem getPieceAt_makeMove (g : ChessGame) (sr sc er ec r c : Int)
    (hs : isWithinBounds sr sc = true) (he : isWithinBounds er ec = true)
    (hr : isWithinBounds r c = true) :
    getPieceAt (makeMove g sr sc er ec).board r c
      = if r = sr ∧ c = sc then '.'
        else if r = er ∧ c = ec then getPieceAt g.board sr sc else getPieceAt g.board r c := by
  rw [getPieceAt_inb _ _ _ hr, getPieceAt_inb _ _ _ hs, getPieceAt_inb _ _ _ hr]
  unfold cell
  rw [makeMove_board_apply]
  rw [isWithinBounds_iff] at hs he hr
  simp only [idx_inj r sr hr.1 hr.2.1 hs.1 hs.2.1, idx_inj c sc hr.2.2.1 hr.2.2.2 hs.2.2.1 hs.2.2.2,
    idx_inj r er hr.1 hr.2.1 he.1 he.2.1, idx_inj c ec hr.2.2.1 hr.2.2.2 he.2.2.1 he.2.2.2, cell]

theorem capture_side {t : Char} (ht : t ∈ pieceSymbols) (w : Bool)
    (h : (t != '.' && t != ' ' && ((w && isPieceWhite t) || (!w && isPieceBlack t))) = false) :
    (t != '.' && t != ' ') = true ∧ isPieceWhite t = !w := by
  rcases sym_cases (Or.inr ht) with h' | h' | h' | h' | h' | h' | h' | h' | h' | h' | h' | h' | h' <;>
    subst h' <;> cases w <;> first | decide | (exfalso; revert h; decide) | (exfalso; revert ht; decide)

theorem isSquareAttacked_of_straight (b : Board) (r c : Int) (w : Bool)
    (h : rookDirs.any (fun d => rayLoop b r c d.1 d.2 (if w then 'R' else 'r')
        (if w then 'Q' else 'q') loopFuel 1 == some true) = true) :
    isSquareAttacked b r c w = true := by
  unfold isSquareAttacked
  simp only [if_true_else, Bool.or_eq_true]
  tauto

/-- A Black queen on e8 attacks every square of the e-file below it up to the
first occupied one, on any board. -/
theorem file_attack (b : Board) (r0 : Int) (h1 : 1 ≤ r0) (h7 : r0 ≤ 7)
    (hq : getPieceAt b 0 4 = 'q')
    (hfile : ∀ r : Int, 1 ≤ r → r < r0 → getPieceAt b r 4 = '.') :
    isSquareAttacked b r0 4 false = true := by
  apply isSquareAttacked_of_straight
  rw [List.any_eq_true]
  refine ⟨(-1, 0), by decide, ?_⟩
  rw [beq_iff_eq]
  simp only [Bool.false_eq_true, if_false]
  rw [rayLoop_some_true_iff b r0 4 (-1) 0 'r' 'q' (by decide) (by decide)]
  have e : (((r0 - 1).toNat : Nat) : Int) = r0 - 1 := by omega
  refine ⟨(r0 - 1).toNat, by unfold loopFuel; omega, ?_, ?_, ?_⟩
  · rw [e, isWithinBounds_iff]; omega
  · right
    rw [e]
    have e1 : r0 + (1 + (r0 - 1)) * -1 = 0 := by ring
    have e2 : (4 : Int) + (1 + (r0 - 1)) * 0 = 4 := by ring
    rw [e1, e2]; exact hq
  · intro j hj
    have e1 : r0 + (1 + (j : Int)) * -1 = r0 - 1 - j := by ring
    have e2 : (4 : Int) + (1 + (j : Int)) * 0 = 4 := by ring
    rw [e1, e2]
    refine ⟨by rw [isWithinBounds_iff]; omega, Or.inl (hfile _ (by omega) (by omega))⟩

/-- What passing checks 1 to 6 requires, in every state. -/
theorem passesChecks1to6_general (g : ChessGame) (sr sc er ec : Int) :
    passesChecks1to6 g sr sc er ec = true
      ↔ isWithinBounds sr sc = true ∧ isWithinBounds er ec = true
        ∧ ownsOrigin g sr sc = true
        ∧ (getPieceAt g.board er ec != '.' && getPieceAt g.board er ec != ' '
            && ((g.isWhiteTurn && isPieceWhite (getPieceAt g.board er ec))
              || (!g.isWhiteTurn && isPieceBlack (getPieceAt g.board er ec)))) = false
        ∧ ¬ (sr = er ∧ sc = ec)
        ∧ patternSwitch g.board (getPieceAt g.board sr sc) sr sc er ec
            (getPieceAt g.board er ec) = some true := by
  unfold passesChecks1to6 isMoveValid ownsOrigin
  simp only []
  by_cases h0 : (!isWithinBounds sr sc || !isWithinBounds er ec) = true
  · rw [if_pos h0]
    simp only [Bool.or_eq_true, Bool.not_eq_true'] at h0
    rcases h0 with h | h <;> simp [h]
  rw [if_neg h0]
  have hin : isWithinBounds sr sc = true ∧ isWithinBounds er ec = true := by
    simpa using h0
  by_cases h1 : (getPieceAt g.board sr sc == '.' || getPieceAt g.board sr sc == ' ') = true
  · rw [if_pos h1]
    simp only [Bool.or_eq_true, beq_iff_eq] at h1
    rcases h1 with h | h <;> simp [h]
  rw [if_neg h1]
  have h1' : getPieceAt g.board sr sc ≠ '.' ∧ getPieceAt g.board sr sc ≠ ' ' := by
    simpa using h1
  by_cases h2 : (g.isWhiteTurn && !isPieceWhite (getPieceAt g.board sr sc)
      || !g.isWhiteTurn && !isPieceBlack (getPieceAt g.board sr sc)) = true
  · rw [if_pos h2]
    cases hw : g.isWhiteTurn <;> simp [hw] at h2 <;> simp [hw, h2]
  rw [if_neg h2]
  have h2' : (g.isWhiteTurn && isPieceWhite (getPieceAt g.board sr sc)
      || !g.isWhiteTurn && isPieceBlack (getPieceAt g.board sr sc)) = true := by
    cases hw : g.isWhiteTurn <;> simp [hw] at h2 <;> simp [h2]
  by_cases h3 : (getPieceAt g.board er ec != '.' && getPieceAt g.board er ec != ' '
      && ((g.isWhiteTurn && isPieceWhite (getPieceAt g.board er ec))
        || (!g.isWhiteTurn && isPieceBlack (getPieceAt g.board er ec)))) = true
  · rw [if_pos h3]
    simp [h3]
  rw [if_neg h3]
  have h3' : (getPieceAt g.board er ec != '.' && getPieceAt g.board er ec != ' '
      && ((g.isWhiteTurn && isPieceWhite (getPieceAt g.board er ec))
        || (!g.isWhiteTurn && isPieceBlack (getPieceAt g.board er ec)))) = false := by
    simpa using h3
  by_cases h4 : (decide (sr = er) && decide (sc = ec)) = true
  · rw [if_pos h4]
    have : sr = er ∧ sc = ec := by simpa using h4
    simp [this]
  rw [if_neg h4]
  have h4' : ¬ (sr = er ∧ sc = ec) := by simpa using h4
  cases hps : patternSwitch g.board (getPieceAt g.board sr sc) sr sc er ec
      (getPieceAt g.board er ec) with
  | none => simp
  | some v =>
    cases v
    · simp
    · simp only [Bool.not_true, Bool.false_eq_true, if_false]
      have hrhs : (isWithinBounds sr sc = true ∧ isWithinBounds er ec = true
          ∧ (getPieceAt g.board sr sc != '.' && getPieceAt g.board sr sc != ' '
              && (g.isWhiteTurn && isPieceWhite (getPieceAt g.board sr sc)
                || !g.isWhiteTurn && isPieceBlack (getPieceAt g.board sr sc))) = true
          ∧ (getPieceAt g.board er ec != '.' && getPieceAt g.board er ec != ' '
              && (g.isWhiteTurn && isPieceWhite (getPieceAt g.board er ec)
                || !g.isWhiteTurn && isPieceBlack (getPieceAt g.board er ec))) = false
          ∧ ¬ (sr = er ∧ sc = ec) ∧ True) := by
        refine ⟨hin.1, hin.2, ?_, h3', h4', trivial⟩
        simp only [Bool.and_eq_true, bne_iff_ne, ne_eq]
        exact ⟨⟨h1'.1, h1'.2⟩, by simpa using h2'⟩
      refine iff_of_true ?_ hrhs
      cases (moveLeavesKingInCheck g sr sc er ec).1 <;> rfl

/-- The verdict on a candidate that passes checks 1 to 6 is decided by the
self-check probe. -/
theorem verdict_of_passes (g : ChessGame) (sr sc er ec : Int)
    (h : passesChecks1to6 g sr sc er ec = true) :
    (isMoveValid g sr sc er ec).1
      = if isKingInCheck (simulateMove g sr sc er ec) g.isWhiteTurn = true
        then some MoveError.selfCheck else none := by
  have hacc := accepts_iff g sr sc er ec
  obtain ⟨h1, h2, h3, h4, h5, h6⟩ := (passesChecks1to6_general g sr sc er ec).mp h
  cases hc : isKingInCheck (simulateMove g sr sc er ec) g.isWhiteTurn
  · have := hacc.mpr ⟨h1, h2, h3, h4, h5, h6, hc⟩
    unfold accepts at this
    rw [Option.isNone_iff_eq_none] at this
    simp [this]
  · simp only [if_true]
    unfold passesChecks1to6 at h
    cases hv : (isMoveValid g sr sc er ec).1 with
    | none =>
      have : accepts g sr sc er ec = true := by unfold accepts; rw [hv]; rfl
      have := (hacc.mp this).2.2.2.2.2.2
      rw [hc] at this
      cases this
    | some e =>
      rw [hv] at h
      cases e <;> first | rfl | (simp at h)

theorem getPieceAt_simulateMove (g : ChessGame) (sr sc er ec r c : Int)
    (hs : isWithinBounds sr sc = true) (he : isWithinBounds er ec = true)
    (hr : isWithinBounds r c = true) :
    getPieceAt (simulateMove g sr sc er ec).board r c
      = if r = sr ∧ c = sc then '.'
        else if r = er ∧ c = ec then getPieceAt g.board sr sc else getPieceAt g.board r c := by
  rw [simulateMove_board, ← makeMove_board]
  exact getPieceAt_makeMove g sr sc er ec r c hs he hr

theorem forall_squares (P : Int → Int → Prop)
    (h : ∀ r ∈ boardRange, ∀ c ∈ boardRange, P r c) (r c : Int)
    (hin : isWithinBounds r c = true) : P r c := by
  rw [isWithinBounds_iff] at hin
  exact h r ((mem_boardRange r).mpr ⟨hin.1, hin.2.1⟩) c
    ((mem_boardRange c).mpr ⟨hin.2.2.1, hin.2.2.2⟩)

theorem openFile_only_king (r c : Int) (h : getPieceAt openFileState.board r c = 'K') :
    r = 7 ∧ c = 4 := by
  by_cases hin : isWithinBounds r c = true
  · exact forall_squares (fun r c => getPieceAt openFileState.board r c = 'K' → r = 7 ∧ c = 4)
      (by decide!) r c hin h
  · rw [getPieceAt_oob _ _ _ (by simpa using hin)] at h
    exact absurd h (by decide)

theorem openFile_file_empty (r : Int) (h1 : 1 ≤ r) (h6 : r ≤ 6) :
    getPieceAt openFileState.board r 4 = '.' :=
  forall_squares (fun r c => 1 ≤ r → r ≤ 6 → c = 4 → getPieceAt openFileState.board r c = '.')
    (by decide!) r 4 (by rw [isWithinBounds_iff]; omega) h1 h6 rfl

theorem scoreOf_nonneg (t : Char) : 0 ≤ scoreOf t := by
  unfold scoreOf getPieceValue
  simp only []
  split_ifs <;> omega

/-- The running maximum of `makeAIMove`, started at `init`: it bounds every score
and the start value, and it is the start value or the score of a listed move. -/
theorem bestScore_fold (l : List Move) :
    ∀ init : Int,
      init ≤ l.foldl (fun best move => if move.score > best then move.score else best) init
        ∧ (∀ m ∈ l,
            m.score ≤ l.foldl (fun best move => if move.score > best then move.score else best)
              init)
        ∧ (l.foldl (fun best move => if move.score > best then move.score else best) init = init
            ∨ ∃ m ∈ l,
              m.score = l.foldl (fun best move => if move.score > best then move.score else best)
                init) := by
  induction l with
  | nil => intro init; simp
  | cons x xs ih =>
    intro init
    rw [List.foldl_cons]
    by_cases hx : x.score > init
    · rw [if_pos hx]
      obtain ⟨h1, h2, h3⟩ := ih x.score
      refine ⟨by omega, ?_, ?_⟩
      · intro m hm
        rcases List.mem_cons.mp hm with rfl | hm
        · exact h1
        · exact h2 m hm
      · right
        rcases h3 with h3 | ⟨m, hm, hs⟩
        · exact ⟨x, List.mem_cons_self _ _, h3.symm⟩
        · exact ⟨m, List.mem_cons_of_mem _ hm, hs⟩
    · rw [if_neg hx]
      obtain ⟨h1, h2, h3⟩ := ih init
      refine ⟨h1, ?_, ?_⟩
      · intro m hm
        rcases List.mem_cons.mp hm with rfl | hm
        · omega
        · exact h2 m hm
      · rcases h3 with h3 | ⟨m, hm, hs⟩
        · exact Or.inl h3
        · exact Or.inr ⟨m, List.mem_cons_of_mem _ hm, hs⟩

/-- The outcome of `makeAIMove` in every state: failure without a move when the
enumeration is empty, else `makeMove` of an enumerated move of maximal score; the
modulus is never zero and the index is always inside `bestMoves`. -/
theorem makeAIMove_outcome (g : ChessGame) (rnd : Nat) :
    ((generateValidMoves g).1 = [] → makeAIMove g rnd = some (false, (generateValidMoves g).2))
      ∧ ((generateValidMoves g).1 ≠ [] →
          ∃ m ∈ (generateValidMoves g).1,
            (∀ m' ∈ (generateValidMoves g).1, m'.score ≤ m.score)
              ∧ makeAIMove g rnd
                = some (true, makeMove (generateValidMoves g).2 m.startR m.startC m.endR m.endC)) := by
  have hscore := (generateValidMoves_scores g).2
  unfold makeAIMove
  simp only []
  generalize generateValidMoves g = res at hscore ⊢
  obtain ⟨L, g2⟩ := res
  simp only at hscore ⊢
  constructor
  · intro h
    rw [h]
    rfl
  · intro hne
    have hemp : L.isEmpty = false := by
      cases L with
      | nil => exact absurd rfl hne
      | cons x xs => rfl
    rw [hemp]
    simp only [Bool.false_eq_true, if_false]
    obtain ⟨-, hmax, hor⟩ := bestScore_fold L (-1)
    generalize L.foldl (fun best move => if move.score > best then move.score else best) (-1) = bs
      at hmax hor ⊢
    have hex : ∃ m ∈ L, m.score = bs := by
      rcases hor with h | h
      · exfalso
        cases L with
        | nil => exact hne rfl
        | cons x xs =>
          have h1 := hmax x (List.mem_cons_self _ _)
          have h2 := hscore x (List.mem_cons_self _ _)
          have h3 := scoreOf_nonneg (getPieceAt g.board x.endR x.endC)
          omega
      · exact h
    obtain ⟨m0, hm0, hs0⟩ := hex
    have hmem0 : m0 ∈ L.filter (fun move => move.score == bs) := by
      rw [List.mem_filter]; exact ⟨hm0, by simpa using hs0⟩
    have hlen : 0 < (L.filter (fun move => move.score == bs)).length :=
      List.length_pos_of_mem hmem0
    rw [if_neg (by omega)]
    have hidx : rnd % (L.filter (fun move => move.score == bs)).length
        < (L.filter (fun move => move.score == bs)).length := Nat.mod_lt _ hlen
    rw [List.getElem?_eq_getElem hidx]
    have hmem := List.getElem_mem hidx
    rw [List.mem_filter] at hmem
    refine ⟨_, hmem.1, ?_, rfl⟩
    intro m' hm'
    have : (L.filter (fun move => move.score == bs))[rnd
        % (L.filter (fun move => move.score == bs)).length].score = bs := by
      simpa using hmem.2
    rw [this]
    exact hmax m' hm'

/-- The verdict of `isMoveValid` as a cascade of tests, in every state. -/
theorem isMoveValid_verdict (g : ChessGame) (sr sc er ec : Int) :
    (isMoveValid g sr sc er ec).1
      = if (!isWithinBounds sr sc || !isWithinBounds er ec) = true then some MoveError.outOfBounds
        else if (getPieceAt g.board sr sc == '.' || getPieceAt g.board sr sc == ' ') = true then
          some (MoveError.emptyOrigin sr sc)
        else if (g.isWhiteTurn && !isPieceWhite (getPieceAt g.board sr sc)
            || !g.isWhiteTurn && !isPieceBlack (getPieceAt g.board sr sc)) = true then
          some (MoveError.wrongSide (getPieceAt g.board sr sc) sr sc)
        else if (getPieceAt g.board er ec != '.' && getPieceAt g.board er ec != ' '
            && ((g.isWhiteTurn && isPieceWhite (getPieceAt g.board er ec))
              || (!g.isWhiteTurn && isPieceBlack (getPieceAt g.board er ec)))) = true then
          some (MoveError.ownCapture er ec)
        else if (decide (sr = er) && decide (sc = ec)) = true then some MoveError.sameSquare
        else
          match patternSwitch g.board (getPieceAt g.board sr sc) sr sc er ec
              (getPieceAt g.board er ec) with
          | none => some MoveError.unknownPiece
          | some v =>
            if v = false then some (MoveError.badPattern (getPieceAt g.board sr sc) sr sc er ec)
            else if isKingInCheck (simulateMove g sr sc er ec) g.isWhiteTurn = true then
              some MoveError.selfCheck
            else none := by
  unfold isMoveValid
  simp only []
  by_cases h0 : (!isWithinBounds sr sc || !isWithinBounds er ec) = true
  · rw [if_pos h0, if_pos h0]
  rw [if_neg h0, if_neg h0]
  by_cases h1 : (getPieceAt g.board sr sc == '.' || getPieceAt g.board sr sc == ' ') = true
  · rw [if_pos h1, if_pos h1]
  rw [if_neg h1, if_neg h1]
  by_cases h2 : (g.isWhiteTurn && !isPieceWhite (getPieceAt g.board sr sc)
      || !g.isWhiteTurn && !isPieceBlack (getPieceAt g.board sr sc)) = true
  · rw [if_pos h2, if_pos h2]
  rw [if_neg h2, if_neg h2]
  by_cases h3 : (getPieceAt g.board er ec != '.' && getPieceAt g.board er ec != ' '
      && ((g.isWhiteTurn && isPieceWhite (getPieceAt g.board er ec))
        || (!g.isWhiteTurn && isPieceBlack (getPieceAt g.board er ec)))) = true
  · rw [if_pos h3, if_pos h3]
  rw [if_neg h3, if_neg h3]
  by_cases h4 : (decide (sr = er) && decide (sc = ec)) = true
  · rw [if_pos h4, if_pos h4]
  rw [if_neg h4, if_neg h4]
  cases hps : patternSwitch g.board (getPieceAt g.board sr sc) sr sc er ec
      (getPieceAt g.board er ec) with
  | none => rfl
  | some v =>
    cases v
    · rfl
    · simp only [Bool.not_true, Bool.false_eq_true, if_false, Bool.true_eq_false]
      rw [moveLeavesKingInCheck_fst]
      cases isKingInCheck (simulateMove g sr sc er ec) g.isWhiteTurn <;> rfl

/-- What passing checks 1 to 5 requires, in every state. -/
theorem passesChecks1to5_general (g : ChessGame) (sr sc er ec : Int) :
    passesChecks1to5 g sr sc er ec = true
      ↔ isWithinBounds sr sc = true ∧ isWithinBounds er ec = true
        ∧ ownsOrigin g sr sc = true
        ∧ (getPieceAt g.board er ec != '.' && getPieceAt g.board er ec != ' '
            && ((g.isWhiteTurn && isPieceWhite (getPieceAt g.board er ec))
              || (!g.isWhiteTurn && isPieceBlack (getPieceAt g.board er ec)))) = false
        ∧ ¬ (sr = er ∧ sc = ec) := by
  unfold passesChecks1to5 ownsOrigin
  rw [isMoveValid_verdict]
  by_cases h0 : (!isWithinBounds sr sc || !isWithinBounds er ec) = true
  · rw [if_pos h0]
    simp only [Bool.or_eq_true, Bool.not_eq_true'] at h0
    rcases h0 with h | h <;> simp [h]
  rw [if_neg h0]
  have hin : isWithinBounds sr sc = true ∧ isWithinBounds er ec = true := by
    simpa using h0
  by_cases h1 : (getPieceAt g.board sr sc == '.' || getPieceAt g.board sr sc == ' ') = true
  · rw [if_pos h1]
    simp only [Bool.or_eq_true, beq_iff_eq] at h1
    rcases h1 with h | h <;> simp [h]
  rw [if_neg h1]
  have h1' : getPieceAt g.board sr sc ≠ '.' ∧ getPieceAt g.board sr sc ≠ ' ' := by
    simpa using h1
  by_cases h2 : (g.isWhiteTurn && !isPieceWhite (getPieceAt g.board sr sc)
      || !g.isWhiteTurn && !isPieceBlack (getPieceAt g.board sr sc)) = true
  · rw [if_pos h2]
    cases hw : g.isWhiteTurn <;> simp [hw] at h2 <;> simp [hw, h2]
  rw [if_neg h2]
  have h2' : (g.isWhiteTurn && isPieceWhite (getPieceAt g.board sr sc)
      || !g.isWhiteTurn && isPieceBlack (getPieceAt g.board sr sc)) = true := by
    cases hw : g.isWhiteTurn <;> simp [hw] at h2 <;> simp [h2]
  by_cases h3 : (getPieceAt g.board er ec != '.' && getPieceAt g.board er ec != ' '
      && ((g.isWhiteTurn && isPieceWhite (getPieceAt g.board er ec))
        || (!g.isWhiteTurn && isPieceBlack (getPieceAt g.board er ec)))) = true
  · rw [if_pos h3]
    simp [h3]
  rw [if_neg h3]
  have h3' : (getPieceAt g.board er ec != '.' && getPieceAt g.board er ec != ' '
      && ((g.isWhiteTurn && isPieceWhite (getPieceAt g.board er ec))
        || (!g.isWhiteTurn && isPieceBlack (getPieceAt g.board er ec)))) = false := by
    simpa using h3
  by_cases h4 : (decide (sr = er) && decide (sc = ec)) = true
  · rw [if_pos h4]
    have : sr = er ∧ sc = ec := by simpa using h4
    simp [this]
  rw [if_neg h4]
  have h4' : ¬ (sr = er ∧ sc = ec) := by simpa using h4
  have hrhs : (isWithinBounds sr sc = true ∧ isWithinBounds er ec = true
      ∧ (getPieceAt g.board sr sc != '.' && getPieceAt g.board sr sc != ' '
          && (g.isWhiteTurn && isPieceWhite (getPieceAt g.board sr sc)
            || !g.isWhiteTurn && isPieceBlack (getPieceAt g.board sr sc))) = true
      ∧ (getPieceAt g.board er ec != '.' && getPieceAt g.board er ec != ' '
          && (g.isWhiteTurn && isPieceWhite (getPieceAt g.board er ec)
            || !g.isWhiteTurn && isPieceBlack (getPieceAt g.board er ec))) = false
      ∧ ¬ (sr = er ∧ sc = ec)) := by
    refine ⟨hin.1, hin.2, ?_, h3', h4'⟩
    simp only [Bool.and_eq_true, bne_iff_ne, ne_eq]
    exact ⟨⟨h1'.1, h1'.2⟩, by simpa using h2'⟩
  refine iff_of_true ?_ hrhs
  cases patternSwitch g.board (getPieceAt g.board sr sc) sr sc er ec
      (getPieceAt g.board er ec) with
  | none => rfl
  | some v =>
    cases v
    · rfl
    · simp only [Bool.true_eq_false, if_false]
      cases isKingInCheck (simulateMove g sr sc er ec) g.isWhiteTurn <;> rfl

/-- A candidate that passes checks 1 to 5 has the verdict of the pattern switch
and the self-check probe. -/
theorem verdict_after_check5 (g : ChessGame) (sr sc er ec : Int)
    (h : passesChecks1to5 g sr sc er ec = true) :
    (isMoveValid g sr sc er ec).1
      = match patternSwitch g.board (getPieceAt g.board sr sc) sr sc er ec
            (getPieceAt g.board er ec) with
        | none => some MoveError.unknownPiece
        | some v =>
          if v = false then some (MoveError.badPattern (getPieceAt g.board sr sc) sr sc er ec)
          else if isKingInCheck (simulateMove g sr sc er ec) g.isWhiteTurn = true then
            some MoveError.selfCheck
          else none := by
  obtain ⟨h1, h2, h3, h4, h5⟩ := (passesChecks1to5_general g sr sc er ec).mp h
  unfold ownsOrigin at h3
  simp only [] at h3
  rw [isMoveValid_verdict]
  rw [if_neg (by simp [h1, h2])]
  have hp : getPieceAt g.board sr sc ≠ '.' ∧ getPieceAt g.board sr sc ≠ ' ' := by
    simp only [Bool.and_eq_true, bne_iff_ne, ne_eq] at h3
    exact h3.1
  rw [if_neg (by simp [hp.1, hp.2])]
  rw [if_neg (by
    cases hw : g.isWhiteTurn <;> simp [hw] at h3 <;> simp [hw, h3])]
  rw [if_neg (by rw [h4]; decide)]
  rw [if_neg (by simpa using h5)]

/-- The verdict on a null move `s -> s`, in every state: one of the first four
errors, the own-capture error whenever checks 1 to 3 pass. -/
theorem null_move_verdict (g : ChessGame) (r c : Int) :
    (isMoveValid g r c r c).1
      = if isWithinBounds r c = false then some MoveError.outOfBounds
        else if getPieceAt g.board r c = '.' ∨ getPieceAt g.board r c = ' ' then
          some (MoveError.emptyOrigin r c)
        else if (g.isWhiteTurn = true ∧ isPieceWhite (getPieceAt g.board r c) = false)
            ∨ (g.isWhiteTurn = false ∧ isPieceBlack (getPieceAt g.board r c) = false) then
          some (MoveError.wrongSide (getPieceAt g.board r c) r c)
        else some (MoveError.ownCapture r c) := by
  rw [isMoveValid_verdict]
  by_cases h0 : isWithinBounds r c = false
  · rw [if_pos (by simp [h0]), if_pos h0]
  rw [if_neg (by simpa using h0), if_neg h0]
  by_cases h1 : getPieceAt g.board r c = '.' ∨ getPieceAt g.board r c = ' '
  · rw [if_pos (by simpa using h1), if_pos h1]
  rw [if_neg (by simpa using h1), if_neg h1]
  have h1' : getPieceAt g.board r c ≠ '.' ∧ getPieceAt g.board r c ≠ ' ' := by
    simpa using h1
  by_cases h2 : (g.isWhiteTurn = true ∧ isPieceWhite (getPieceAt g.board r c) = false)
      ∨ (g.isWhiteTurn = false ∧ isPieceBlack (getPieceAt g.board r c) = false)
  · rw [if_pos (by cases hw : g.isWhiteTurn <;> simp [hw] at h2 <;> simp [hw, h2]), if_pos h2]
  rw [if_neg (by cases hw : g.isWhiteTurn <;> simp [hw] at h2 <;> simp [hw, h2]), if_neg h2]
  rw [if_pos (by cases hw : g.isWhiteTurn <;> simp [hw] at h2 <;> simp [hw, h2, h1'.1, h1'.2])]

/-- The same-square error is issued only for a null move. -/
theorem sameSquare_only_null (g : ChessGame) (sr sc er ec : Int)
    (h : (isMoveValid g sr sc er ec).1 = some MoveError.sameSquare) : sr = er ∧ sc = ec := by
  rw [isMoveValid_verdict] at h
  by_cases h4 : (decide (sr = er) && decide (sc = ec)) = true
  · simpa using h4
  exfalso
  by_cases h0 : (!isWithinBounds sr sc || !isWithinBounds er ec) = true
  · rw [if_pos h0] at h; cases h
  rw [if_neg h0] at h
  by_cases h1 : (getPieceAt g.board sr sc == '.' || getPieceAt g.board sr sc == ' ') = true
  · rw [if_pos h1] at h; cases h
  rw [if_neg h1] at h
  by_cases h2 : (g.isWhiteTurn && !isPieceWhite (getPieceAt g.board sr sc)
      || !g.isWhiteTurn && !isPieceBlack (getPieceAt g.board sr sc)) = true
  · rw [if_pos h2] at h; cases h
  rw [if_neg h2] at h
  by_cases h3 : (getPieceAt g.board er ec != '.' && getPieceAt g.board er ec != ' '
      && ((g.isWhiteTurn && isPieceWhite (getPieceAt g.board er ec))
        || (!g.isWhiteTurn && isPieceBlack (getPieceAt g.board er ec)))) = true
  · rw [if_pos h3] at h; cases h
  rw [if_neg h3, if_neg h4] at h
  revert h
  cases patternSwitch g.board (getPieceAt g.board sr sc) sr sc er ec
      (getPieceAt g.board er ec) with
  | none => intro h; cases h
  | some v =>
    cases v
    · intro h; cases h
    · simp only [Bool.true_eq_false, if_false]
      cases isKingInCheck (simulateMove g sr sc er ec) g.isWhiteTurn <;> intro h <;> cases h

theorem patternSwitch_knight (b : Board) {p : Char} (hN : p = 'N' ∨ p = 'n')
    (sr sc er ec : Int) :
    patternSwitch b p sr sc er ec (getPieceAt b er ec) = some (isValidKnightMove sr sc er ec) := by
  rcases hN with rfl | rfl
  · rw [patternSwitch_sym b (Or.inr (by decide)) (by decide)]
    exact congrArg some (pieceRule_knight b true sr sc er ec)
  · rw [patternSwitch_sym b (Or.inr (by decide)) (by decide)]
    exact congrArg some (pieceRule_knight b false sr sc er ec)

theorem patternSwitch_king (b : Board) {p : Char} (hK : p = 'K' ∨ p = 'k')
    (sr sc er ec : Int) :
    patternSwitch b p sr sc er ec (getPieceAt b er ec) = some (isValidKingMove sr sc er ec) := by
  rcases hK with rfl | rfl
  · rw [patternSwitch_sym b (Or.inr (by decide)) (by decide)]
    exact congrArg some (pieceRule_king b true sr sc er ec)
  · rw [patternSwitch_sym b (Or.inr (by decide)) (by decide)]
    exact congrArg some (pieceRule_king b false sr sc er ec)

theorem patternSwitch_pawn (b : Board) {p : Char} (hP : p = 'P' ∨ p = 'p')
    (sr sc er ec : Int) :
    patternSwitch b p sr sc er ec (getPieceAt b er ec)
      = some (isValidPawnMove b sr sc er ec (getPieceAt b er ec)) := by
  rcases hP with rfl | rfl
  · rw [patternSwitch_sym b (Or.inr (by decide)) (by decide)]
    exact congrArg some (pieceRule_pawn b true sr sc er ec)
  · rw [patternSwitch_sym b (Or.inr (by decide)) (by decide)]
    exact congrArg some (pieceRule_pawn b false sr sc er ec)

/-- On the twelve piece symbols, `EnemyOccupied w` is "of the other colour". -/
theorem enemyOccupied_symbol (w : Bool) {t : Char} (ht : t ∈ pieceSymbols) :
    EnemyOccupied w t ↔ isPieceWhite t = !w := by
  rcases sym_cases (Or.inr ht) with h | h | h | h | h | h | h | h | h | h | h | h | h <;>
    subst h <;> cases w <;> first | decide | (exfalso; revert ht; decide)

/-- The pawn pattern on any board, for a pawn of colour `w` on the origin. -/
theorem isValidPawnMove_iff (b : Board) (w : Bool) (sr sc er ec : Int)
    (hP : getPieceAt b sr sc = (if w then 'P' else 'p')) :
    isValidPawnMove b sr sc er ec (getPieceAt b er ec) = true
      ↔ (sc = ec ∧ er = sr + pawnForward w ∧ getPieceAt b er ec = '.')
        ∨ (sc = ec ∧ er = sr + 2 * pawnForward w ∧ sr = pawnHomeRow w
            ∧ getPieceAt b (sr + pawnForward w) sc = '.' ∧ getPieceAt b er ec = '.')
        ∨ (|ec - sc| = 1 ∧ er = sr + pawnForward w
            ∧ getPieceAt b er ec ≠ '.' ∧ getPieceAt b er ec ≠ ' ') := by
  have habs : (sc - ec).natAbs = 1 ↔ |ec - sc| = 1 := by
    rw [abs_sub_comm, Int.abs_eq_natAbs]; omega
  have hwp : isPieceWhite 'P' = true := by decide
  have hbp : isPieceWhite 'p' = false := by decide
  cases w
  · simp only [Bool.false_eq_true, if_false] at hP
    unfold isValidPawnMove pawnForward pawnHomeRow
    simp only [hP, hbp, Bool.false_eq_true, if_false, if_true_else, Bool.or_eq_true,
      Bool.and_eq_true, decide_eq_true_eq, beq_iff_eq, bne_iff_ne, ne_eq, habs]
    split_ifs with h1 h2 h3
    · exact iff_of_true rfl (Or.inl ⟨h1.1.1, h1.1.2, h1.2⟩)
    · exact iff_of_true rfl (Or.inr (Or.inl ⟨h2.1.1.1.1, h2.1.1.2, h2.1.1.1.2, h2.2, h2.1.2⟩))
    · exact iff_of_true rfl (Or.inr (Or.inr ⟨h3.1.1, h3.1.2, h3.2.1, h3.2.2⟩))
    · refine iff_of_false (by simp) ?_
      rintro (h | h | h)
      · exact h1 ⟨⟨h.1, h.2.1⟩, h.2.2⟩
      · exact h2 ⟨⟨⟨⟨h.1, h.2.2.1⟩, h.2.1⟩, h.2.2.2.2⟩, h.2.2.2.1⟩
      · exact h3 ⟨⟨h.1, h.2.1⟩, h.2.2.1, h.2.2.2⟩
  · simp only [if_true] at hP
    unfold isValidPawnMove pawnForward pawnHomeRow
    simp only [hP, hwp, if_true, if_true_else, Bool.or_eq_true,
      Bool.and_eq_true, decide_eq_true_eq, beq_iff_eq, bne_iff_ne, ne_eq, habs]
    split_ifs with h1 h2 h3
    · exact iff_of_true rfl (Or.inl ⟨h1.1.1, h1.1.2, h1.2⟩)
    · exact iff_of_true rfl (Or.inr (Or.inl ⟨h2.1.1.1.1, h2.1.1.2, h2.1.1.1.2, h2.2, h2.1.2⟩))
    · exact iff_of_true rfl (Or.inr (Or.inr ⟨h3.1.1, h3.1.2, h3.2.1, h3.2.2⟩))
    · refine iff_of_false (by simp) ?_
      rintro (h | h | h)
      · exact h1 ⟨⟨h.1, h.2.1⟩, h.2.2⟩
      · exact h2 ⟨⟨⟨⟨h.1, h.2.2.1⟩, h.2.1⟩, h.2.2.2.2⟩, h.2.2.2.1⟩
      · exact h3 ⟨⟨h.1, h.2.1⟩, h.2.2.1, h.2.2.2⟩

/-- Every enumerated move was accepted by `isMoveValid` in a state with the board
and the side to move of the state the enumeration started in, in every state. -/
theorem generateValidMoves_accepted (g : ChessGame) :
    ∀ m ∈ (generateValidMoves g).1,
      ∃ g' : ChessGame, g'.board = g.board ∧ g'.isWhiteTurn = g.isWhiteTurn
        ∧ accepts g' m.startR m.startC m.endR m.endC = true := by
  have main : ((generateValidMoves g).2.board = g.board
      ∧ (generateValidMoves g).2.isWhiteTurn = g.isWhiteTurn)
      ∧ ∀ m ∈ (generateValidMoves g).1,
        ∃ g' : ChessGame, g'.board = g.board ∧ g'.isWhiteTurn = g.isWhiteTurn
          ∧ accepts g' m.startR m.startC m.endR m.endC = true := by
    unfold generateValidMoves
    generalize boardRange = L
    have hdest : ∀ r c er ec (acc : List Move × ChessGame),
        ((acc.2.board = g.board ∧ acc.2.isWhiteTurn = g.isWhiteTurn)
          ∧ ∀ m ∈ acc.1, ∃ g' : ChessGame, g'.board = g.board ∧ g'.isWhiteTurn = g.isWhiteTurn
              ∧ accepts g' m.startR m.startC m.endR m.endC = true) →
        (((genDest r c er ec acc).2.board = g.board
            ∧ (genDest r c er ec acc).2.isWhiteTurn = g.isWhiteTurn)
          ∧ ∀ m ∈ (genDest r c er ec acc).1,
              ∃ g' : ChessGame, g'.board = g.board ∧ g'.isWhiteTurn = g.isWhiteTurn
                ∧ accepts g' m.startR m.startC m.endR m.endC = true) := by
      intro r c er ec acc ⟨⟨hb, ht⟩, hs⟩
      unfold genDest
      simp only []
      by_cases hv : (isMoveValid acc.2 r c er ec).1.isNone = true
      · rw [if_pos hv]
        refine ⟨⟨by rw [isMoveValid_board, hb], by rw [(isMoveValid_frame _ _ _ _ _).1, ht]⟩, ?_⟩
        intro m hm
        simp only [List.mem_append, List.mem_singleton] at hm
        rcases hm with hm | hm
        · exact hs m hm
        · subst hm
          exact ⟨acc.2, hb, ht, hv⟩
      · rw [if_neg hv]
        exact ⟨⟨by rw [isMoveValid_board, hb], by rw [(isMoveValid_frame _ _ _ _ _).1, ht]⟩, hs⟩
    have horigin : ∀ r c (acc : List Move × ChessGame),
        ((acc.2.board = g.board ∧ acc.2.isWhiteTurn = g.isWhiteTurn)
          ∧ ∀ m ∈ acc.1, ∃ g' : ChessGame, g'.board = g.board ∧ g'.isWhiteTurn = g.isWhiteTurn
              ∧ accepts g' m.startR m.startC m.endR m.endC = true) →
        (((genOrigin r c acc).2.board = g.board
            ∧ (genOrigin r c acc).2.isWhiteTurn = g.isWhiteTurn)
          ∧ ∀ m ∈ (genOrigin r c acc).1,
              ∃ g' : ChessGame, g'.board = g.board ∧ g'.isWhiteTurn = g.isWhiteTurn
                ∧ accepts g' m.startR m.startC m.endR m.endC = true) := by
      intro r c acc hacc
      unfold genOrigin
      simp only []
      generalize boardRange = L'
      split_ifs
      · exact foldl_invariant _ _ L' acc hacc (fun a er ha =>
          foldl_invariant _ _ L' a ha (fun a2 ec ha2 => hdest r c er ec a2 ha2))
      · exact hacc
    exact foldl_invariant _ _ L ([], g) ⟨⟨rfl, rfl⟩, by simp⟩ (fun a r ha =>
      foldl_invariant _ _ L a ha (fun a2 c ha2 => horigin r c a2 ha2))
  exact main.2

/-- A pawn that stands on the last row of its direction of travel has no accepted
move, whatever the rest of the state. -/
theorem last_row_pawn_rejected (g : ChessGame) (w : Bool) (sr sc er ec : Int)
    (hP : getPieceAt g.board sr sc = (if w then 'P' else 'p'))
    (hrow : sr = (if w then 0 else 7)) : accepts g sr sc er ec = false := by
  cases ha : accepts g sr sc er ec
  · rfl
  · exfalso
    obtain ⟨-, he, -, -, -, hp, -⟩ := (accepts_iff g sr sc er ec).mp ha
    rw [patternSwitch_pawn g.board (by cases w <;> simp [hP]) sr sc er ec] at hp
    have hv : isValidPawnMove g.board sr sc er ec (getPieceAt g.board er ec) = true := by
      simpa using hp
    rw [isValidPawnMove_iff g.board w sr sc er ec hP] at hv
    rw [isWithinBounds_iff] at he
    cases w <;> simp only [pawnForward, Bool.false_eq_true, if_false, if_true] at hv hrow <;>
      rcases hv with h | h | h <;> omega

theorem char_eq_of_toNat {c d : Char} (h : c.toNat = d.toNat) : c = d :=
  Char.ext (UInt32.ext h)

theorem toLower_toNat (p : Char) :
    p.toLower.toNat = if 65 ≤ p.toNat ∧ p.toNat ≤ 90 then p.toNat + 32 else p.toNat := by
  unfold Char.toLower
  simp only []
  split_ifs with hc
  · have hlt : p.toNat + 32 < 0xd800 := by omega
    have hv : (p.toNat + 32).isValidChar := Or.inl hlt
    rw [Char.ofNat, dif_pos hv]
    rfl
  · rfl

theorem toLower_idem (p : Char) : p.toLower.toLower = p.toLower := by
  apply char_eq_of_toNat
  rw [toLower_toNat p.toLower, toLower_toNat p]
  split_ifs <;> omega

/-- A character whose code lies between those of `a` and `h` is one of the eight
file letters. -/
theorem file_letter_cases (f : Char) (h1 : 97 ≤ f.toNat) (h2 : f.toNat ≤ 104) :
    f ∈ "abcdefgh".data := by
  have hf : f = Char.ofNat f.toNat := (Char.ofNat_toNat f).symm
  generalize f.toNat = n at hf h1 h2
  subst hf
  interval_cases n <;> decide

/-- A character whose code lies between those of `1` and `8` is one of the eight
rank digits. -/
theorem rank_digit_cases (d : Char) (h1 : 49 ≤ d.toNat) (h2 : d.toNat ≤ 56) :
    d ∈ "12345678".data := by
  have hd : d = Char.ofNat d.toNat := (Char.ofNat_toNat d).symm
  generalize d.toNat = n at hd h1 h2
  subst hd
  interval_cases n <;> decide

/-- Lower-casing lands on a file letter exactly for the file letters of either
case. -/
theorem toLower_mem_files (p : Char) :
    p.toLower ∈ "abcdefgh".data ↔ p ∈ "abcdefghABCDEFGH".data := by
  constructor
  · intro h
    have hn : 97 ≤ p.toLower.toNat ∧ p.toLower.toNat ≤ 104 := by
      revert h
      generalize p.toLower = q
      intro h
      simp only [List.mem_cons, List.mem_singleton, List.not_mem_nil, or_false] at h
      rcases h with h | h | h | h | h | h | h | h <;> subst h <;> decide
    rw [toLower_toNat] at hn
    have hp : p = Char.ofNat p.toNat := (Char.ofNat_toNat p).symm
    by_cases hc : 65 ≤ p.toNat ∧ p.toNat ≤ 90
    · rw [if_pos hc] at hn
      have h1 : 65 ≤ p.toNat := by omega
      have h2 : p.toNat ≤ 72 := by omega
      generalize p.toNat = n at hp h1 h2
      subst hp
      interval_cases n <;> decide
    · rw [if_neg hc] at hn
      obtain ⟨h1, h2⟩ := hn
      generalize p.toNat = n at hp h1 h2
      subst hp
      interval_cases n <;> decide
  · intro h
    simp only [List.mem_cons, List.mem_singleton, List.not_mem_nil, or_false] at h
    rcases h with h | h | h | h | h | h | h | h | h | h | h | h | h | h | h | h <;>
      subst h <;> decide

/-- The result of `notationToIndex` on a two-character string. -/
theorem notationToIndex_two (s : String) (c0 c1 : Char) (h : s.data = [c0, c1]) :
    notationToIndex s
      = if c0.toLower ∈ "abcdefgh".data ∧ c1 ∈ "12345678".data then
          some ((56 : Int) - c1.toNat, (c0.toLower.toNat : Int) - 97)
        else none := by
  unfold notationToIndex
  rw [h]
  simp only []
  have hlt : ∀ x y : Char, (x < y) ↔ x.toNat < y.toNat := fun _ _ => Iff.rfl
  by_cases hf : c0.toLower ∈ "abcdefgh".data ∧ c1 ∈ "12345678".data
  · rw [if_pos hf]
    have hfn : 97 ≤ c0.toLower.toNat ∧ c0.toLower.toNat ≤ 104 := by
      have := hf.1
      revert this
      generalize c0.toLower = q
      intro h
      simp only [List.mem_cons, List.mem_singleton, List.not_mem_nil, or_false] at h
      rcases h with h | h | h | h | h | h | h | h <;> subst h <;> decide
    have hdn : 49 ≤ c1.toNat ∧ c1.toNat ≤ 56 := by
      have := hf.2
      revert this
      generalize c1 = q
      intro h
      simp only [List.mem_cons, List.mem_singleton, List.not_mem_nil, or_false] at h
      rcases h with h | h | h | h | h | h | h | h <;> subst h <;> decide
    have e1 : ('a' : Char).toNat = 97 := rfl
    have e2 : ('h' : Char).toNat = 104 := rfl
    have e3 : ('1' : Char).toNat = 49 := rfl
    have e4 : ('8' : Char).toNat = 56 := rfl
    rw [if_neg, if_pos]
    · rw [e1, e4]; rfl
    · rw [isWithinBounds_iff, e1, e4]
      push_cast
      omega
    · simp only [Bool.or_eq_true, decide_eq_true_eq, hlt, gt_iff_lt, e1, e2, e3, e4]
      omega
  · rw [if_neg hf]
    have e1 : ('a' : Char).toNat = 97 := rfl
    have e2 : ('h' : Char).toNat = 104 := rfl
    have e3 : ('1' : Char).toNat = 49 := rfl
    have e4 : ('8' : Char).toNat = 56 := rfl
    rw [if_pos]
    simp only [Bool.or_eq_true, decide_eq_true_eq, hlt, gt_iff_lt, e1, e2, e3, e4]
    by_contra hcon
    apply hf
    exact ⟨file_letter_cases _ (by omega) (by omega), rank_digit_cases _ (by omega) (by omega)⟩

theorem notationToIndex_length (s : String) (h : s.length ≠ 2) : notationToIndex s = none := by
  unfold notationToIndex
  have hl : s.data.length ≠ 2 := h
  rcases hd : s.data with _ | ⟨a, _ | ⟨b, _ | ⟨c, t⟩⟩⟩
  · rfl
  · rfl
  · rw [hd] at hl; exact absurd rfl hl
  · rfl

theorem roundtrip_boardRange :
    ∀ r ∈ boardRange, ∀ c ∈ boardRange, notationToIndex (indexToNotation r c) = some (r, c) := by
  decide!

theorem notation_back_chars :
    ∀ f ∈ "abcdefgh".data, ∀ d ∈ "12345678".data,
      indexToNotation ((56 : Int) - d.toNat) ((f.toNat : Int) - 97) = String.mk [f, d] := by
  decide!

/-- The member `makeAIMove` written with its two loops named. -/
theorem makeAIMove_loops (g : ChessGame) (rnd : Nat) :
    makeAIMove g rnd
      = if (generateValidMoves g).1.isEmpty = true then some (false, (generateValidMoves g).2)
        else if (bestMovesOf (generateValidMoves g).1).length = 0 then none
        else
          match (bestMovesOf (generateValidMoves g).1)[rnd
              % (bestMovesOf (generateValidMoves g).1).length]? with
          | none => none
          | some chosenMove =>
            some (true, makeMove (generateValidMoves g).2 chosenMove.startR chosenMove.startC
              chosenMove.endR chosenMove.endC) := by
  unfold makeAIMove bestMovesOf bestScoreOf
  generalize generateValidMoves g = res
  rfl

theorem rookMove_eq_within (b : Board) (sr sc er ec : Int) :
    rookMove b sr sc er ec = rookMoveWithin b sr sc er ec loopFuel := rfl

theorem allSquares_nodup : allSquares.Nodup := by decide!

theorem mem_allSquares (p : Fin 8 × Fin 8) : p ∈ allSquares := by
  obtain ⟨i, j⟩ := p
  unfold allSquares
  rw [List.mem_flatMap]
  exact ⟨i, List.mem_finRange i, List.mem_map.mpr ⟨j, List.mem_finRange j, rfl⟩⟩

/-- Changing a predicate at one element of a duplicate-free list changes its count
by the change at that element. -/
theorem countP_update {α : Type} [DecidableEq α] (p0 : α) (f f' : α → Bool)
    (h : ∀ p, p ≠ p0 → f' p = f p) :
    ∀ L : List α, L.Nodup → p0 ∈ L →
      L.countP f' + (if f p0 then 1 else 0) = L.countP f + (if f' p0 then 1 else 0) := by
  have hout : ∀ L : List α, p0 ∉ L → L.countP f' = L.countP f := by
    intro L hL
    induction L with
    | nil => rfl
    | cons x xs ih =>
      have hx : x ≠ p0 := fun e => hL (e ▸ List.mem_cons_self _ _)
      have hxs : p0 ∉ xs := fun e => hL (List.mem_cons_of_mem _ e)
      rw [List.countP_cons, List.countP_cons, ih hxs, h x hx]
  intro L
  induction L with
  | nil => intro _ hm; cases hm
  | cons x xs ih =>
    intro hnd hm
    rw [List.nodup_cons] at hnd
    rw [List.countP_cons, List.countP_cons]
    by_cases hx : x = p0
    · subst hx
      rw [hout xs hnd.1]
      cases f x <;> cases f' x <;> simp
    · have hm' : p0 ∈ xs := by
        rcases List.mem_cons.mp hm with e | e
        · exact absurd e.symm hx
        · exact e
      have := ih hnd.2 hm'
      rw [h x hx]
      omega

/-- Writing one cell changes the number of occupied squares by the change at that
cell. -/
theorem occupiedCount_setCell (b : Board) (r c : Int) (v : Char) :
    occupiedCount (setCell b r c v) + (if cell b r c != '.' then 1 else 0)
      = occupiedCount b + (if v != '.' then 1 else 0) := by
  unfold occupiedCount
  have key := countP_update (idx r, idx c) (fun p : Fin 8 × Fin 8 => b p.1 p.2 != '.')
    (fun p : Fin 8 × Fin 8 => setCell b r c v p.1 p.2 != '.') (by
      intro p hp
      unfold setCell
      simp only []
      rw [if_neg]
      intro hcon
      exact hp (Prod.ext hcon.1 hcon.2)) allSquares allSquares_nodup (mem_allSquares _)
  have e : setCell b r c v (idx r) (idx c) = v := by
    unfold setCell; simp
  simp only [e] at key
  exact key

theorem capturable_of_symbol {t : Char} (ht : t ∈ pieceSymbols) (hK : t ≠ 'K') (hk : t ≠ 'k') :
    (t != '.' && t != ' ') = true
      ∧ ((isPieceWhite t = true ∧ t ∈ whiteCapturable)
        ∨ (isPieceWhite t = false ∧ t ∈ blackCapturable)) := by
  rcases sym_cases (Or.inr ht) with h | h | h | h | h | h | h | h | h | h | h | h | h <;>
    subst h <;> first | decide | exact absurd rfl hK | exact absurd rfl hk | (exfalso; revert ht; decide)

/-- An accepted move keeps the material account, in a state that satisfies the
invariant of the game. -/
theorem materialInv_makeMove (g : ChessGame) (hinv : GameInv g) (hm : MaterialInv g)
    (sr sc er ec : Int) (ha : accepts g sr sc er ec = true) :
    MaterialInv (makeMove g sr sc er ec) := by
  obtain ⟨hs, he, hown, -, -, -, -⟩ := (accepts_iff g sr sc er ec).mp ha
  obtain ⟨hcount, hwc, hbc⟩ := hm
  have hp : cell g.board sr sc ≠ '.' := by
    unfold ownsOrigin at hown
    simp only [Bool.and_eq_true, bne_iff_ne, ne_eq] at hown
    rw [← getPieceAt_inb _ _ _ hs]
    exact hown.1.1
  have htsym := getPieceAt_sym g.board hinv.boardOK er ec he
  rw [getPieceAt_inb _ _ _ he] at htsym
  have hnk : cell g.board er ec ≠ 'K' ∧ cell g.board er ec ≠ 'k' := by
    rw [← getPieceAt_inb _ _ _ he]
    exact ⟨accepted_target_not_king g hinv sr sc er ec ha true,
      accepted_target_not_king g hinv sr sc er ec ha false⟩
  have h1 := occupiedCount_setCell g.board er ec (cell g.board sr sc)
  have h2 := occupiedCount_setCell (setCell g.board er ec (cell g.board sr sc)) sr sc '.'
  have hcs : cell (setCell g.board er ec (cell g.board sr sc)) sr sc = cell g.board sr sc := by
    unfold cell setCell
    by_cases hc : idx sr = idx er ∧ idx sc = idx ec
    · rw [if_pos hc]
    · rw [if_neg hc]
  rw [hcs] at h2
  have e1 : (cell g.board sr sc != '.') = true := by simpa using hp
  have e2 : (('.' : Char) != '.') = false := by decide
  rw [e1, if_pos rfl] at h1 h2
  rw [e2, if_neg (by decide)] at h2
  unfold MaterialInv
  rw [makeMove_board, makeMove_whiteCaptured, makeMove_blackCaptured]
  generalize cell g.board er ec = t at htsym hnk h1 ⊢
  rcases htsym with ht | ht
  · subst ht
    rw [if_neg (by decide)] at h1
    rw [if_neg (by decide), if_neg (by decide)]
    exact ⟨by omega, hwc, hbc⟩
  · obtain ⟨hocc, hcol⟩ := capturable_of_symbol ht hnk.1 hnk.2
    have hdot : (t != '.') = true := by
      simp only [Bool.and_eq_true] at hocc
      exact hocc.1
    rw [hdot, if_pos rfl] at h1
    rcases hcol with ⟨hw, hmem⟩ | ⟨hw, hmem⟩
    · rw [if_neg (by rw [hw]; simp), if_pos ⟨hocc, hw⟩]
      refine ⟨?_, hwc, ?_⟩
      · rw [List.length_append, List.length_singleton]
        omega
      · intro x hx
        rcases List.mem_append.mp hx with hx | hx
        · exact hbc x hx
        · rw [List.mem_singleton.mp hx]; exact hmem
    · rw [if_pos ⟨hocc, hw⟩, if_neg (by rw [hw]; simp)]
      refine ⟨?_, ?_, hbc⟩
      · rw [List.length_append, List.length_singleton]
        omega
      · intro x hx
        rcases List.mem_append.mp hx with hx | hx
        · exact hwc x hx
        · rw [List.mem_singleton.mp hx]; exact hmem

theorem materialInv_init : MaterialInv initializeBoard := by
  refine ⟨by decide!, ?_, ?_⟩ <;> intro t ht <;> cases ht

theorem reachable_materialInv (g : ChessGame) (h : Reachable g) : MaterialInv g := by
  induction h with
  | init => exact materialInv_init
  | step g sr sc er ec hr hv ih =>
    have hinv := reachable_gameInv g hr
    have hstate := isMoveValid_state_of_ne g sr sc er ec
      (KingsInBounds.mover_ne g (gameInv_kingsInBounds g hinv))
    rw [hstate]
    apply materialInv_makeMove g hinv ih
    unfold accepts
    rw [hv]
    rfl

theorem pawnTakenState_reachable : Reachable pawnTakenState :=
  Reachable.step _ 4 4 3 3
    (Reachable.step _ 1 3 3 3
      (Reachable.step initializeBoard 6 4 4 4 Reachable.init (by decide!)) (by decide!))
    (by decide!)

theorem cell_ne_space (b : Board) (hb : BoardOK b) (r c : Int) : cell b r c ≠ ' ' := by
  unfold cell
  rcases sym_cases (hb (idx r) (idx c)) with h | h | h | h | h | h | h | h | h | h | h | h | h <;>
    rw [h] <;> decide

theorem boardOK_setCell (b : Board) (hb : BoardOK b) (r c : Int) (v : Char)
    (hv : v = '.' ∨ v ∈ pieceSymbols) : BoardOK (setCell b r c v) := by
  intro i j
  unfold setCell
  split_ifs
  · exact hv
  · exact hb i j

theorem boardOK_simulateMove (g : ChessGame) (hb : BoardOK g.board) (sr sc er ec : Int) :
    BoardOK (simulateMove g sr sc er ec).board := by
  rw [simulateMove_board]
  exact boardOK_setCell _ (boardOK_setCell _ hb _ _ _ (hb _ _)) _ _ _ (Or.inl rfl)

theorem second_rayLoop_eq (b : Board) (hb : BoardOK b) (r c d0 d1 : Int) (a1 a2 : Char) :
    ∀ (fuel : Nat) (i : Int),
      Second.rayLoop b r c d0 d1 a1 a2 fuel i = rayLoop b r c d0 d1 a1 a2 fuel i := by
  intro fuel
  induction fuel with
  | zero => intro i; rfl
  | succ f ih =>
    intro i
    rw [Second.rayLoop, rayLoop]
    simp only []
    by_cases hin : (!isWithinBounds (r + i * d0) (c + i * d1)) = true
    · rw [if_pos hin, if_pos hin]
    · rw [if_neg hin, if_neg hin]
      have hin' : isWithinBounds (r + i * d0) (c + i * d1) = true := by simpa using hin
      have hsp := getPieceAt_not_space b hb _ _ hin'
      have e : (getPieceAt b (r + i * d0) (c + i * d1) != '.'
            && getPieceAt b (r + i * d0) (c + i * d1) != ' ')
          = (getPieceAt b (r + i * d0) (c + i * d1) != '.') := by
        simp [hsp]
      rw [e, ih]

theorem second_isSquareAttacked_eq (b : Board) (hb : BoardOK b) (r c : Int) (w : Bool) :
    Second.isSquareAttacked b r c w = isSquareAttacked b r c w := by
  unfold Second.isSquareAttacked isSquareAttacked
  simp only [second_rayLoop_eq b hb]

theorem second_isKingInCheck_eq (g : ChessGame) (hb : BoardOK g.board) (w : Bool) :
    Second.isKingInCheck g w = isKingInCheck g w := by
  unfold Second.isKingInCheck isKingInCheck
  simp only [second_isSquareAttacked_eq g.board hb]

theorem second_moveLeavesKingInCheck_eq (g : ChessGame) (hb : BoardOK g.board)
    (sr sc er ec : Int) :
    Second.moveLeavesKingInCheck g sr sc er ec = moveLeavesKingInCheck g sr sc er ec := by
  unfold Second.moveLeavesKingInCheck moveLeavesKingInCheck
  simp only [second_isKingInCheck_eq _ (boardOK_simulateMove g hb sr sc er ec)]

theorem second_isValidPawnMove_eq (b : Board) (sr sc er ec : Int)
    (ht : getPieceAt b er ec ≠ ' ') :
    Second.isValidPawnMove b sr sc er ec (getPieceAt b er ec)
      = isValidPawnMove b sr sc er ec (getPieceAt b er ec) := by
  unfold Second.isValidPawnMove isValidPawnMove
  have e : (getPieceAt b er ec != '.' && getPieceAt b er ec != ' ')
      = (getPieceAt b er ec != '.') := by simp [ht]
  simp only [e]

theorem second_patternSwitch_eq (b : Board) (p : Char) (sr sc er ec : Int)
    (ht : getPieceAt b er ec ≠ ' ') :
    Second.patternSwitch b p sr sc er ec (getPieceAt b er ec)
      = patternSwitch b p sr sc er ec (getPieceAt b er ec) := by
  unfold Second.patternSwitch patternSwitch
  simp only [second_isValidPawnMove_eq b sr sc er ec ht]

/-- On a board of piece symbols and `'.'`, `isMoveValid` of the second copy gives
the verdict of the first copy, check for check, and leaves the same state. -/
theorem second_isMoveValid_eq (g : ChessGame) (hb : BoardOK g.board) (sr sc er ec : Int) :
    Second.isMoveValid g sr sc er ec
      = ((isMoveValid g sr sc er ec).1.map MoveError.toSecond, (isMoveValid g sr sc er ec).2) := by
  unfold Second.isMoveValid isMoveValid
  simp only []
  by_cases h0 : (!isWithinBounds sr sc || !isWithinBounds er ec) = true
  · rw [if_pos h0, if_pos h0]; rfl
  rw [if_neg h0, if_neg h0]
  have hin : isWithinBounds sr sc = true ∧ isWithinBounds er ec = true := by
    simpa using h0
  have hp := getPieceAt_sym g.board hb sr sc hin.1
  have ht := getPieceAt_sym g.board hb er ec hin.2
  rw [emptyTest_sym hp]
  by_cases h1 : (getPieceAt g.board sr sc == '.') = true
  · rw [if_pos h1, if_pos h1]; rfl
  rw [if_neg h1, if_neg h1]
  have hne : getPieceAt g.board sr sc ≠ '.' := by simpa using h1
  rw [sideTest_sym hp hne g.isWhiteTurn]
  by_cases h2 : (isPieceWhite (getPieceAt g.board sr sc) != g.isWhiteTurn) = true
  · rw [if_pos h2, if_pos h2]; rfl
  rw [if_neg h2, if_neg h2]
  rw [ownTest_sym ht g.isWhiteTurn]
  by_cases h3 : (getPieceAt g.board er ec != '.'
      && isPieceWhite (getPieceAt g.board er ec) == g.isWhiteTurn) = true
  · rw [if_pos h3, if_pos h3]; rfl
  rw [if_neg h3, if_neg h3]
  by_cases h4 : (decide (sr = er) && decide (sc = ec)) = true
  · rw [if_pos h4, if_pos h4]; rfl
  rw [if_neg h4, if_neg h4]
  rw [second_patternSwitch_eq g.board _ sr sc er ec (getPieceAt_not_space g.board hb er ec hin.2)]
  cases patternSwitch g.board (getPieceAt g.board sr sc) sr sc er ec (getPieceAt g.board er ec) with
  | none => rfl
  | some v =>
    cases v
    · rfl
    · simp only [Bool.not_true, Bool.false_eq_true, if_false]
      rw [second_moveLeavesKingInCheck_eq g hb]
      cases (moveLeavesKingInCheck g sr sc er ec).1 <;> rfl

theorem boardOK_makeMove (g : ChessGame) (hb : BoardOK g.board) (sr sc er ec : Int) :
    BoardOK (makeMove g sr sc er ec).board := by
  rw [makeMove_board]
  exact boardOK_setCell _ (boardOK_setCell _ hb _ _ _ (hb _ _)) _ _ _ (Or.inl rfl)

/-- On a board of piece symbols and `'.'`, `makeMove` of the second copy builds the
state that `makeMove` of the first copy builds. -/
theorem second_makeMove_eq (g : ChessGame) (hb : BoardOK g.board) (sr sc er ec : Int) :
    Second.makeMove g sr sc er ec = makeMove g sr sc er ec := by
  have hsp : cell g.board er ec ≠ ' ' := cell_ne_space g.board hb er ec
  have e : (cell g.board er ec != '.' && cell g.board er ec != ' ')
      = (cell g.board er ec != '.') := by simp [hsp]
  have hbo : BoardOK (setCell (setCell g.board er ec (cell g.board sr sc)) sr sc '.') :=
    boardOK_setCell _ (boardOK_setCell _ hb _ _ _ (hb _ _)) _ _ _ (Or.inl rfl)
  have hk : ∀ s : ChessGame, s.board = setCell (setCell g.board er ec (cell g.board sr sc)) sr sc '.'
      → ∀ w, Second.isKingInCheck s w = isKingInCheck s w := by
    intro s hs w
    exact second_isKingInCheck_eq s (by rw [hs]; exact hbo) w
  unfold Second.makeMove makeMove
  simp only [e]
  by_cases hc : (cell g.board er ec != '.') = true
  · by_cases hw : isPieceWhite (cell g.board er ec) = true
    · by_cases hking : ((cell g.board sr sc).toLower == 'k') = true
      · cases ht : g.isWhiteTurn <;>
          simp only [hc, hw, hking, ht, if_true, Bool.false_eq_true, if_false] <;>
          rw [hk _ rfl]
      · simp only [hc, hw, hking, if_true, Bool.false_eq_true, if_false]
        rw [hk _ rfl]
    · by_cases hking : ((cell g.board sr sc).toLower == 'k') = true
      · cases ht : g.isWhiteTurn <;>
          simp only [hc, hw, hking, ht, if_true, Bool.false_eq_true, if_false] <;>
          rw [hk _ rfl]
      · simp only [hc, hw, hking, if_true, Bool.false_eq_true, if_false]
        rw [hk _ rfl]
  · by_cases hking : ((cell g.board sr sc).toLower == 'k') = true
    · cases ht : g.isWhiteTurn <;>
        simp only [hc, hking, ht, if_true, Bool.false_eq_true, if_false] <;>
        rw [hk _ rfl]
    · simp only [hc, hking, if_true, Bool.false_eq_true, if_false]
      rw [hk _ rfl]

theorem isWithinBounds_mirror (r c : Int) : isWithinBounds (7 - r) c = isWithinBounds r c := by
  cases h : isWithinBounds r c
  · rw [isWithinBounds_false_iff] at h ⊢
    omega
  · rw [isWithinBounds_iff] at h ⊢
    omega

theorem idx_mirror (r : Int) (h0 : 0 ≤ r) (h8 : r < 8) : Fin.rev (idx (7 - r)) = idx r := by
  apply Fin.ext
  have h1 := idx_val (7 - r) (by omega) (by omega)
  have h2 := idx_val r h0 h8
  rw [Fin.val_rev]
  omega

/-- What `getPieceAt` can return on a board of piece symbols and `'.'`. -/
theorem getPieceAt_values (b : Board) (hb : BoardOK b) (r c : Int) :
    getPieceAt b r c = ' ' ∨ getPieceAt b r c = '.' ∨ getPieceAt b r c ∈ pieceSymbols := by
  cases h : isWithinBounds r c
  · exact Or.inl (getPieceAt_oob b r c h)
  · exact Or.inr (getPieceAt_sym b hb r c h)

theorem value_cases {x : Char} (h : x = ' ' ∨ x = '.' ∨ x ∈ pieceSymbols) :
    x = ' ' ∨ x = '.' ∨ x = 'P' ∨ x = 'N' ∨ x = 'B' ∨ x = 'R' ∨ x = 'Q' ∨ x = 'K'
      ∨ x = 'p' ∨ x = 'n' ∨ x = 'b' ∨ x = 'r' ∨ x = 'q' ∨ x = 'k' := by
  rcases h with h | h
  · exact Or.inl h
  · exact Or.inr (sym_cases h)

/-- The mirrored board read through `getPieceAt`, for all integer coordinates. -/
theorem getPieceAt_mirror (b : Board) (r c : Int) :
    getPieceAt (mirrorBoard b) (7 - r) c = swapColour (getPieceAt b r c) := by
  cases h : isWithinBounds r c
  · rw [getPieceAt_oob b r c h, getPieceAt_oob _ _ _ (by rw [isWithinBounds_mirror]; exact h)]
    decide
  · rw [getPieceAt_inb b r c h, getPieceAt_inb _ _ _ (by rw [isWithinBounds_mirror]; exact h)]
    rw [isWithinBounds_iff] at h
    unfold cell mirrorBoard
    rw [idx_mirror r h.1 h.2.1]

theorem getPieceAt_mirror_rev (b : Board) (r c : Int) :
    getPieceAt (mirrorBoard b) r c = swapColour (getPieceAt b (7 - r) c) := by
  have := getPieceAt_mirror b (7 - r) c
  rw [show (7 : Int) - (7 - r) = r by ring] at this
  exact this

theorem swapColour_values {x : Char} (h : x = ' ' ∨ x = '.' ∨ x ∈ pieceSymbols) :
    (swapColour x = ' ' ∨ swapColour x = '.' ∨ swapColour x ∈ pieceSymbols)
      ∧ swapColour (swapColour x) = x
      ∧ (swapColour x = '.' ↔ x = '.') ∧ (swapColour x = ' ' ↔ x = ' ')
      ∧ isPieceWhite (swapColour x) = isPieceBlack x
      ∧ isPieceBlack (swapColour x) = isPieceWhite x
      ∧ (x ∈ pieceSymbols → swapColour x ∈ pieceSymbols) := by
  rcases value_cases h with h | h | h | h | h | h | h | h | h | h | h | h | h | h <;>
    subst h <;> decide

theorem swapColour_eq_iff {x y : Char} (hx : x = ' ' ∨ x = '.' ∨ x ∈ pieceSymbols)
    (hy : y = ' ' ∨ y = '.' ∨ y ∈ pieceSymbols) : swapColour x = y ↔ x = swapColour y := by
  constructor
  · intro h
    rw [← h, (swapColour_values hx).2.1]
  · intro h
    rw [h, (swapColour_values hy).2.1]

theorem boardOK_mirror (b : Board) (hb : BoardOK b) : BoardOK (mirrorBoard b) := by
  intro i j
  unfold mirrorBoard
  rcases hb (Fin.rev i) j with h | h
  · left; rw [h]; decide
  · right; exact (swapColour_values (Or.inr (Or.inr h))).2.2.2.2.2.2 h

theorem mirrorBoard_mirrorBoard (b : Board) (hb : BoardOK b) : mirrorBoard (mirrorBoard b) = b := by
  funext i j
  unfold mirrorBoard
  rw [Fin.rev_rev]
  exact (swapColour_values (Or.inr (hb i j))).2.1

theorem getPieceAt_mirror_dot (b : Board) (hb : BoardOK b) (r c : Int) :
    getPieceAt (mirrorBoard b) (7 - r) c = '.' ↔ getPieceAt b r c = '.' := by
  rw [getPieceAt_mirror]
  exact (swapColour_values (getPieceAt_values b hb r c)).2.2.1

theorem getPieceAt_mirror_space (b : Board) (hb : BoardOK b) (r c : Int) :
    getPieceAt (mirrorBoard b) (7 - r) c = ' ' ↔ getPieceAt b r c = ' ' := by
  rw [getPieceAt_mirror]
  exact (swapColour_values (getPieceAt_values b hb r c)).2.2.2.1

/-- A piece of one colour on a square is the piece of the other colour on the
reflected square of the mirrored board. -/
theorem getPieceAt_mirror_piece (b : Board) (hb : BoardOK b) (r c : Int) (w : Bool)
    (u l : Char) (hu : u ∈ pieceSymbols) (hl : l ∈ pieceSymbols) (hul : swapColour u = l)
    (hlu : swapColour l = u) :
    getPieceAt (mirrorBoard b) (7 - r) c = (if (!w) = true then u else l)
      ↔ getPieceAt b r c = (if w = true then u else l) := by
  rw [getPieceAt_mirror]
  cases w
  · simp only [Bool.not_false, if_true, Bool.false_eq_true, if_false]
    rw [swapColour_eq_iff (getPieceAt_values b hb r c) (Or.inr (Or.inr hu)), hul]
  · simp only [Bool.not_true, if_true, Bool.false_eq_true, if_false]
    rw [swapColour_eq_iff (getPieceAt_values b hb r c) (Or.inr (Or.inr hl)), hlu]

theorem pathClear_mirror (b : Board) (hb : BoardOK b) (r c r' c' : Int) :
    PathClear (mirrorBoard b) (7 - r) c (7 - r') c' ↔ PathClear b r c r' c' := by
  unfold PathClear
  have e1 : (7 : Int) - r' - (7 - r) = -(r' - r) := by ring
  have e2 : ∀ t : Int, 7 - r + t * -(r' - r).sign = 7 - (r + t * (r' - r).sign) := by
    intro t; ring
  simp only [e1, abs_neg, Int.sign_neg, e2, getPieceAt_mirror_dot b hb]

theorem attackedBy_mirror (b : Board) (hb : BoardOK b) (r c : Int) (w : Bool)
    (h : AttackedBy b r c w) : AttackedBy (mirrorBoard b) (7 - r) c (!w) := by
  have eabs : ∀ x y : Int, |7 - x - (7 - y)| = |x - y| := by
    intro x y
    rw [show (7 : Int) - x - (7 - y) = -(x - y) by ring, abs_neg]
  rcases h with h | h | h | h | h
  · obtain ⟨r', c', hin, hp, hr, hc⟩ := h
    refine Or.inl ⟨7 - r', c', by rw [isWithinBounds_mirror]; exact hin, ?_, ?_, hc⟩
    · exact (getPieceAt_mirror_piece b hb r' c' w 'P' 'p' (by decide) (by decide)
        (by decide) (by decide)).mpr hp
    · cases w <;> simp only [Bool.not_false, Bool.not_true, if_true, Bool.false_eq_true,
        if_false] at hr ⊢ <;> omega
  · obtain ⟨r', c', hin, hp, hd⟩ := h
    refine Or.inr (Or.inl ⟨7 - r', c', by rw [isWithinBounds_mirror]; exact hin, ?_, ?_⟩)
    · exact (getPieceAt_mirror_piece b hb r' c' w 'N' 'n' (by decide) (by decide)
        (by decide) (by decide)).mpr hp
    · rw [eabs]; exact hd
  · obtain ⟨r', c', hin, hp, hd, hpc⟩ := h
    refine Or.inr (Or.inr (Or.inl ⟨7 - r', c', by rw [isWithinBounds_mirror]; exact hin,
      ?_, ?_, (pathClear_mirror b hb r c r' c').mpr hpc⟩))
    · rcases hp with hp | hp
      · exact Or.inl ((getPieceAt_mirror_piece b hb r' c' w 'R' 'r' (by decide) (by decide)
          (by decide) (by decide)).mpr hp)
      · exact Or.inr ((getPieceAt_mirror_piece b hb r' c' w 'Q' 'q' (by decide) (by decide)
          (by decide) (by decide)).mpr hp)
    · omega
  · obtain ⟨r', c', hin, hp, hd, hne, hpc⟩ := h
    refine Or.inr (Or.inr (Or.inr (Or.inl ⟨7 - r', c',
      by rw [isWithinBounds_mirror]; exact hin, ?_, ?_, ?_,
      (pathClear_mirror b hb r c r' c').mpr hpc⟩)))
    · rcases hp with hp | hp
      · exact Or.inl ((getPieceAt_mirror_piece b hb r' c' w 'B' 'b' (by decide) (by decide)
          (by decide) (by decide)).mpr hp)
      · exact Or.inr ((getPieceAt_mirror_piece b hb r' c' w 'Q' 'q' (by decide) (by decide)
          (by decide) (by decide)).mpr hp)
    · rw [eabs]; exact hd
    · omega
  · obtain ⟨r', c', hin, hp, hd1, hd2, hne⟩ := h
    refine Or.inr (Or.inr (Or.inr (Or.inr ⟨7 - r', c',
      by rw [isWithinBounds_mirror]; exact hin, ?_, ?_, hd2, ?_⟩)))
    · exact (getPieceAt_mirror_piece b hb r' c' w 'K' 'k' (by decide) (by decide)
        (by decide) (by decide)).mpr hp
    · rw [eabs]; exact hd1
    · omega

/-- Attack symmetry: a square is attacked by one colour exactly when the reflected
square of the mirrored board is attacked by the other colour, for all integer
coordinates. -/
theorem isSquareAttacked_mirror (b : Board) (hb : BoardOK b) (r c : Int) (w : Bool) :
    isSquareAttacked (mirrorBoard b) (7 - r) c (!w) = isSquareAttacked b r c w := by
  rw [Bool.eq_iff_iff, isSquareAttacked_iff_attackedBy _ (boardOK_mirror b hb),
    isSquareAttacked_iff_attackedBy b hb]
  constructor
  · intro h
    have := attackedBy_mirror (mirrorBoard b) (boardOK_mirror b hb) (7 - r) c (!w) h
    rw [mirrorBoard_mirrorBoard b hb, show (7 : Int) - (7 - r) = r by ring, Bool.not_not] at this
    exact this
  · exact attackedBy_mirror b hb r c w

theorem own_test_swap {x : Char} (hx : x = ' ' ∨ x = '.' ∨ x ∈ pieceSymbols) (t : Bool) :
    (swapColour x != '.' && swapColour x != ' '
        && (((!t) && isPieceWhite (swapColour x)) || (!(!t) && isPieceBlack (swapColour x))))
      = (x != '.' && x != ' ' && ((t && isPieceWhite x) || (!t && isPieceBlack x))) := by
  rcases value_cases hx with h | h | h | h | h | h | h | h | h | h | h | h | h | h <;>
    subst h <;> cases t <;> decide

theorem ownsOrigin_mirror (g : ChessGame) (hb : BoardOK g.board) (r c : Int) :
    ownsOrigin (mirror g) (7 - r) c = ownsOrigin g r c := by
  unfold ownsOrigin
  show (getPieceAt (mirrorBoard g.board) (7 - r) c != '.'
      && getPieceAt (mirrorBoard g.board) (7 - r) c != ' '
      && (((!g.isWhiteTurn) && isPieceWhite (getPieceAt (mirrorBoard g.board) (7 - r) c))
        || (!(!g.isWhiteTurn) && isPieceBlack (getPieceAt (mirrorBoard g.board) (7 - r) c)))) = _
  rw [getPieceAt_mirror]
  exact own_test_swap (getPieceAt_values g.board hb r c) g.isWhiteTurn

theorem pieceRule_literals (b : Board) (sr sc er ec : Int) :
    (pieceRule b 'P' sr sc er ec = isValidPawnMove b sr sc er ec (getPieceAt b er ec)
        ∧ pieceRule b 'p' sr sc er ec = isValidPawnMove b sr sc er ec (getPieceAt b er ec))
      ∧ (pieceRule b 'R' sr sc er ec = isValidRookMove b sr sc er ec
        ∧ pieceRule b 'r' sr sc er ec = isValidRookMove b sr sc er ec)
      ∧ (pieceRule b 'N' sr sc er ec = isValidKnightMove sr sc er ec
        ∧ pieceRule b 'n' sr sc er ec = isValidKnightMove sr sc er ec)
      ∧ (pieceRule b 'B' sr sc er ec = isValidBishopMove b sr sc er ec
        ∧ pieceRule b 'b' sr sc er ec = isValidBishopMove b sr sc er ec)
      ∧ (pieceRule b 'Q' sr sc er ec = isValidQueenMove b sr sc er ec
        ∧ pieceRule b 'q' sr sc er ec = isValidQueenMove b sr sc er ec)
      ∧ (pieceRule b 'K' sr sc er ec = isValidKingMove sr sc er ec
        ∧ pieceRule b 'k' sr sc er ec = isValidKingMove sr sc er ec) :=
  ⟨⟨pieceRule_pawn b true sr sc er ec, pieceRule_pawn b false sr sc er ec⟩,
    ⟨pieceRule_rook b true sr sc er ec, pieceRule_rook b false sr sc er ec⟩,
    ⟨pieceRule_knight b true sr sc er ec, pieceRule_knight b false sr sc er ec⟩,
    ⟨pieceRule_bishop b true sr sc er ec, pieceRule_bishop b false sr sc er ec⟩,
    ⟨pieceRule_queen b true sr sc er ec, pieceRule_queen b false sr sc er ec⟩,
    ⟨pieceRule_king b true sr sc er ec, pieceRule_king b false sr sc er ec⟩⟩

theorem abs_mirror (x y : Int) : |7 - x - (7 - y)| = |x - y| := by
  rw [show (7 : Int) - x - (7 - y) = -(x - y) by ring, abs_neg]

theorem isValidRookMove_mirror (b : Board) (hb : BoardOK b) (sr sc er ec : Int) :
    isValidRookMove (mirrorBoard b) (7 - sr) sc (7 - er) ec = isValidRookMove b sr sc er ec := by
  rw [Bool.eq_iff_iff, isValidRookMove_iff, isValidRookMove_iff, pathClear_mirror b hb]
  have : (7 : Int) - sr = 7 - er ↔ sr = er := by omega
  rw [this]

theorem isValidBishopMove_mirror (b : Board) (hb : BoardOK b) (sr sc er ec : Int) :
    isValidBishopMove (mirrorBoard b) (7 - sr) sc (7 - er) ec
      = isValidBishopMove b sr sc er ec := by
  rw [Bool.eq_iff_iff, isValidBishopMove_iff, isValidBishopMove_iff, pathClear_mirror b hb,
    abs_mirror]
  have : (7 : Int) - sr ≠ 7 - er ↔ sr ≠ er := by omega
  rw [this]

theorem isValidKnightMove_mirror (sr sc er ec : Int) :
    isValidKnightMove (7 - sr) sc (7 - er) ec = isValidKnightMove sr sc er ec := by
  rw [Bool.eq_iff_iff, isValidKnightMove_iff, isValidKnightMove_iff, abs_mirror]

theorem isValidKingMove_mirror (sr sc er ec : Int) :
    isValidKingMove (7 - sr) sc (7 - er) ec = isValidKingMove sr sc er ec := by
  rw [Bool.eq_iff_iff, isValidKingMove_iff, isValidKingMove_iff, abs_mirror]

theorem isValidPawnMove_mirror (b : Board) (hb : BoardOK b) (w : Bool) (sr sc er ec : Int)
    (hP : getPieceAt b sr sc = (if w then 'P' else 'p')) :
    isValidPawnMove (mirrorBoard b) (7 - sr) sc (7 - er) ec
        (getPieceAt (mirrorBoard b) (7 - er) ec)
      = isValidPawnMove b sr sc er ec (getPieceAt b er ec) := by
  have hP' : getPieceAt (mirrorBoard b) (7 - sr) sc = (if (!w) = true then 'P' else 'p') :=
    (getPieceAt_mirror_piece b hb sr sc w 'P' 'p' (by decide) (by decide) (by decide)
      (by decide)).mpr hP
  rw [Bool.eq_iff_iff, isValidPawnMove_iff (mirrorBoard b) (!w) (7 - sr) sc (7 - er) ec hP',
    isValidPawnMove_iff b w sr sc er ec hP]
  have hf : pawnForward (!w) = -pawnForward w := by cases w <;> rfl
  have hh : pawnHomeRow (!w) = 7 - pawnHomeRow w := by cases w <;> rfl
  have e1 : (7 : Int) - sr + pawnForward (!w) = 7 - (sr + pawnForward w) := by rw [hf]; ring
  have a1 : (7 : Int) - er = 7 - sr + pawnForward (!w) ↔ er = sr + pawnForward w := by
    rw [hf]; omega
  have a2 : (7 : Int) - er = 7 - sr + 2 * pawnForward (!w) ↔ er = sr + 2 * pawnForward w := by
    rw [hf]; omega
  have a3 : (7 : Int) - sr = pawnHomeRow (!w) ↔ sr = pawnHomeRow w := by
    rw [hh]; omega
  have a4 : (7 : Int) - er = 7 - (sr + pawnForward w) ↔ er = sr + pawnForward w := by omega
  simp only [ne_eq, a1, a2, a3, e1, a4, getPieceAt_mirror_dot b hb,
    getPieceAt_mirror_space b hb]

/-- The pattern rule of a piece is the pattern rule of its mirror image. -/
theorem pieceRule_mirror (b : Board) (hb : BoardOK b) (sr sc er ec : Int)
    (hp : getPieceAt b sr sc ∈ pieceSymbols) :
    pieceRule (mirrorBoard b) (getPieceAt (mirrorBoard b) (7 - sr) sc) (7 - sr) sc (7 - er) ec
      = pieceRule b (getPieceAt b sr sc) sr sc er ec := by
  obtain ⟨⟨m1, m2⟩, ⟨m3, m4⟩, ⟨m5, m6⟩, ⟨m7, m8⟩, ⟨m9, m10⟩, ⟨m11, m12⟩⟩ :=
    pieceRule_literals (mirrorBoard b) (7 - sr) sc (7 - er) ec
  obtain ⟨⟨n1, n2⟩, ⟨n3, n4⟩, ⟨n5, n6⟩, ⟨n7, n8⟩, ⟨n9, n10⟩, ⟨n11, n12⟩⟩ :=
    pieceRule_literals b sr sc er ec
  have hq : isValidQueenMove (mirrorBoard b) (7 - sr) sc (7 - er) ec
      = isValidQueenMove b sr sc er ec := by
    unfold isValidQueenMove
    rw [isValidRookMove_mirror b hb, isValidBishopMove_mirror b hb]
  have hm := getPieceAt_mirror b sr sc
  rcases sym_cases (Or.inr hp) with h | h | h | h | h | h | h | h | h | h | h | h | h
  · rw [h] at hp; exact absurd hp (by decide)
  · rw [h] at hm; rw [hm, h, show swapColour 'P' = 'p' by decide, m2, n1]
    exact isValidPawnMove_mirror b hb true sr sc er ec h
  · rw [h] at hm; rw [hm, h, show swapColour 'N' = 'n' by decide, m6, n5]
    exact isValidKnightMove_mirror sr sc er ec
  · rw [h] at hm; rw [hm, h, show swapColour 'B' = 'b' by decide, m8, n7]
    exact isValidBishopMove_mirror b hb sr sc er ec
  · rw [h] at hm; rw [hm, h, show swapColour 'R' = 'r' by decide, m4, n3]
    exact isValidRookMove_mirror b hb sr sc er ec
  · rw [h] at hm; rw [hm, h, show swapColour 'Q' = 'q' by decide, m10, n9]
    exact hq
  · rw [h] at hm; rw [hm, h, show swapColour 'K' = 'k' by decide, m12, n11]
    exact isValidKingMove_mirror sr sc er ec
  · rw [h] at hm; rw [hm, h, show swapColour 'p' = 'P' by decide, m1, n2]
    exact isValidPawnMove_mirror b hb false sr sc er ec h
  · rw [h] at hm; rw [hm, h, show swapColour 'n' = 'N' by decide, m5, n6]
    exact isValidKnightMove_mirror sr sc er ec
  · rw [h] at hm; rw [hm, h, show swapColour 'b' = 'B' by decide, m7, n8]
    exact isValidBishopMove_mirror b hb sr sc er ec
  · rw [h] at hm; rw [hm, h, show swapColour 'r' = 'R' by decide, m3, n4]
    exact isValidRookMove_mirror b hb sr sc er ec
  · rw [h] at hm; rw [hm, h, show swapColour 'q' = 'Q' by decide, m9, n10]
    exact hq
  · rw [h] at hm; rw [hm, h, show swapColour 'k' = 'K' by decide, m11, n12]
    exact isValidKingMove_mirror sr sc er ec

theorem idx_of_fin (i : Fin 8) : idx (i.val : Int) = i := by
  apply Fin.ext
  have := idx_val (i.val : Int) (by omega) (by omega)
  exact_mod_cast this

/-- Two boards that `getPieceAt` cannot tell apart on the 64 squares are equal. -/
theorem board_ext_getPieceAt (b1 b2 : Board)
    (h : ∀ r c : Int, isWithinBounds r c = true → getPieceAt b1 r c = getPieceAt b2 r c) :
    b1 = b2 := by
  funext i j
  have hin : isWithinBounds (i.val : Int) (j.val : Int) = true := by
    rw [isWithinBounds_iff]; omega
  have := h i.val j.val hin
  rw [getPieceAt_inb _ _ _ hin, getPieceAt_inb _ _ _ hin] at this
  unfold cell at this
  rw [idx_of_fin, idx_of_fin] at this
  exact this

/-- The probe of the validator commutes with the mirror image, on the board. -/
theorem simulateMove_mirror_board (g : ChessGame) (sr sc er ec : Int)
    (hs : isWithinBounds sr sc = true) (he : isWithinBounds er ec = true) :
    (simulateMove (mirror g) (7 - sr) sc (7 - er) ec).board
      = mirrorBoard (simulateMove g sr sc er ec).board := by
  apply board_ext_getPieceAt
  intro r c hr
  have hs' : isWithinBounds (7 - sr) sc = true := by rw [isWithinBounds_mirror]; exact hs
  have he' : isWithinBounds (7 - er) ec = true := by rw [isWithinBounds_mirror]; exact he
  have hr' : isWithinBounds (7 - r) c = true := by rw [isWithinBounds_mirror]; exact hr
  rw [getPieceAt_simulateMove (mirror g) (7 - sr) sc (7 - er) ec r c hs' he' hr,
    getPieceAt_mirror_rev, getPieceAt_simulateMove g sr sc er ec (7 - r) c hs he hr']
  have c1 : (r = 7 - sr ∧ c = sc) ↔ (7 - r = sr ∧ c = sc) := by omega
  have c2 : (r = 7 - er ∧ c = ec) ↔ (7 - r = er ∧ c = ec) := by omega
  show (if r = 7 - sr ∧ c = sc then '.'
      else if r = 7 - er ∧ c = ec then getPieceAt (mirrorBoard g.board) (7 - sr) sc
      else getPieceAt (mirrorBoard g.board) r c) = _
  rw [getPieceAt_mirror, getPieceAt_mirror_rev]
  by_cases h1 : 7 - r = sr ∧ c = sc
  · rw [if_pos (c1.mpr h1), if_pos h1]; decide
  · rw [if_neg (fun h => h1 (c1.mp h)), if_neg h1]
    by_cases h2 : 7 - r = er ∧ c = ec
    · rw [if_pos (c2.mpr h2), if_pos h2]
    · rw [if_neg (fun h => h2 (c2.mp h)), if_neg h2]

theorem king_test_swap {x : Char} (hx : x = ' ' ∨ x = '.' ∨ x ∈ pieceSymbols) :
    ((swapColour x).toLower == 'k') = (x.toLower == 'k') := by
  rcases value_cases hx with h | h | h | h | h | h | h | h | h | h | h | h | h | h <;>
    subst h <;> decide

/-- The probe of the validator commutes with the mirror image, on the cached king
square of the side to move. -/
theorem simulateMove_mirror_king (g : ChessGame) (hb : BoardOK g.board) (sr sc er ec : Int)
    (hs : isWithinBounds sr sc = true) :
    kingRow (simulateMove (mirror g) (7 - sr) sc (7 - er) ec) (!g.isWhiteTurn)
        = 7 - kingRow (simulateMove g sr sc er ec) g.isWhiteTurn
      ∧ kingCol (simulateMove (mirror g) (7 - sr) sc (7 - er) ec) (!g.isWhiteTurn)
        = kingCol (simulateMove g sr sc er ec) g.isWhiteTurn := by
  have hs' : isWithinBounds (7 - sr) sc = true := by rw [isWithinBounds_mirror]; exact hs
  have hcell : ((cell (mirror g).board (7 - sr) sc).toLower == 'k')
      = ((cell g.board sr sc).toLower == 'k') := by
    rw [← getPieceAt_inb _ _ _ hs', ← getPieceAt_inb _ _ _ hs]
    show ((getPieceAt (mirrorBoard g.board) (7 - sr) sc).toLower == 'k') = _
    rw [getPieceAt_mirror]
    exact king_test_swap (getPieceAt_values g.board hb sr sc)
  have hturn : (mirror g).isWhiteTurn = !g.isWhiteTurn := rfl
  have hkr : kingRow (mirror g) (!g.isWhiteTurn) = 7 - kingRow g g.isWhiteTurn := by
    unfold kingRow mirror
    cases g.isWhiteTurn <;> rfl
  have hkc : kingCol (mirror g) (!g.isWhiteTurn) = kingCol g g.isWhiteTurn := by
    unfold kingCol mirror
    cases g.isWhiteTurn <;> rfl
  rw [simulateMove_kingRow, simulateMove_kingCol, simulateMove_kingRow, simulateMove_kingCol,
    hcell, hturn, hkr, hkc]
  by_cases hk : ((cell g.board sr sc).toLower == 'k') = true
  · rw [if_pos ⟨hk, rfl⟩, if_pos ⟨hk, rfl⟩, if_pos ⟨hk, rfl⟩, if_pos ⟨hk, rfl⟩]
    exact ⟨rfl, rfl⟩
  · rw [if_neg (fun h => hk h.1), if_neg (fun h => hk h.1), if_neg (fun h => hk h.1),
      if_neg (fun h => hk h.1)]
    exact ⟨rfl, rfl⟩

theorem probe_mirror (g : ChessGame) (hb : BoardOK g.board) (sr sc er ec : Int)
    (hs : isWithinBounds sr sc = true) (he : isWithinBounds er ec = true) :
    isKingInCheck (simulateMove (mirror g) (7 - sr) sc (7 - er) ec) (!g.isWhiteTurn)
      = isKingInCheck (simulateMove g sr sc er ec) g.isWhiteTurn := by
  obtain ⟨h1, h2⟩ := simulateMove_mirror_king g hb sr sc er ec hs
  rw [isKingInCheck_eq, isKingInCheck_eq, h1, h2, simulateMove_mirror_board g sr sc er ec hs he]
  exact isSquareAttacked_mirror _ (boardOK_simulateMove g hb sr sc er ec) _ _ _

/-- The validator accepts a move exactly when it accepts the mirrored move in the
mirrored state. -/
theorem accepts_mirror (g : ChessGame) (hb : BoardOK g.board) (sr sc er ec : Int) :
    accepts (mirror g) (7 - sr) sc (7 - er) ec = accepts g sr sc er ec := by
  rw [Bool.eq_iff_iff, accepts_iff, accepts_iff, isWithinBounds_mirror, isWithinBounds_mirror,
    ownsOrigin_mirror g hb]
  have hsame : ((7 : Int) - sr = 7 - er ∧ sc = ec) ↔ (sr = er ∧ sc = ec) := by omega
  rw [hsame]
  have hcap : (getPieceAt (mirror g).board (7 - er) ec != '.'
        && getPieceAt (mirror g).board (7 - er) ec != ' '
        && (((mirror g).isWhiteTurn && isPieceWhite (getPieceAt (mirror g).board (7 - er) ec))
          || (!(mirror g).isWhiteTurn
            && isPieceBlack (getPieceAt (mirror g).board (7 - er) ec))))
      = (getPieceAt g.board er ec != '.' && getPieceAt g.board er ec != ' '
        && ((g.isWhiteTurn && isPieceWhite (getPieceAt g.board er ec))
          || (!g.isWhiteTurn && isPieceBlack (getPieceAt g.board er ec)))) := by
    show (getPieceAt (mirrorBoard g.board) (7 - er) ec != '.'
        && getPieceAt (mirrorBoard g.board) (7 - er) ec != ' '
        && (((!g.isWhiteTurn) && isPieceWhite (getPieceAt (mirrorBoard g.board) (7 - er) ec))
          || (!(!g.isWhiteTurn)
            && isPieceBlack (getPieceAt (mirrorBoard g.board) (7 - er) ec)))) = _
    rw [getPieceAt_mirror]
    exact own_test_swap (getPieceAt_values g.board hb er ec) g.isWhiteTurn
  rw [hcap]
  constructor
  · rintro ⟨h1, h2, h3, h4, h5, h6, h7⟩
    have hp : getPieceAt g.board sr sc ∈ pieceSymbols := by
      rcases getPieceAt_sym g.board hb sr sc h1 with h | h
      · exfalso
        unfold ownsOrigin at h3
        rw [h] at h3
        revert h3
        cases g.isWhiteTurn <;> decide
      · exact h
    have hp' : getPieceAt (mirrorBoard g.board) (7 - sr) sc ∈ pieceSymbols := by
      rw [getPieceAt_mirror]
      exact (swapColour_values (Or.inr (Or.inr hp))).2.2.2.2.2.2 hp
    refine ⟨h1, h2, h3, h4, h5, ?_, ?_⟩
    · have h6' : patternSwitch (mirrorBoard g.board)
          (getPieceAt (mirrorBoard g.board) (7 - sr) sc) (7 - sr) sc (7 - er) ec
          (getPieceAt (mirrorBoard g.board) (7 - er) ec) = some true := h6
      rw [patternSwitch_sym _ (Or.inr hp') (fun h => by rw [h] at hp'; revert hp'; decide),
        pieceRule_mirror g.board hb sr sc er ec hp] at h6'
      rw [patternSwitch_sym _ (Or.inr hp) (fun h => by rw [h] at hp; revert hp; decide)]
      exact h6'
    · rw [← probe_mirror g hb sr sc er ec h1 h2]
      exact h7
  · rintro ⟨h1, h2, h3, h4, h5, h6, h7⟩
    have hp : getPieceAt g.board sr sc ∈ pieceSymbols := by
      rcases getPieceAt_sym g.board hb sr sc h1 with h | h
      · exfalso
        unfold ownsOrigin at h3
        rw [h] at h3
        revert h3
        cases g.isWhiteTurn <;> decide
      · exact h
    have hp' : getPieceAt (mirrorBoard g.board) (7 - sr) sc ∈ pieceSymbols := by
      rw [getPieceAt_mirror]
      exact (swapColour_values (Or.inr (Or.inr hp))).2.2.2.2.2.2 hp
    refine ⟨h1, h2, h3, h4, h5, ?_, ?_⟩
    · show patternSwitch (mirrorBoard g.board)
          (getPieceAt (mirrorBoard g.board) (7 - sr) sc) (7 - sr) sc (7 - er) ec
          (getPieceAt (mirrorBoard g.board) (7 - er) ec) = some true
      rw [patternSwitch_sym _ (Or.inr hp') (fun h => by rw [h] at hp'; revert hp'; decide),
        pieceRule_mirror g.board hb sr sc er ec hp]
      rw [patternSwitch_sym _ (Or.inr hp) (fun h => by rw [h] at hp; revert hp; decide)] at h6
      exact h6
    · show isKingInCheck (simulateMove (mirror g) (7 - sr) sc (7 - er) ec) (!g.isWhiteTurn) = false
      rw [probe_mirror g hb sr sc er ec h1 h2]
      exact h7

/-- In a state of a game the cached king row of the side to move is on the board,
in particular not the value `-1` that `moveLeavesKingInCheck` keeps for "no king was
moved". -/
theorem reachable_mover_row (g : ChessGame) (h : Reachable g) :
    (if g.isWhiteTurn then g.whiteKingRow else g.blackKingRow) ≠ -1 :=
  KingsInBounds.mover_ne g (gameInv_kingsInBounds g (reachable_gameInv g h))

/-! ## Claims -/

/-- C1: On a board of piece symbols and `'.'`, `isMoveValid` reports the error of
the first failing check in the order bounds, empty origin, wrong side, own-colour
destination, from = to, piece pattern, self-check; it succeeds exactly when none
of the seven fails, and it never reports the unknown-piece error. -/
theorem isMoveValid_first_failing_check (g : ChessGame) (hb : BoardOK g.board)
    (sr sc er ec : Int) :
    (isMoveValid g sr sc er ec).1 = firstFailure g sr sc er ec
      ∧ (accepts g sr sc er ec = true ↔ ∀ chk ∈ orderedChecks g sr sc er ec, chk.1 = false)
      ∧ (isMoveValid g sr sc er ec).1 ≠ some MoveError.unknownPiece := by
  have key := isMoveValid_fst g hb sr sc er ec
  refine ⟨key, ?_, ?_⟩
  · unfold accepts
    rw [key]
    unfold firstFailure
    simp [Option.isNone_iff_eq_none, List.find?_eq_none]
  · rw [key]
    unfold firstFailure orderedChecks
    intro h
    simp only [Option.map_eq_some'] at h
    obtain ⟨chk, hfind, hchk⟩ := h
    have := List.mem_of_find?_eq_some hfind
    simp at this
    rcases this with h | h | h | h | h | h | h <;> rw [h] at hchk <;> simp at hchk

/-- An instance: the opening position and the pawn move e2-e5, which fails the
pattern check. -/
theorem isMoveValid_first_failing_check_witness :
    BoardOK initializeBoard.board
      ∧ ((isMoveValid initializeBoard 6 4 3 4).1 = firstFailure initializeBoard 6 4 3 4
        ∧ (accepts initializeBoard 6 4 3 4 = true
            ↔ ∀ chk ∈ orderedChecks initializeBoard 6 4 3 4, chk.1 = false)
        ∧ (isMoveValid initializeBoard 6 4 3 4).1 ≠ some MoveError.unknownPiece) :=
  ⟨by decide, isMoveValid_first_failing_check initializeBoard (by decide) 6 4 3 4⟩

/-- C2: When both cached king squares lie inside the board, `isMoveValid` returns
with the state it was called in: board, king caches, side to move, captured lists
and last-move notation are all unchanged, whatever the move and the verdict. -/
theorem isMoveValid_state_unchanged (g : ChessGame) (hk : KingsInBounds g)
    (sr sc er ec : Int) :
    (isMoveValid g sr sc er ec).2 = g :=
  isMoveValid_state_of_ne g sr sc er ec (KingsInBounds.mover_ne g hk)

/-- An instance: the opening position and the move e2-e4. -/
theorem isMoveValid_state_unchanged_witness :
    KingsInBounds initializeBoard ∧ (isMoveValid initializeBoard 6 4 4 4).2 = initializeBoard :=
  ⟨by decide, isMoveValid_state_unchanged initializeBoard (by decide) 6 4 4 4⟩

/-- C3: In every state in which the cached king row of the side to move is not
`-1`, the value that `moveLeavesKingInCheck` keeps for "no king was moved" (so in
every state the class can be in: by `reachable_mover_row` the states of a game have
both cached king squares on the board), after `makeMove` of any enumerated move
`isKingInCheck` of the side that just moved is false. -/
theorem legal_move_king_safe (g : ChessGame)
    (hk : (if g.isWhiteTurn then g.whiteKingRow else g.blackKingRow) ≠ -1) (m : Move)
    (hm : m ∈ (generateValidMoves g).1) :
    isKingInCheck (makeMove g m.startR m.startC m.endR m.endC) g.isWhiteTurn = false := by
  rw [mem_generateValidMoves g hk] at hm
  rw [makeMove_simulateMove]
  exact ((accepts_iff g _ _ _ _).mp hm.1).2.2.2.2.2.2

/-- An instance: the state after 1. e2-e4 d7-d5 2. e4xd5, a state of a game with
Black to move, and the enumerated capture d8xd5. -/
theorem legal_move_king_safe_witness :
    Reachable pawnTakenState
      ∧ (if pawnTakenState.isWhiteTurn then pawnTakenState.whiteKingRow
          else pawnTakenState.blackKingRow) ≠ -1
      ∧ Move.mk 0 3 3 3 10 ∈ (generateValidMoves pawnTakenState).1
      ∧ isKingInCheck (makeMove pawnTakenState 0 3 3 3) pawnTakenState.isWhiteTurn = false :=
  ⟨pawnTakenState_reachable, reachable_mover_row pawnTakenState pawnTakenState_reachable,
    by decide!,
    legal_move_king_safe pawnTakenState
      (reachable_mover_row pawnTakenState pawnTakenState_reachable) (Move.mk 0 3 3 3 10)
      (by decide!)⟩

/-- C4: In every state of a game (reachable from the opening position by
`makeMove` of moves accepted by `isMoveValid`), the board holds exactly one White
king and exactly one Black king, no move accepted by `isMoveValid` has a king on
its destination square, and no enumerated move has score 900. -/
theorem reachable_one_king_each (g : ChessGame) (h : Reachable g) :
    (∃! p : Fin 8 × Fin 8, g.board p.1 p.2 = 'K')
      ∧ (∃! p : Fin 8 × Fin 8, g.board p.1 p.2 = 'k')
      ∧ (∀ sr sc er ec : Int, accepts g sr sc er ec = true →
          getPieceAt g.board er ec ≠ 'K' ∧ getPieceAt g.board er ec ≠ 'k')
      ∧ (∀ m ∈ (generateValidMoves g).1, m.score ≠ 900) := by
  have hinv := reachable_gameInv g h
  have hnot : ∀ sr sc er ec : Int, accepts g sr sc er ec = true →
      getPieceAt g.board er ec ≠ 'K' ∧ getPieceAt g.board er ec ≠ 'k' :=
    fun sr sc er ec ha =>
      ⟨accepted_target_not_king g hinv sr sc er ec ha true,
        accepted_target_not_king g hinv sr sc er ec ha false⟩
  refine ⟨gameInv_unique_king g hinv true, gameInv_unique_king g hinv false, hnot, ?_⟩
  intro m hm hs
  rw [mem_generateValidMoves g (KingsInBounds.mover_ne g (gameInv_kingsInBounds g hinv))] at hm
  obtain ⟨ha, hscore⟩ := hm
  rw [hscore] at hs
  have hin := (accepts_inb g _ _ _ _ ha).2
  rcases scoreOf_king (getPieceAt_sym g.board hinv.boardOK _ _ hin) hs with hK | hk
  · exact (hnot _ _ _ _ ha).1 hK
  · exact (hnot _ _ _ _ ha).2 hk

/-- An instance: the state after 1. e2-e4. -/
theorem reachable_one_king_each_witness :
    Reachable (makeMove (isMoveValid initializeBoard 6 4 4 4).2 6 4 4 4)
      ∧ ((∃! p : Fin 8 × Fin 8,
            (makeMove (isMoveValid initializeBoard 6 4 4 4).2 6 4 4 4).board p.1 p.2 = 'K')
        ∧ (∃! p : Fin 8 × Fin 8,
            (makeMove (isMoveValid initializeBoard 6 4 4 4).2 6 4 4 4).board p.1 p.2 = 'k')
        ∧ (∀ sr sc er ec : Int,
            accepts (makeMove (isMoveValid initializeBoard 6 4 4 4).2 6 4 4 4) sr sc er ec = true →
            getPieceAt (makeMove (isMoveValid initializeBoard 6 4 4 4).2 6 4 4 4).board er ec ≠ 'K'
              ∧ getPieceAt (makeMove (isMoveValid initializeBoard 6 4 4 4).2 6 4 4 4).board er ec
                  ≠ 'k')
        ∧ (∀ m ∈ (generateValidMoves (makeMove (isMoveValid initializeBoard 6 4 4 4).2 6 4 4 4)).1,
            m.score ≠ 900)) :=
  ⟨Reachable.step initializeBoard 6 4 4 4 Reachable.init reachable_step_opening,
    reachable_one_king_each _
      (Reachable.step initializeBoard 6 4 4 4 Reachable.init reachable_step_opening)⟩

/-- C5: In every state of a game (reachable from the opening position by
`makeMove` of moves accepted by `isMoveValid`), the cached king squares are exact:
the cell at `(whiteKingRow, whiteKingCol)` holds `'K'` and the cell at
`(blackKingRow, blackKingCol)` holds `'k'`. -/
theorem reachable_king_cache_exact (g : ChessGame) (h : Reachable g) :
    getPieceAt g.board g.whiteKingRow g.whiteKingCol = 'K'
      ∧ getPieceAt g.board g.blackKingRow g.blackKingCol = 'k' := by
  have hinv := reachable_gameInv g h
  have hw : getPieceAt g.board (kingRow g true) (kingCol g true) = kingSym true := by
    rw [getPieceAt_inb _ _ _ (hinv.inb true)]
    exact (hinv.king true _ _).mpr ⟨rfl, rfl⟩
  have hb : getPieceAt g.board (kingRow g false) (kingCol g false) = kingSym false := by
    rw [getPieceAt_inb _ _ _ (hinv.inb false)]
    exact (hinv.king false _ _).mpr ⟨rfl, rfl⟩
  exact ⟨hw, hb⟩

/-- An instance: the state after 1. e2-e4. -/
theorem reachable_king_cache_exact_witness :
    Reachable (makeMove (isMoveValid initializeBoard 6 4 4 4).2 6 4 4 4)
      ∧ (getPieceAt (makeMove (isMoveValid initializeBoard 6 4 4 4).2 6 4 4 4).board
            (makeMove (isMoveValid initializeBoard 6 4 4 4).2 6 4 4 4).whiteKingRow
            (makeMove (isMoveValid initializeBoard 6 4 4 4).2 6 4 4 4).whiteKingCol = 'K'
        ∧ getPieceAt (makeMove (isMoveValid initializeBoard 6 4 4 4).2 6 4 4 4).board
            (makeMove (isMoveValid initializeBoard 6 4 4 4).2 6 4 4 4).blackKingRow
            (makeMove (isMoveValid initializeBoard 6 4 4 4).2 6 4 4 4).blackKingCol = 'k') :=
  ⟨Reachable.step initializeBoard 6 4 4 4 Reachable.init reachable_step_opening,
    reachable_king_cache_exact _
      (Reachable.step initializeBoard 6 4 4 4 Reachable.init reachable_step_opening)⟩

/-- C6: On a board of piece symbols and `'.'`, for an in-bounds square `(r,c)` and
either attacker colour, `isSquareAttacked` is true exactly when another square
holds an attacker piece that is a pawn diagonally behind `(r,c)` (row `r+1` for
White, `r-1` for Black), a knight at a knight offset, a rook or queen on the same
row or column with the squares between empty, a bishop or queen on a common
diagonal with the squares between empty, or a king on a neighbouring square. -/
theorem isSquareAttacked_iff (b : Board) (hb : BoardOK b) (r c : Int)
    (_hin : isWithinBounds r c = true) (attackerIsWhite : Bool) :
    isSquareAttacked b r c attackerIsWhite = true ↔ AttackedBy b r c attackerIsWhite :=
  isSquareAttacked_iff_attackedBy b hb r c attackerIsWhite

/-- An instance: the square d2 of `sentinelRows`, attacked by the Black rook on h2. -/
theorem isSquareAttacked_iff_witness :
    BoardOK sentinelState.board ∧ isWithinBounds 6 3 = true
      ∧ (isSquareAttacked sentinelState.board 6 3 false = true
          ↔ AttackedBy sentinelState.board 6 3 false) :=
  ⟨by decide, by decide,
    isSquareAttacked_iff sentinelState.board (by decide) 6 3 (by decide) false⟩

/-- C7: On a board of piece symbols and `'.'`, when the cached king square of
colour `c` holds `c`'s king, `isKingInCheck c` is true exactly when some square
`from` gives a candidate move onto that king square which, with the opponent to
move, passes the checks 1 to 6 of `isMoveValid` (bounds, non-empty origin, origin
of the mover, destination not of the mover, from ≠ to, piece pattern). -/
theorem isKingInCheck_iff_king_targeted (g : ChessGame) (hb : BoardOK g.board) (c : Bool)
    (hking : getPieceAt g.board (if c then g.whiteKingRow else g.blackKingRow)
      (if c then g.whiteKingCol else g.blackKingCol) = (if c then 'K' else 'k')) :
    isKingInCheck g c = true ↔ KingTargeted g c := by
  have hin : isWithinBounds (if c then g.whiteKingRow else g.blackKingRow)
      (if c then g.whiteKingCol else g.blackKingCol) = true := by
    by_contra hcon
    rw [getPieceAt_oob _ _ _ (by simpa using hcon)] at hking
    cases c <;> simp at hking
  have hocc : getPieceAt g.board (if c then g.whiteKingRow else g.blackKingRow)
      (if c then g.whiteKingCol else g.blackKingCol) ≠ '.' := by
    rw [hking]; cases c <;> decide
  have hcol : isPieceWhite (getPieceAt g.board (if c then g.whiteKingRow else g.blackKingRow)
      (if c then g.whiteKingCol else g.blackKingCol)) = c := by
    rw [hking]; cases c <;> decide
  unfold isKingInCheck KingTargeted
  simp only []
  rw [isSquareAttacked_iff_attackedBy g.board hb, attackedBy_iff_reachedBy g.board hb _ _ hin hocc]
  unfold ReachedBy
  constructor
  · rintro ⟨sr, sc, h1, h2, h3, h4, h5⟩
    refine ⟨sr, sc, ?_⟩
    refine (passesChecks1to6_iff { g with isWhiteTurn := !c } hb _ _ _ _).mpr
      ⟨h1, hin, h2, h3, ?_, h4, h5⟩
    simp only [hcol]
    cases c <;> simp
  · rintro ⟨sr, sc, h⟩
    obtain ⟨h1, -, h2, h3, -, h4, h5⟩ :=
      (passesChecks1to6_iff { g with isWhiteTurn := !c } hb _ _ _ _).mp h
    exact ⟨sr, sc, h1, h2, h3, h4, h5⟩

/-- An instance: the White king in the opening position. -/
theorem isKingInCheck_iff_king_targeted_witness :
    BoardOK initializeBoard.board
      ∧ getPieceAt initializeBoard.board 7 4 = 'K'
      ∧ (isKingInCheck initializeBoard true = true ↔ KingTargeted initializeBoard true) :=
  ⟨by decide, by decide,
    isKingInCheck_iff_king_targeted initializeBoard (by decide) true (by decide)⟩

/-- C8: In the state built by `initializeBoard`, `generateValidMoves` returns
exactly 20 moves, namely the sixteen pawn advances from row 6 and the four knight
moves, and `isMoveValid` accepts a quadruple of integers exactly when it is one of
these twenty. -/
theorem opening_has_twenty_moves :
    (generateValidMoves initializeBoard).1.length = 20
      ∧ (generateValidMoves initializeBoard).1.map Move.key = openingMoves
      ∧ ∀ sr sc er ec : Int,
          accepts initializeBoard sr sc er ec = true ↔ (sr, sc, er, ec) ∈ openingMoves := by
  refine ⟨by decide!, opening_keys, ?_⟩
  intro sr sc er ec
  rw [← opening_keys]
  simp only [List.mem_map, mem_generateValidMoves initializeBoard (by decide), Move.key,
    Prod.mk.injEq]
  constructor
  · intro ha
    exact ⟨Move.mk sr sc er ec (scoreOf (getPieceAt initializeBoard.board er ec)),
      ⟨ha, rfl⟩, rfl, rfl, rfl, rfl⟩
  · rintro ⟨m, ⟨ha, -⟩, rfl, rfl, rfl, rfl⟩
    exact ha

/-- C9: In every state in which the cached king row of the side to move is not
`-1`, the value that `moveLeavesKingInCheck` keeps for "no king was moved" (so in
every state the class can be in, by `reachable_mover_row`), the coordinates of the
enumerated moves are exactly the in-bounds quadruples that `isMoveValid` accepts in
that state, the list is strictly increasing in the lexicographic order of
`(startR, startC, endR, endC)`, so each is listed once, and every accepted move
starts on a square that passes the ownership test. -/
theorem enumeration_exact (g : ChessGame)
    (hk : (if g.isWhiteTurn then g.whiteKingRow else g.blackKingRow) ≠ -1) :
    (∀ sr sc er ec : Int,
        (sr, sc, er, ec) ∈ (generateValidMoves g).1.map Move.key
          ↔ isWithinBounds sr sc = true ∧ isWithinBounds er ec = true
            ∧ accepts g sr sc er ec = true)
      ∧ (generateValidMoves g).1.Pairwise moveLt
      ∧ ((generateValidMoves g).1.map Move.key).Nodup
      ∧ (∀ sr sc er ec : Int, accepts g sr sc er ec = true → ownsOrigin g sr sc = true) := by
  have hpw := generateValidMoves_pairwise g hk
  refine ⟨?_, hpw, ?_, fun sr sc er ec h => accepts_ownsOrigin g sr sc er ec h⟩
  · intro sr sc er ec
    simp only [List.mem_map, mem_generateValidMoves g hk, Move.key, Prod.mk.injEq]
    constructor
    · rintro ⟨m, ⟨ha, -⟩, rfl, rfl, rfl, rfl⟩
      have := accepts_inb g _ _ _ _ ha
      exact ⟨this.1, this.2, ha⟩
    · rintro ⟨-, -, ha⟩
      exact ⟨Move.mk sr sc er ec (scoreOf (getPieceAt g.board er ec)), ⟨ha, rfl⟩, rfl, rfl, rfl, rfl⟩
  · rw [List.Nodup, List.pairwise_map]
    exact hpw.imp (fun h => moveLt_key_ne h)

/-- An instance: the state after 1. e2-e4 d7-d5 2. e4xd5, a state of a game with
Black to move. -/
theorem enumeration_exact_witness :
    Reachable pawnTakenState
      ∧ ((∀ sr sc er ec : Int,
          (sr, sc, er, ec) ∈ (generateValidMoves pawnTakenState).1.map Move.key
            ↔ isWithinBounds sr sc = true ∧ isWithinBounds er ec = true
              ∧ accepts pawnTakenState sr sc er ec = true)
        ∧ (generateValidMoves pawnTakenState).1.Pairwise moveLt
        ∧ ((generateValidMoves pawnTakenState).1.map Move.key).Nodup
        ∧ (∀ sr sc er ec : Int,
            accepts pawnTakenState sr sc er ec = true → ownsOrigin pawnTakenState sr sc = true)) :=
  ⟨pawnTakenState_reachable,
    enumeration_exact pawnTakenState
      (reachable_mover_row pawnTakenState pawnTakenState_reachable)⟩

/-- C10: In every state, every enumerated move has score 1 when its destination
square is empty, and otherwise the material value of the piece standing there:
pawn 10, knight 30, bishop 30, rook 50, queen 90, king 900, for either colour. -/
theorem enumerated_move_score (g : ChessGame) (m : Move)
    (hm : m ∈ (generateValidMoves g).1) :
    ((getPieceAt g.board m.endR m.endC = '.' ∨ getPieceAt g.board m.endR m.endC = ' ')
        → m.score = 1)
      ∧ (∀ v, materialValue (getPieceAt g.board m.endR m.endC) = some v → m.score = v) := by
  rw [(generateValidMoves_scores g).2 m hm]
  exact scoreOf_material _

/-- An instance: the capture h1xh2 enumerated in `sentinelState`, of score 50. -/
theorem enumerated_move_score_witness :
    Move.mk 7 7 6 7 50 ∈ (generateValidMoves sentinelState).1
      ∧ ((getPieceAt sentinelState.board 6 7 = '.' ∨ getPieceAt sentinelState.board 6 7 = ' '
          → (Move.mk 7 7 6 7 50).score = 1)
        ∧ (∀ v, materialValue (getPieceAt sentinelState.board 6 7) = some v
            → (Move.mk 7 7 6 7 50).score = v)) :=
  ⟨by decide!, enumerated_move_score sentinelState (Move.mk 7 7 6 7 50) (by decide!)⟩

/-- C11: In every state in which the cached king row of the side to move is not
`-1`, the value that `moveLeavesKingInCheck` keeps for "no king was moved" (so in
every state the class can be in, by `reachable_mover_row`), and for every value of
`rand()`: `makeAIMove` makes no move, returns `false` and leaves the state unchanged
exactly when the enumeration is empty; otherwise it applies with `makeMove` an
enumerated move whose score is the maximum over the enumeration; and when one
enumerated move has a score above all the others, that move is applied whatever
`rand()` returns. -/
theorem makeAIMove_spec (g : ChessGame)
    (hk : (if g.isWhiteTurn then g.whiteKingRow else g.blackKingRow) ≠ -1) (rnd : Nat) :
    (makeAIMove g rnd = some (false, g) ↔ (generateValidMoves g).1 = [])
      ∧ ((generateValidMoves g).1 ≠ [] →
          ∃ m ∈ (generateValidMoves g).1,
            (∀ m' ∈ (generateValidMoves g).1, m'.score ≤ m.score)
              ∧ makeAIMove g rnd = some (true, makeMove g m.startR m.startC m.endR m.endC))
      ∧ (∀ m ∈ (generateValidMoves g).1,
          (∀ m' ∈ (generateValidMoves g).1, m' ≠ m → m'.score < m.score) →
          makeAIMove g rnd = some (true, makeMove g m.startR m.startC m.endR m.endC)) := by
  have hg2 : (generateValidMoves g).2 = g := by
    rw [generateValidMoves_eq g hk]
  obtain ⟨hempty, hsome⟩ := makeAIMove_outcome g rnd
  rw [hg2] at hempty hsome
  refine ⟨?_, hsome, ?_⟩
  · constructor
    · intro h
      by_contra hne
      obtain ⟨m, -, -, hm⟩ := hsome hne
      rw [hm] at h
      simp only [Option.some.injEq, Prod.mk.injEq, Bool.true_eq_false, false_and] at h
    · exact hempty
  · intro m hm huniq
    obtain ⟨m0, hm0, hmax, hres⟩ := hsome (List.ne_nil_of_mem hm)
    have : m0 = m := by
      by_contra hne
      have h1 := huniq m0 hm0 hne
      have h2 := hmax m hm
      omega
    rw [hres, this]

/-- An instance: in `captureState` the capture a8xa1, the one move of score 50, is
applied for the value 12345 of `rand()`. -/
theorem makeAIMove_spec_witness :
    (if captureState.isWhiteTurn then captureState.whiteKingRow else captureState.blackKingRow)
        ≠ -1
      ∧ Move.mk 0 0 7 0 50 ∈ (generateValidMoves captureState).1
      ∧ makeAIMove captureState 12345 = some (true, makeMove captureState 0 0 7 0) :=
  ⟨by decide, by decide!,
    (makeAIMove_spec captureState (by decide) 12345).2.2 (Move.mk 0 0 7 0 50) (by decide!)
      (by decide!)⟩

/-- C12: In every state, for distinct in-bounds squares `from ≠ to`, after
`makeMove` the square `to` holds the piece that was on `from`, `from` holds `'.'`,
every other cell of the board is unchanged, and the side to move is negated. -/
theorem makeMove_relocates_piece (g : ChessGame) (sr sc er ec : Int)
    (hs : isWithinBounds sr sc = true) (he : isWithinBounds er ec = true)
    (hne : ¬ (sr = er ∧ sc = ec)) :
    getPieceAt (makeMove g sr sc er ec).board er ec = getPieceAt g.board sr sc
      ∧ getPieceAt (makeMove g sr sc er ec).board sr sc = '.'
      ∧ (∀ r c : Int, isWithinBounds r c = true → ¬ (r = sr ∧ c = sc) → ¬ (r = er ∧ c = ec) →
          getPieceAt (makeMove g sr sc er ec).board r c = getPieceAt g.board r c)
      ∧ (∀ i j : Fin 8, ¬ (i = idx sr ∧ j = idx sc) → ¬ (i = idx er ∧ j = idx ec) →
          (makeMove g sr sc er ec).board i j = g.board i j)
      ∧ (makeMove g sr sc er ec).isWhiteTurn = !g.isWhiteTurn := by
  refine ⟨?_, ?_, ?_, ?_, makeMove_isWhiteTurn g sr sc er ec⟩
  · rw [getPieceAt_makeMove g sr sc er ec er ec hs he he]
    have : ¬ (er = sr ∧ ec = sc) := fun h => hne ⟨h.1.symm, h.2.symm⟩
    rw [if_neg this, if_pos ⟨rfl, rfl⟩]
  · rw [getPieceAt_makeMove g sr sc er ec sr sc hs he hs, if_pos ⟨rfl, rfl⟩]
  · intro r c hr h1 h2
    rw [getPieceAt_makeMove g sr sc er ec r c hs he hr, if_neg h1, if_neg h2]
  · intro i j h1 h2
    rw [makeMove_board_apply, if_neg h1, if_neg h2]

/-- An instance: the move e2-e4 in the opening position. -/
theorem makeMove_relocates_piece_witness :
    getPieceAt (makeMove initializeBoard 6 4 4 4).board 4 4 = getPieceAt initializeBoard.board 6 4
      ∧ getPieceAt (makeMove initializeBoard 6 4 4 4).board 6 4 = '.'
      ∧ (∀ r c : Int, isWithinBounds r c = true → ¬ (r = 6 ∧ c = 4) → ¬ (r = 4 ∧ c = 4) →
          getPieceAt (makeMove initializeBoard 6 4 4 4).board r c
            = getPieceAt initializeBoard.board r c)
      ∧ (∀ i j : Fin 8, ¬ (i = idx 6 ∧ j = idx 4) → ¬ (i = idx 4 ∧ j = idx 4) →
          (makeMove initializeBoard 6 4 4 4).board i j = initializeBoard.board i j)
      ∧ (makeMove initializeBoard 6 4 4 4).isWhiteTurn = !initializeBoard.isWhiteTurn :=
  makeMove_relocates_piece initializeBoard 6 4 4 4 (by decide) (by decide) (by decide)

/-- C13: In every state, for a move that `isMoveValid` accepted, `makeMove` (applied
to the state itself or to the state the validation left behind) appends the piece
that stood on the destination square at the end of the captured list of the side
that moved (`whiteCaptured` when White moved, `blackCaptured` when Black moved) and
leaves the other list unchanged; when the destination was empty both lists are
unchanged. -/
theorem makeMove_records_capture (g : ChessGame) (sr sc er ec : Int)
    (hacc : (isMoveValid g sr sc er ec).1 = none) (s : ChessGame)
    (hs : s = g ∨ s = (isMoveValid g sr sc er ec).2) :
    (getPieceAt g.board er ec ∈ pieceSymbols →
        (g.isWhiteTurn = true →
          (makeMove s sr sc er ec).whiteCaptured = g.whiteCaptured ++ [getPieceAt g.board er ec]
            ∧ (makeMove s sr sc er ec).blackCaptured = g.blackCaptured)
        ∧ (g.isWhiteTurn = false →
          (makeMove s sr sc er ec).blackCaptured = g.blackCaptured ++ [getPieceAt g.board er ec]
            ∧ (makeMove s sr sc er ec).whiteCaptured = g.whiteCaptured))
      ∧ (getPieceAt g.board er ec = '.' →
          (makeMove s sr sc er ec).whiteCaptured = g.whiteCaptured
            ∧ (makeMove s sr sc er ec).blackCaptured = g.blackCaptured) := by
  have ha : accepts g sr sc er ec = true := by unfold accepts; rw [hacc]; rfl
  obtain ⟨-, he, -, hown, -, -, -⟩ := (accepts_iff g sr sc er ec).mp ha
  obtain ⟨-, hw', hb'⟩ := isMoveValid_frame g sr sc er ec
  have hbd : s.board = g.board := by
    rcases hs with h | h
    · rw [h]
    · rw [h, isMoveValid_board]
  have hw : s.whiteCaptured = g.whiteCaptured := by
    rcases hs with h | h
    · rw [h]
    · rw [h, hw']
  have hb : s.blackCaptured = g.blackCaptured := by
    rcases hs with h | h
    · rw [h]
    · rw [h, hb']
  have hcell : cell s.board er ec = getPieceAt g.board er ec := by
    rw [hbd, getPieceAt_inb _ _ _ he]
  rw [makeMove_whiteCaptured, makeMove_blackCaptured, hcell, hw, hb]
  constructor
  · intro ht
    constructor
    · intro hturn
      rw [hturn] at hown
      obtain ⟨h1, h2⟩ := capture_side ht true hown
      simp [h1, h2]
    · intro hturn
      rw [hturn] at hown
      obtain ⟨h1, h2⟩ := capture_side ht false hown
      simp [h1, h2]
  · intro ht
    simp [ht]

/-- An instance: White's capture e4xd5 in `scandinavianState`, which puts the Black
pawn at the end of `whiteCaptured`. -/
theorem makeMove_records_capture_witness :
    (isMoveValid scandinavianState 4 4 3 3).1 = none
      ∧ getPieceAt scandinavianState.board 3 3 = 'p'
      ∧ scandinavianState.isWhiteTurn = true
      ∧ (makeMove (isMoveValid scandinavianState 4 4 3 3).2 4 4 3 3).whiteCaptured
          = scandinavianState.whiteCaptured ++ [getPieceAt scandinavianState.board 3 3]
      ∧ (makeMove (isMoveValid scandinavianState 4 4 3 3).2 4 4 3 3).blackCaptured
          = scandinavianState.blackCaptured :=
  ⟨by decide!, by decide, by decide,
    ((makeMove_records_capture scandinavianState 4 4 3 3 (by decide!) _ (Or.inr rfl)).1
      (by decide)).1 (by decide)⟩

/-- C14: In every state, for an in-bounds move `from ≠ to`, after `makeMove` the
last-move notation is the algebraic name of `from`, then `x` if the destination was
occupied before the move and `-` otherwise, then the algebraic name of `to`, then
`+` exactly when `isKingInCheck` of the new side to move holds in the resulting
state, and nothing else. -/
theorem makeMove_notation (g : ChessGame) (sr sc er ec : Int)
    (hs : isWithinBounds sr sc = true) (he : isWithinBounds er ec = true)
    (_hne : ¬ (sr = er ∧ sc = ec)) :
    (makeMove g sr sc er ec).lastMoveNotation
      = algebraicName sr sc
        ++ (if getPieceAt g.board er ec ≠ '.' ∧ getPieceAt g.board er ec ≠ ' ' then "x" else "-")
        ++ algebraicName er ec
        ++ (if isKingInCheck (makeMove g sr sc er ec) (makeMove g sr sc er ec).isWhiteTurn = true
            then "+" else "") := by
  rw [makeMove_lastMoveNotation, indexToNotation_eq_algebraicName _ _ hs,
    indexToNotation_eq_algebraicName _ _ he, getPieceAt_inb _ _ _ he]
  simp only [Bool.and_eq_true, bne_iff_ne, ne_eq]

/-- An instance: Black's queen move d8-h4 that mates after 1. f2-f3 e7-e5 2. g2-g4,
written `d8-h4+`. -/
theorem makeMove_notation_witness :
    (makeMove (makeMove (makeMove (makeMove initializeBoard 6 5 5 5) 1 4 3 4) 6 6 4 6)
        0 3 4 7).lastMoveNotation = "d8-h4+" := by
  have h := makeMove_notation (makeMove (makeMove (makeMove initializeBoard 6 5 5 5) 1 4 3 4) 6 6 4 6)
    0 3 4 7 (by decide) (by decide) (by decide)
  rw [h]
  decide!

/-- C15: From the opening state the input `e2e4` decodes to `(6,4) -> (4,4)`,
`isMoveValid` accepts it, and after `makeMove` the cell e2 is empty, the cell e4
holds the White pawn `'P'`, the last-move notation is exactly `e2-e4`, and it is
Black's turn. -/
theorem opening_e2e4 :
    decodeInput "e2e4" = some (6, 4, 4, 4)
      ∧ (isMoveValid initializeBoard 6 4 4 4).1 = none
      ∧ getPieceAt (makeMove (isMoveValid initializeBoard 6 4 4 4).2 6 4 4 4).board 6 4 = '.'
      ∧ getPieceAt (makeMove (isMoveValid initializeBoard 6 4 4 4).2 6 4 4 4).board 4 4 = 'P'
      ∧ (makeMove (isMoveValid initializeBoard 6 4 4 4).2 6 4 4 4).lastMoveNotation = "e2-e4"
      ∧ (makeMove (isMoveValid initializeBoard 6 4 4 4).2 6 4 4 4).isWhiteTurn = false := by
  decide!

/-- C16: In every state with White to move in which the White king stands on e1
with the king cache `(7,4)`, a Black queen stands on e8 and the squares e2 to e7
are empty, `isKingInCheck` of White is true, and every candidate move that passes
checks 1 to 6 is rejected with the self-check error unless it is a move of a piece
other than the king onto one of the squares e2 to e8, or a move of the king to a
column other than e. -/
theorem open_file_self_check (g : ChessGame) (hturn : g.isWhiteTurn = true)
    (hK : getPieceAt g.board 7 4 = 'K')
    (honly : ∀ r c : Int, getPieceAt g.board r c = 'K' → r = 7 ∧ c = 4)
    (hcache : g.whiteKingRow = 7 ∧ g.whiteKingCol = 4)
    (hq : getPieceAt g.board 0 4 = 'q')
    (hfile : ∀ r : Int, 1 ≤ r → r ≤ 6 → getPieceAt g.board r 4 = '.') :
    isKingInCheck g true = true
      ∧ ∀ sr sc er ec : Int, passesChecks1to6 g sr sc er ec = true →
          ¬ (getPieceAt g.board sr sc ≠ 'K' ∧ ec = 4 ∧ er ≤ 6) →
          ¬ (getPieceAt g.board sr sc = 'K' ∧ ec ≠ 4) →
          (isMoveValid g sr sc er ec).1 = some MoveError.selfCheck := by
  constructor
  · rw [isKingInCheck_eq]
    unfold kingRow kingCol
    simp only [if_true, hcache.1, hcache.2, Bool.not_true]
    exact file_attack g.board 7 (by omega) (by omega) hq
      (fun r h1 h2 => hfile r h1 (by omega))
  · intro sr sc er ec hpass hex1 hex2
    rw [verdict_of_passes g sr sc er ec hpass]
    obtain ⟨h1, h2, h3, h4, h5, h6⟩ := (passesChecks1to6_general g sr sc er ec).mp hpass
    have hsb := (isWithinBounds_iff _ _).mp h1
    have heb := (isWithinBounds_iff _ _).mp h2
    unfold ownsOrigin at h3
    simp only [hturn, Bool.true_and, Bool.not_true, Bool.false_and, Bool.or_false,
      Bool.and_eq_true, bne_iff_ne, ne_eq] at h3 h4
    obtain ⟨⟨hnd, hns⟩, hwhite⟩ := h3
    have hpc : cell g.board sr sc = getPieceAt g.board sr sc := (getPieceAt_inb _ _ _ h1).symm
    suffices hatt : isKingInCheck (simulateMove g sr sc er ec) true = true by
      rw [hturn, hatt]; rfl
    rw [isKingInCheck_eq, simulateMove_kingRow, simulateMove_kingCol, hturn]
    simp only [Bool.not_true, and_true]
    by_cases hk : getPieceAt g.board sr sc = 'K'
    · obtain ⟨rfl, rfl⟩ := honly sr sc hk
      have hec : ec = 4 := by
        by_contra hne; exact hex2 ⟨hk, hne⟩
      subst hec
      have hlow : ((cell g.board 7 4).toLower == 'k') = true := by
        rw [toLower_eq_k, hpc, hk]; left; rfl
      rw [if_pos hlow, if_pos hlow]
      have hpat : isValidKingMove 7 4 er 4 = true := by
        rw [hk] at h6
        simpa [patternSwitch] using h6
      rw [isValidKingMove_iff] at hpat
      have her : er = 6 := by
        have := hpat.1
        simp only [abs] at this
        omega
      subst her
      apply file_attack _ 6 (by omega) (by omega)
      · rw [getPieceAt_simulateMove g 7 4 6 4 0 4 h1 h2 (by decide), if_neg (by omega),
          if_neg (by omega)]
        exact hq
      · intro r hr1 hr2
        rw [getPieceAt_simulateMove g 7 4 6 4 r 4 h1 h2 (by rw [isWithinBounds_iff]; omega),
          if_neg (by omega), if_neg (by omega)]
        exact hfile r hr1 (by omega)
    · have hlow : ¬ ((cell g.board sr sc).toLower == 'k') = true := by
        rw [toLower_eq_k, hpc]
        rintro (h | h)
        · exact hk h
        · rw [h] at hwhite; revert hwhite; decide
      rw [if_neg hlow, if_neg hlow]
      unfold kingRow kingCol
      simp only [if_true, hcache.1, hcache.2]
      have hsc : sc ≠ 4 := by
        rintro rfl
        rcases (by omega : sr = 0 ∨ (1 ≤ sr ∧ sr ≤ 6) ∨ sr = 7) with rfl | h | rfl
        · rw [hq] at hwhite; revert hwhite; decide
        · exact hnd (hfile sr h.1 h.2)
        · exact hk hK
      have hecne : ec ≠ 4 := by
        rintro rfl
        rcases (by omega : er ≤ 6 ∨ er = 7) with h | rfl
        · exact hex1 ⟨hk, rfl, h⟩
        · rw [hK] at h4; revert h4; decide
      apply file_attack _ 7 (by omega) (by omega)
      · rw [getPieceAt_simulateMove g sr sc er ec 0 4 h1 h2 (by decide), if_neg (by omega),
          if_neg (by omega)]
        exact hq
      · intro r hr1 hr2
        rw [getPieceAt_simulateMove g sr sc er ec r 4 h1 h2 (by rw [isWithinBounds_iff]; omega),
          if_neg (by omega), if_neg (by omega)]
        exact hfile r hr1 (by omega)

/-- An instance: `openFileState`, White king e1 and rook a1 against the queen on
e8; the rook move a1-a2 passes checks 1 to 6 and is rejected for self-check. -/
theorem open_file_self_check_witness :
    passesChecks1to6 openFileState 7 0 6 0 = true
      ∧ (isMoveValid openFileState 7 0 6 0).1 = some MoveError.selfCheck
      ∧ isKingInCheck openFileState true = true :=
  ⟨by decide!,
    (open_file_self_check openFileState rfl (by decide) openFile_only_king ⟨rfl, rfl⟩
      (by decide) openFile_file_empty).2 7 0 6 0 (by decide!) (by decide) (by decide),
    (open_file_self_check openFileState rfl (by decide) openFile_only_king ⟨rfl, rfl⟩
      (by decide) openFile_file_empty).1⟩

/-- C17: From the opening position the moves f2f3, e7e5, g2g4, d8h4 are each
accepted by `isMoveValid` in turn; in the state after the four moves White is to
move, `generateValidMoves` returns no move and `isKingInCheck` of White is true, so
the terminal test of the game loop announces checkmate, not stalemate. -/
theorem fools_mate :
    (decodeInput "f2f3" = some (6, 5, 5, 5) ∧ decodeInput "e7e5" = some (1, 4, 3, 4)
        ∧ decodeInput "g2g4" = some (6, 6, 4, 6) ∧ decodeInput "d8h4" = some (0, 3, 4, 7))
      ∧ (isMoveValid initializeBoard 6 5 5 5).1 = none
      ∧ (isMoveValid (makeMove (isMoveValid initializeBoard 6 5 5 5).2 6 5 5 5) 1 4 3 4).1 = none
      ∧ (isMoveValid
          (makeMove (isMoveValid
            (makeMove (isMoveValid initializeBoard 6 5 5 5).2 6 5 5 5) 1 4 3 4).2 1 4 3 4)
          6 6 4 6).1 = none
      ∧ (isMoveValid
          (makeMove (isMoveValid
            (makeMove (isMoveValid
              (makeMove (isMoveValid initializeBoard 6 5 5 5).2 6 5 5 5) 1 4 3 4).2 1 4 3 4)
            6 6 4 6).2 6 6 4 6)
          0 3 4 7).1 = none
      ∧ foolsMateState.isWhiteTurn = true
      ∧ (generateValidMoves foolsMateState).1 = []
      ∧ isKingInCheck foolsMateState true = true
      ∧ (terminalTest foolsMateState).1 = some GameEnd.checkmate := by
  decide!

/-- C18: In every state, for distinct in-bounds squares `from ≠ to` with `to`
empty and a piece on `from` that is not a king, `makeMove` of `(from, to)` followed
by `makeMove` of `(to, from)` gives back the 64 board cells, the side to move, both
cached king squares and both captured lists (the last-move notation aside). -/
theorem makeMove_reverse_restores (g : ChessGame) (sr sc er ec : Int)
    (hs : isWithinBounds sr sc = true) (he : isWithinBounds er ec = true)
    (hne : ¬ (sr = er ∧ sc = ec)) (hempty : getPieceAt g.board er ec = '.')
    (hnk : getPieceAt g.board sr sc ≠ 'K' ∧ getPieceAt g.board sr sc ≠ 'k') :
    (makeMove (makeMove g sr sc er ec) er ec sr sc).board = g.board
      ∧ (makeMove (makeMove g sr sc er ec) er ec sr sc).isWhiteTurn = g.isWhiteTurn
      ∧ (makeMove (makeMove g sr sc er ec) er ec sr sc).whiteKingRow = g.whiteKingRow
      ∧ (makeMove (makeMove g sr sc er ec) er ec sr sc).whiteKingCol = g.whiteKingCol
      ∧ (makeMove (makeMove g sr sc er ec) er ec sr sc).blackKingRow = g.blackKingRow
      ∧ (makeMove (makeMove g sr sc er ec) er ec sr sc).blackKingCol = g.blackKingCol
      ∧ (makeMove (makeMove g sr sc er ec) er ec sr sc).whiteCaptured = g.whiteCaptured
      ∧ (makeMove (makeMove g sr sc er ec) er ec sr sc).blackCaptured = g.blackCaptured := by
  have hp : cell g.board sr sc = getPieceAt g.board sr sc := (getPieceAt_inb _ _ _ hs).symm
  have ht : cell g.board er ec = '.' := by rw [← getPieceAt_inb _ _ _ he]; exact hempty
  have hk1 : ¬ ((cell g.board sr sc).toLower == 'k') = true := by
    rw [toLower_eq_k, hp]; tauto
  have hE : getPieceAt (makeMove g sr sc er ec).board er ec = getPieceAt g.board sr sc := by
    rw [getPieceAt_makeMove g sr sc er ec er ec hs he he,
      if_neg (fun h => hne ⟨h.1.symm, h.2.symm⟩), if_pos ⟨rfl, rfl⟩]
  have hS : getPieceAt (makeMove g sr sc er ec).board sr sc = '.' := by
    rw [getPieceAt_makeMove g sr sc er ec sr sc hs he hs, if_pos ⟨rfl, rfl⟩]
  have hp2 : cell (makeMove g sr sc er ec).board er ec = getPieceAt g.board sr sc := by
    rw [← getPieceAt_inb _ _ _ he]; exact hE
  have ht2 : cell (makeMove g sr sc er ec).board sr sc = '.' := by
    rw [← getPieceAt_inb _ _ _ hs]; exact hS
  have hk2 : ¬ ((cell (makeMove g sr sc er ec).board er ec).toLower == 'k') = true := by
    rw [toLower_eq_k, hp2]; tauto
  have hrow : ∀ w, kingRow (makeMove (makeMove g sr sc er ec) er ec sr sc) w = kingRow g w := by
    intro w
    rw [makeMove_kingRow, if_neg (fun h => hk2 h.1), makeMove_kingRow, if_neg (fun h => hk1 h.1)]
  have hcol : ∀ w, kingCol (makeMove (makeMove g sr sc er ec) er ec sr sc) w = kingCol g w := by
    intro w
    rw [makeMove_kingCol, if_neg (fun h => hk2 h.1), makeMove_kingCol, if_neg (fun h => hk1 h.1)]
  have hSE : ¬ (idx sr = idx er ∧ idx sc = idx ec) := by
    have a := (isWithinBounds_iff _ _).mp hs
    have b := (isWithinBounds_iff _ _).mp he
    rw [idx_inj _ _ a.1 a.2.1 b.1 b.2.1, idx_inj _ _ a.2.2.1 a.2.2.2 b.2.2.1 b.2.2.2]
    exact hne
  refine ⟨?_, ?_, hrow true, hcol true, hrow false, hcol false, ?_, ?_⟩
  · funext i j
    rw [makeMove_board_apply, hp2, makeMove_board_apply]
    by_cases hE' : i = idx er ∧ j = idx ec
    · rw [if_pos hE']
      rw [hE'.1, hE'.2]
      exact ht.symm
    · rw [if_neg hE']
      by_cases hS' : i = idx sr ∧ j = idx sc
      · rw [if_pos hS', hS'.1, hS'.2]
        exact hp.symm
      · rw [if_neg hS', if_neg hS', if_neg hE']
  · rw [makeMove_isWhiteTurn, makeMove_isWhiteTurn, Bool.not_not]
  · rw [makeMove_whiteCaptured, ht2, makeMove_whiteCaptured, ht]
    simp
  · rw [makeMove_blackCaptured, ht2, makeMove_blackCaptured, ht]
    simp

/-- An instance: the knight move g1-f3 and back in the opening position. -/
theorem makeMove_reverse_restores_witness :
    (makeMove (makeMove initializeBoard 7 6 5 5) 5 5 7 6).board = initializeBoard.board
      ∧ (makeMove (makeMove initializeBoard 7 6 5 5) 5 5 7 6).isWhiteTurn = true
      ∧ (makeMove (makeMove initializeBoard 7 6 5 5) 5 5 7 6).whiteKingRow = 7
      ∧ (makeMove (makeMove initializeBoard 7 6 5 5) 5 5 7 6).whiteKingCol = 4
      ∧ (makeMove (makeMove initializeBoard 7 6 5 5) 5 5 7 6).blackKingRow = 0
      ∧ (makeMove (makeMove initializeBoard 7 6 5 5) 5 5 7 6).blackKingCol = 4
      ∧ (makeMove (makeMove initializeBoard 7 6 5 5) 5 5 7 6).whiteCaptured = []
      ∧ (makeMove (makeMove initializeBoard 7 6 5 5) 5 5 7 6).blackCaptured = [] :=
  makeMove_reverse_restores initializeBoard 7 6 5 5 (by decide) (by decide) (by decide)
    (by decide) (by decide)

/-- C19: On a board of piece symbols and `'.'`, for in-bounds squares `from` and
`to`, `isValidRookMove` is true exactly when the two squares share a row or a
column and every square strictly between them is empty; in particular it is true
when `from = to`. -/
theorem isValidRookMove_spec (b : Board) (_hb : BoardOK b) (sr sc er ec : Int)
    (_hs : isWithinBounds sr sc = true) (_he : isWithinBounds er ec = true) :
    (isValidRookMove b sr sc er ec = true ↔ (sr = er ∨ sc = ec) ∧ PathClear b sr sc er ec)
      ∧ isValidRookMove b sr sc sr sc = true := by
  refine ⟨isValidRookMove_iff b sr sc er ec, ?_⟩
  rw [isValidRookMove_iff]
  refine ⟨Or.inl rfl, ?_⟩
  intro t h0 h1
  simp only [sub_self, abs_zero, max_self] at h1
  omega

/-- An instance: the rook a1 and the square a3 in the opening position (blocked by
the pawn a2). -/
theorem isValidRookMove_spec_witness :
    BoardOK initializeBoard.board ∧ isWithinBounds 7 0 = true ∧ isWithinBounds 5 0 = true
      ∧ ((isValidRookMove initializeBoard.board 7 0 5 0 = true
            ↔ ((7 : Int) = 5 ∨ (0 : Int) = 0) ∧ PathClear initializeBoard.board 7 0 5 0)
        ∧ isValidRookMove initializeBoard.board 7 0 7 0 = true) :=
  ⟨by decide, by decide, by decide,
    isValidRookMove_spec initializeBoard.board (by decide) 7 0 5 0 (by decide) (by decide)⟩

/-- C20: On a board of piece symbols and `'.'`, for in-bounds squares `from` and
`to`, `isValidBishopMove` is true exactly when `|Δrow| = |Δcol| ≠ 0` and every
square strictly between them on that diagonal is empty; in particular it is false
when `from = to`. -/
theorem isValidBishopMove_spec (b : Board) (_hb : BoardOK b) (sr sc er ec : Int)
    (_hs : isWithinBounds sr sc = true) (_he : isWithinBounds er ec = true) :
    (isValidBishopMove b sr sc er ec = true
        ↔ |er - sr| = |ec - sc| ∧ |er - sr| ≠ 0 ∧ PathClear b sr sc er ec)
      ∧ isValidBishopMove b sr sc sr sc = false := by
  constructor
  · rw [isValidBishopMove_iff, abs_sub_comm sr er, abs_sub_comm sc ec]
    constructor
    · rintro ⟨h1, h2, h3⟩
      refine ⟨h1, ?_, h3⟩
      simp only [abs]; omega
    · rintro ⟨h1, h2, h3⟩
      refine ⟨h1, ?_, h3⟩
      simp only [abs] at h2; omega
  · cases h : isValidBishopMove b sr sc sr sc
    · rfl
    · rw [isValidBishopMove_iff] at h
      exact absurd rfl h.2.1

/-- An instance: the bishop c1 and the square e3 in the opening position (blocked
by the pawn d2). -/
theorem isValidBishopMove_spec_witness :
    BoardOK initializeBoard.board ∧ isWithinBounds 7 2 = true ∧ isWithinBounds 5 4 = true
      ∧ ((isValidBishopMove initializeBoard.board 7 2 5 4 = true
            ↔ |(5 : Int) - 7| = |(4 : Int) - 2| ∧ |(5 : Int) - 7| ≠ 0
              ∧ PathClear initializeBoard.board 7 2 5 4)
        ∧ isValidBishopMove initializeBoard.board 7 2 7 2 = false) :=
  ⟨by decide, by decide, by decide,
    isValidBishopMove_spec initializeBoard.board (by decide) 7 2 5 4 (by decide) (by decide)⟩

/-- C21: In every state, for a candidate move of a pawn that has passed checks 1 to
5 of `isMoveValid`, `isValidPawnMove` accepts exactly when one of the three patterns
holds, and then only one of them: a one-row advance onto an empty square, a two-row
advance from the home row over an empty square onto an empty square, or a one-row
diagonal step onto a square occupied by an enemy piece (forward is row - 1 for
White, row + 1 for Black). An accepted pawn move goes strictly forward, a diagonal
step onto an empty square is not accepted, and a rejected pattern gets the
pattern error. -/
theorem pawn_move_spec (g : ChessGame) (w : Bool) (sr sc er ec : Int)
    (hP : getPieceAt g.board sr sc = (if w then 'P' else 'p'))
    (h5 : passesChecks1to5 g sr sc er ec = true) :
    (isValidPawnMove g.board sr sc er ec (getPieceAt g.board er ec) = true
        ↔ PawnStep g.board w sr sc er ec ∨ PawnDoubleStep g.board w sr sc er ec
          ∨ PawnCapture g.board w sr sc er ec)
      ∧ ¬ (PawnStep g.board w sr sc er ec ∧ PawnDoubleStep g.board w sr sc er ec)
      ∧ ¬ (PawnStep g.board w sr sc er ec ∧ PawnCapture g.board w sr sc er ec)
      ∧ ¬ (PawnDoubleStep g.board w sr sc er ec ∧ PawnCapture g.board w sr sc er ec)
      ∧ (isValidPawnMove g.board sr sc er ec (getPieceAt g.board er ec) = true →
          (if w then er < sr else sr < er))
      ∧ (sc ≠ ec → getPieceAt g.board er ec = '.' →
          isValidPawnMove g.board sr sc er ec (getPieceAt g.board er ec) = false)
      ∧ (isValidPawnMove g.board sr sc er ec (getPieceAt g.board er ec) = false →
          (isMoveValid g sr sc er ec).1
            = some (MoveError.badPattern (getPieceAt g.board sr sc) sr sc er ec)) := by
  obtain ⟨hs, he, hown, hcap, hne⟩ := (passesChecks1to5_general g sr sc er ec).mp h5
  have hturn : g.isWhiteTurn = w := by
    unfold ownsOrigin at hown
    simp only [] at hown
    rw [hP] at hown
    cases hw : g.isWhiteTurn <;> cases w <;> first | rfl | (exfalso; rw [hw] at hown; revert hown; decide)
  have henemy : (getPieceAt g.board er ec ≠ '.' ∧ getPieceAt g.board er ec ≠ ' ')
      ↔ EnemyOccupied w (getPieceAt g.board er ec) := by
    unfold EnemyOccupied
    rw [hturn] at hcap
    constructor
    · rintro ⟨h1, h2⟩
      refine ⟨h1, h2, ?_⟩
      cases w <;> simp [h1, h2] at hcap <;> simp [hcap]
    · rintro ⟨h1, h2, -⟩
      exact ⟨h1, h2⟩
  have key := isValidPawnMove_iff g.board w sr sc er ec hP
  have hiff : isValidPawnMove g.board sr sc er ec (getPieceAt g.board er ec) = true
      ↔ PawnStep g.board w sr sc er ec ∨ PawnDoubleStep g.board w sr sc er ec
        ∨ PawnCapture g.board w sr sc er ec := by
    rw [key]
    unfold PawnStep PawnDoubleStep PawnCapture
    rw [← henemy]
  have hfw : pawnForward w = -1 ∨ pawnForward w = 1 := by cases w <;> simp [pawnForward]
  refine ⟨hiff, ?_, ?_, ?_, ?_, ?_, ?_⟩
  · unfold PawnStep PawnDoubleStep
    rintro ⟨⟨-, h1, -⟩, ⟨-, h2, -⟩⟩
    omega
  · unfold PawnStep PawnCapture
    rintro ⟨⟨h1, -, -⟩, ⟨h2, -, -⟩⟩
    rw [h1] at h2
    simp at h2
  · unfold PawnDoubleStep PawnCapture
    rintro ⟨⟨h1, -, -⟩, ⟨h2, -, -⟩⟩
    rw [h1] at h2
    simp at h2
  · intro hv
    rw [hiff] at hv
    unfold PawnStep PawnDoubleStep PawnCapture at hv
    cases w <;> simp only [pawnForward, Bool.false_eq_true, if_false, if_true] at hv ⊢ <;>
      rcases hv with h | h | h <;> omega
  · intro hcol hdot
    cases hv : isValidPawnMove g.board sr sc er ec (getPieceAt g.board er ec)
    · rfl
    · rw [key] at hv
      rcases hv with h | h | h
      · exact absurd h.1 hcol
      · exact absurd h.1 hcol
      · exact absurd hdot h.2.2.1
  · intro hv
    rw [verdict_after_check5 g sr sc er ec h5,
      patternSwitch_pawn g.board (by cases w <;> simp [hP]) sr sc er ec, hv]
    rfl

/-- An instance: the capture e4xd5 in `scandinavianState`, pattern (c) and no
other. -/
theorem pawn_move_spec_witness :
    getPieceAt scandinavianState.board 4 4 = 'P'
      ∧ passesChecks1to5 scandinavianState 4 4 3 3 = true
      ∧ PawnCapture scandinavianState.board true 4 4 3 3
      ∧ isValidPawnMove scandinavianState.board 4 4 3 3
          (getPieceAt scandinavianState.board 3 3) = true :=
  ⟨by decide, by decide!, by decide,
    (pawn_move_spec scandinavianState true 4 4 3 3 (by decide) (by decide!)).1.mpr
      (Or.inr (Or.inr (by decide)))⟩

/-- C22: In every state, a move accepted by `isMoveValid` whose moving piece is a
knight has `(|Δrow|, |Δcol|)` equal to `(2,1)` or `(1,2)`; conversely a knight move
with such a displacement that passes checks 1 to 5 gets the self-check error or is
accepted, according to the probe alone, whatever else is on the board. -/
theorem knight_move_spec (g : ChessGame) (sr sc er ec : Int)
    (hN : getPieceAt g.board sr sc = 'N' ∨ getPieceAt g.board sr sc = 'n') :
    ((isMoveValid g sr sc er ec).1 = none →
        (|er - sr| = 2 ∧ |ec - sc| = 1) ∨ (|er - sr| = 1 ∧ |ec - sc| = 2))
      ∧ (passesChecks1to5 g sr sc er ec = true →
          ((|er - sr| = 2 ∧ |ec - sc| = 1) ∨ (|er - sr| = 1 ∧ |ec - sc| = 2)) →
          (isMoveValid g sr sc er ec).1
            = if isKingInCheck (simulateMove g sr sc er ec) g.isWhiteTurn = true
              then some MoveError.selfCheck else none) := by
  have hpat := patternSwitch_knight g.board hN sr sc er ec
  constructor
  · intro hacc
    have ha : accepts g sr sc er ec = true := by unfold accepts; rw [hacc]; rfl
    obtain ⟨-, -, -, -, -, hp, -⟩ := (accepts_iff g sr sc er ec).mp ha
    rw [hpat] at hp
    have hk : isValidKnightMove sr sc er ec = true := by simpa using hp
    rw [isValidKnightMove_iff] at hk
    rw [abs_sub_comm er sr, abs_sub_comm ec sc]
    tauto
  · intro h5 hd
    rw [verdict_after_check5 g sr sc er ec h5, hpat]
    have hk : isValidKnightMove sr sc er ec = true := by
      rw [isValidKnightMove_iff, abs_sub_comm sr er, abs_sub_comm sc ec]
      tauto
    simp only [hk, Bool.true_eq_false, if_false]

/-- An instance: the knight move g1-f3 in the opening position, over the pawns of
row 6. -/
theorem knight_move_spec_witness :
    (getPieceAt initializeBoard.board 7 6 = 'N' ∨ getPieceAt initializeBoard.board 7 6 = 'n')
      ∧ passesChecks1to5 initializeBoard 7 6 5 5 = true
      ∧ (isMoveValid initializeBoard 7 6 5 5).1
          = if isKingInCheck (simulateMove initializeBoard 7 6 5 5) initializeBoard.isWhiteTurn
                = true
            then some MoveError.selfCheck else none :=
  ⟨by decide, by decide!,
    (knight_move_spec initializeBoard 7 6 5 5 (by decide)).2 (by decide!) (by decide)⟩

/-- C23: In every state, a move accepted by `isMoveValid` whose moving piece is a
king has `|Δrow| ≤ 1` and `|Δcol| ≤ 1`, and its destination square is not attacked
by the opponent on the board after the move; a king move of two or more squares (a
castling move) is never accepted. -/
theorem king_move_spec (g : ChessGame) (sr sc er ec : Int)
    (hK : getPieceAt g.board sr sc = 'K' ∨ getPieceAt g.board sr sc = 'k') :
    ((isMoveValid g sr sc er ec).1 = none →
        |er - sr| ≤ 1 ∧ |ec - sc| ≤ 1
          ∧ isSquareAttacked (makeMove g sr sc er ec).board er ec (!g.isWhiteTurn) = false
          ∧ isSquareAttacked (makeMove (isMoveValid g sr sc er ec).2 sr sc er ec).board er ec
              (!g.isWhiteTurn) = false)
      ∧ (2 ≤ |er - sr| ∨ 2 ≤ |ec - sc| → (isMoveValid g sr sc er ec).1 ≠ none) := by
  have hpat := patternSwitch_king g.board hK sr sc er ec
  have main : (isMoveValid g sr sc er ec).1 = none →
      |er - sr| ≤ 1 ∧ |ec - sc| ≤ 1
        ∧ isSquareAttacked (makeMove g sr sc er ec).board er ec (!g.isWhiteTurn) = false
        ∧ isSquareAttacked (makeMove (isMoveValid g sr sc er ec).2 sr sc er ec).board er ec
            (!g.isWhiteTurn) = false := by
    intro hacc
    have ha : accepts g sr sc er ec = true := by unfold accepts; rw [hacc]; rfl
    obtain ⟨hs, -, -, -, -, hp, hc⟩ := (accepts_iff g sr sc er ec).mp ha
    rw [hpat] at hp
    have hk : isValidKingMove sr sc er ec = true := by simpa using hp
    rw [isValidKingMove_iff] at hk
    rw [abs_sub_comm er sr, abs_sub_comm ec sc]
    have hcell : ((cell g.board sr sc).toLower == 'k') = true := by
      rw [toLower_eq_k, ← getPieceAt_inb _ _ _ hs]; exact hK
    rw [isKingInCheck_eq, simulateMove_kingRow, simulateMove_kingCol,
      if_pos ⟨hcell, rfl⟩, if_pos ⟨hcell, rfl⟩, simulateMove_board] at hc
    refine ⟨hk.1, hk.2, ?_, ?_⟩
    · rw [makeMove_board]; exact hc
    · rw [makeMove_board, isMoveValid_board]; exact hc
  refine ⟨main, ?_⟩
  intro h2 hacc
  obtain ⟨h1, h1', -, -⟩ := main hacc
  omega

/-- An instance: after 1. e2-e4 e7-e5 the king move e1-e2 is accepted. -/
theorem king_move_spec_witness :
    (isMoveValid (makeMove (makeMove initializeBoard 6 4 4 4) 1 4 3 4) 7 4 6 4).1 = none
      ∧ isSquareAttacked
          (makeMove (makeMove (makeMove initializeBoard 6 4 4 4) 1 4 3 4) 7 4 6 4).board 6 4
          (!(makeMove (makeMove initializeBoard 6 4 4 4) 1 4 3 4).isWhiteTurn) = false :=
  ⟨by decide!,
    ((king_move_spec (makeMove (makeMove initializeBoard 6 4 4 4) 1 4 3 4) 7 4 6 4
      (by decide)).1 (by decide!)).2.2.1⟩

/-- C24: For every in-bounds `(row, col)`, `notationToIndex` applied to
`indexToNotation row col` returns `(row, col)`, the name being the file letter `a`
to `h` of columns 0 to 7 followed by the rank digit `8` down to `1` of rows 0 to 7;
for every two-character string that `notationToIndex` accepts, `indexToNotation` of
the result is the string with its file letter lower-cased; and `notationToIndex`
rejects every string whose length is not 2, and a two-character string exactly when
its file is outside `a..h` in either case or its rank outside `1..8`. -/
theorem notation_roundtrip :
    (∀ r c : Int, isWithinBounds r c = true →
        notationToIndex (indexToNotation r c) = some (r, c)
          ∧ indexToNotation r c = algebraicName r c)
      ∧ (notationToIndex "a1" = some (7, 0) ∧ notationToIndex "h8" = some (0, 7)
          ∧ notationToIndex "E2" = some (6, 4))
      ∧ (∀ (s : String) (c0 c1 : Char) (r c : Int), s.data = [c0, c1] →
          notationToIndex s = some (r, c) →
          isWithinBounds r c = true ∧ indexToNotation r c = String.mk [c0.toLower, c1])
      ∧ (∀ s : String, s.length ≠ 2 → notationToIndex s = none)
      ∧ (∀ (s : String) (c0 c1 : Char), s.data = [c0, c1] →
          (notationToIndex s = none
            ↔ c0 ∉ "abcdefghABCDEFGH".data ∨ c1 ∉ "12345678".data)) := by
  refine ⟨?_, by decide, ?_, notationToIndex_length, ?_⟩
  · intro r c hin
    exact ⟨forall_squares (fun r c => notationToIndex (indexToNotation r c) = some (r, c))
      roundtrip_boardRange r c hin, indexToNotation_eq_algebraicName r c hin⟩
  · intro s c0 c1 r c hs h
    rw [notationToIndex_two s c0 c1 hs] at h
    by_cases hf : c0.toLower ∈ "abcdefgh".data ∧ c1 ∈ "12345678".data
    · rw [if_pos hf] at h
      simp only [Option.some.injEq, Prod.mk.injEq] at h
      obtain ⟨rfl, rfl⟩ := h
      have hb := notation_back_chars _ hf.1 _ hf.2
      refine ⟨?_, hb⟩
      by_contra hcon
      have hq : indexToNotation ((56 : Int) - c1.toNat) ((c0.toLower.toNat : Int) - 97) = "??" := by
        unfold indexToNotation
        rw [if_pos (by simpa using hcon)]
      rw [hq] at hb
      have := congrArg String.data hb
      simp only [String.data, List.cons.injEq] at this
      have h1 := hf.2
      rw [← this.2.1] at h1
      revert h1
      decide
    · rw [if_neg hf] at h
      cases h
  · intro s c0 c1 hs
    rw [notationToIndex_two s c0 c1 hs, ← toLower_mem_files]
    by_cases hf : c0.toLower ∈ "abcdefgh".data ∧ c1 ∈ "12345678".data
    · rw [if_pos hf]
      simp only [false_iff, reduceCtorEq]
      tauto
    · rw [if_neg hf]
      simp only [true_iff]
      tauto

/-- An instance: the square e2, row 6 and column 4. -/
theorem notation_roundtrip_witness :
    isWithinBounds 6 4 = true ∧ indexToNotation 6 4 = "e2"
      ∧ notationToIndex (indexToNotation 6 4) = some (6, 4) :=
  ⟨by decide, by decide, (notation_roundtrip.1 6 4 (by decide)).1⟩

/-- C25: On every state whose board holds only the twelve piece symbols or `'.'`
and for every candidate move, `isMoveValid` of the second copy
(`{CHESS}/chess122/Gaming/main.cpp`) and `isMoveValid` of the first make the same
decision, fail at the same check and leave the same state, and `makeMove` of the
second copy builds the same state as `makeMove` of the first: board, king caches,
side to move, captured lists and last-move notation. -/
theorem copies_equivalent (g : ChessGame) (hb : BoardOK g.board) (sr sc er ec : Int) :
    ((Second.isMoveValid g sr sc er ec).1 = none ↔ (isMoveValid g sr sc er ec).1 = none)
      ∧ (Second.isMoveValid g sr sc er ec).1
          = (isMoveValid g sr sc er ec).1.map MoveError.toSecond
      ∧ (Second.isMoveValid g sr sc er ec).2 = (isMoveValid g sr sc er ec).2
      ∧ Second.makeMove g sr sc er ec = makeMove g sr sc er ec
      ∧ Second.makeMove (Second.isMoveValid g sr sc er ec).2 sr sc er ec
          = makeMove (isMoveValid g sr sc er ec).2 sr sc er ec := by
  have h := second_isMoveValid_eq g hb sr sc er ec
  refine ⟨?_, by rw [h], by rw [h], second_makeMove_eq g hb sr sc er ec, ?_⟩
  · rw [h]
    simp only [Option.map_eq_none']
  · rw [h]
    exact second_makeMove_eq _ (by rw [isMoveValid_board]; exact hb) sr sc er ec

/-- An instance: the mating move d8-h4 after 1. f2-f3 e7-e5 2. g2-g4, accepted by
both copies and written `d8-h4+` by both. -/
theorem copies_equivalent_witness :
    BoardOK (makeMove (makeMove (makeMove initializeBoard 6 5 5 5) 1 4 3 4) 6 6 4 6).board
      ∧ (Second.isMoveValid (makeMove (makeMove (makeMove initializeBoard 6 5 5 5) 1 4 3 4)
          6 6 4 6) 0 3 4 7).1 = none
      ∧ (Second.makeMove (makeMove (makeMove (makeMove initializeBoard 6 5 5 5) 1 4 3 4)
          6 6 4 6) 0 3 4 7).lastMoveNotation = "d8-h4+"
      ∧ Second.makeMove (makeMove (makeMove (makeMove initializeBoard 6 5 5 5) 1 4 3 4)
            6 6 4 6) 0 3 4 7
          = makeMove (makeMove (makeMove (makeMove initializeBoard 6 5 5 5) 1 4 3 4)
            6 6 4 6) 0 3 4 7 :=
  ⟨by decide, by decide!, by decide!,
    (copies_equivalent (makeMove (makeMove (makeMove initializeBoard 6 5 5 5) 1 4 3 4) 6 6 4 6)
      (by decide) 0 3 4 7).2.2.2.1⟩

/-- C26: In every state and for every square `s`, in or out of the board, the null
move `s -> s` is rejected by `isMoveValid` with the out-of-bounds, empty-origin,
wrong-side or own-capture error, the own-capture error (check 4) whenever checks 1
to 3 pass; and no input at all gets the same-square error of check 5. -/
theorem null_move_never_same_square (g : ChessGame) :
    (∀ r c : Int,
        ((isMoveValid g r c r c).1 = some MoveError.outOfBounds
          ∨ (isMoveValid g r c r c).1 = some (MoveError.emptyOrigin r c)
          ∨ (isMoveValid g r c r c).1
              = some (MoveError.wrongSide (getPieceAt g.board r c) r c)
          ∨ (isMoveValid g r c r c).1 = some (MoveError.ownCapture r c))
        ∧ (isWithinBounds r c = true → ownsOrigin g r c = true →
            (isMoveValid g r c r c).1 = some (MoveError.ownCapture r c)))
      ∧ ∀ sr sc er ec : Int, (isMoveValid g sr sc er ec).1 ≠ some MoveError.sameSquare := by
  have key : ∀ r c : Int,
      (isMoveValid g r c r c).1 = some MoveError.outOfBounds
        ∨ (isMoveValid g r c r c).1 = some (MoveError.emptyOrigin r c)
        ∨ (isMoveValid g r c r c).1 = some (MoveError.wrongSide (getPieceAt g.board r c) r c)
        ∨ (isMoveValid g r c r c).1 = some (MoveError.ownCapture r c) := by
    intro r c
    rw [null_move_verdict]
    split_ifs <;> simp
  refine ⟨fun r c => ⟨key r c, ?_⟩, ?_⟩
  · intro hin hown
    unfold ownsOrigin at hown
    simp only [Bool.and_eq_true, bne_iff_ne, ne_eq] at hown
    rw [null_move_verdict, if_neg (by simp [hin]), if_neg (by tauto), if_neg]
    cases hw : g.isWhiteTurn <;> simp [hw] at hown <;> simp [hown]
  · intro sr sc er ec h
    obtain ⟨rfl, rfl⟩ := sameSquare_only_null g sr sc er ec h
    rcases key sr sc with h' | h' | h' | h' <;> rw [h'] at h <;> cases h

/-- An instance: the null move e2 -> e2 in the opening position, rejected as a
capture of White's own pawn. -/
theorem null_move_never_same_square_witness :
    isWithinBounds 6 4 = true ∧ ownsOrigin initializeBoard 6 4 = true
      ∧ (isMoveValid initializeBoard 6 4 6 4).1 = some (MoveError.ownCapture 6 4) :=
  ⟨by decide, by decide,
    ((null_move_never_same_square initializeBoard).1 6 4).2 (by decide) (by decide)⟩

/-- C27: In every state of a game (reachable from the opening position by
`makeMove` of moves accepted by `isMoveValid`), the number of occupied squares plus
the lengths of `whiteCaptured` and `blackCaptured` is 32, `whiteCaptured` holds only
Black pieces and `blackCaptured` only White pieces, and neither holds a king. -/
theorem reachable_material_count (g : ChessGame) (h : Reachable g) :
    occupiedCount g.board + g.whiteCaptured.length + g.blackCaptured.length = 32
      ∧ (∀ t ∈ g.whiteCaptured,
          t ∈ pieceSymbols ∧ isPieceBlack t = true ∧ t ≠ 'k' ∧ t ≠ 'K')
      ∧ (∀ t ∈ g.blackCaptured,
          t ∈ pieceSymbols ∧ isPieceWhite t = true ∧ t ≠ 'K' ∧ t ≠ 'k') := by
  obtain ⟨h1, h2, h3⟩ := reachable_materialInv g h
  refine ⟨h1, ?_, ?_⟩
  · intro t ht
    have := h2 t ht
    simp only [blackCapturable, List.mem_cons, List.mem_singleton, List.not_mem_nil,
      or_false] at this
    rcases this with e | e | e | e | e <;> subst e <;> decide
  · intro t ht
    have := h3 t ht
    simp only [whiteCapturable, List.mem_cons, List.mem_singleton, List.not_mem_nil,
      or_false] at this
    rcases this with e | e | e | e | e <;> subst e <;> decide

/-- An instance: the state after 1. e2-e4 d7-d5 2. e4xd5, with 31 occupied squares
and the Black pawn in `whiteCaptured`. -/
theorem reachable_material_count_witness :
    Reachable pawnTakenState
      ∧ pawnTakenState.whiteCaptured = ['p'] ∧ pawnTakenState.blackCaptured = []
      ∧ occupiedCount pawnTakenState.board = 31
      ∧ occupiedCount pawnTakenState.board + pawnTakenState.whiteCaptured.length
          + pawnTakenState.blackCaptured.length = 32 :=
  ⟨pawnTakenState_reachable, by decide!, by decide!, by decide!,
    (reachable_material_count pawnTakenState pawnTakenState_reachable).1⟩

/-- C28: In every state whose enumeration of legal moves is not empty, every score
is at least 0, so `bestScore` ends above its start value `-1` and is the score of
an enumerated move, the list `bestMoves` is not empty, the modulus of
`rand() % bestMoves.size()` is not zero, and for every value of `rand()` the chosen
index is an index of `bestMoves`: `makeAIMove` applies the move found there. -/
theorem makeAIMove_index_valid (g : ChessGame) (rnd : Nat)
    (hne : (generateValidMoves g).1 ≠ []) :
    (∀ m ∈ (generateValidMoves g).1, 0 ≤ m.score)
      ∧ -1 < bestScoreOf (generateValidMoves g).1
      ∧ (∃ m ∈ (generateValidMoves g).1, m.score = bestScoreOf (generateValidMoves g).1)
      ∧ bestMovesOf (generateValidMoves g).1 ≠ []
      ∧ (bestMovesOf (generateValidMoves g).1).length ≠ 0
      ∧ rnd % (bestMovesOf (generateValidMoves g).1).length
          < (bestMovesOf (generateValidMoves g).1).length
      ∧ ∃ m, (bestMovesOf (generateValidMoves g).1)[rnd
              % (bestMovesOf (generateValidMoves g).1).length]? = some m
          ∧ makeAIMove g rnd
              = some (true, makeMove (generateValidMoves g).2 m.startR m.startC m.endR m.endC) := by
  have hscore : ∀ m ∈ (generateValidMoves g).1, 0 ≤ m.score := by
    intro m hm
    rw [(generateValidMoves_scores g).2 m hm]
    exact scoreOf_nonneg _
  rw [makeAIMove_loops]
  generalize (generateValidMoves g).1 = L at hne hscore ⊢
  generalize (generateValidMoves g).2 = g2
  obtain ⟨-, hmax, hor⟩ := bestScore_fold L (-1)
  have hbs : bestScoreOf L
      = L.foldl (fun best move => if move.score > best then move.score else best) (-1) := rfl
  rw [← hbs] at hmax hor
  obtain ⟨x, hx⟩ := List.exists_mem_of_ne_nil L hne
  have hgt : -1 < bestScoreOf L := by
    have h1 := hmax x hx
    have h2 := hscore x hx
    omega
  have hex : ∃ m ∈ L, m.score = bestScoreOf L := by
    rcases hor with h | h
    · omega
    · exact h
  obtain ⟨m0, hm0, hs0⟩ := hex
  have hmem0 : m0 ∈ bestMovesOf L := by
    unfold bestMovesOf
    rw [List.mem_filter]; exact ⟨hm0, by simpa using hs0⟩
  have hlen : 0 < (bestMovesOf L).length := List.length_pos_of_mem hmem0
  have hidx : rnd % (bestMovesOf L).length < (bestMovesOf L).length := Nat.mod_lt _ hlen
  have hemp : L.isEmpty = false := by
    cases L with
    | nil => exact absurd rfl hne
    | cons y ys => rfl
  refine ⟨hscore, hgt, ⟨m0, hm0, hs0⟩, List.ne_nil_of_mem hmem0, by omega, hidx, ?_⟩
  refine ⟨(bestMovesOf L)[rnd % (bestMovesOf L).length], List.getElem?_eq_getElem hidx, ?_⟩
  rw [hemp, if_neg (by decide), if_neg (by omega), List.getElem?_eq_getElem hidx]

/-- An instance: the opening position and the value 7 of `rand()`; the twenty moves
tie at score 1 and the index 7 selects the eighth, d2-d3. -/
theorem makeAIMove_index_valid_witness :
    (generateValidMoves initializeBoard).1 ≠ []
      ∧ (bestMovesOf (generateValidMoves initializeBoard).1).length = 20
      ∧ 7 % (bestMovesOf (generateValidMoves initializeBoard).1).length
          < (bestMovesOf (generateValidMoves initializeBoard).1).length
      ∧ (bestMovesOf (generateValidMoves initializeBoard).1)[7
            % (bestMovesOf (generateValidMoves initializeBoard).1).length]?
          = some (Move.mk 6 3 5 3 1) :=
  ⟨by decide!, by decide!,
    (makeAIMove_index_valid initializeBoard 7 (by decide!)).2.2.2.2.2.1, by decide!⟩

/-- C30: In every state, a White pawn standing on row 0 and a Black pawn standing
on row 7 have no move that `isMoveValid` accepts, for any destination, and
`generateValidMoves` lists no move whose origin is such a pawn. -/
theorem last_row_pawn_has_no_move (g : ChessGame) :
    (∀ c er ec : Int, getPieceAt g.board 0 c = 'P' → (isMoveValid g 0 c er ec).1 ≠ none)
      ∧ (∀ c er ec : Int, getPieceAt g.board 7 c = 'p' → (isMoveValid g 7 c er ec).1 ≠ none)
      ∧ (∀ m ∈ (generateValidMoves g).1,
          ¬ (m.startR = 0 ∧ getPieceAt g.board m.startR m.startC = 'P')
            ∧ ¬ (m.startR = 7 ∧ getPieceAt g.board m.startR m.startC = 'p')) := by
  refine ⟨?_, ?_, ?_⟩
  · intro c er ec hP hacc
    have := last_row_pawn_rejected g true 0 c er ec hP rfl
    unfold accepts at this
    rw [hacc] at this
    cases this
  · intro c er ec hP hacc
    have := last_row_pawn_rejected g false 7 c er ec hP rfl
    unfold accepts at this
    rw [hacc] at this
    cases this
  · intro m hm
    obtain ⟨g', hb, -, ha⟩ := generateValidMoves_accepted g m hm
    constructor
    · rintro ⟨h0, hP⟩
      rw [← hb] at hP
      rw [last_row_pawn_rejected g' true _ _ _ _ hP h0] at ha
      cases ha
    · rintro ⟨h7, hP⟩
      rw [← hb] at hP
      rw [last_row_pawn_rejected g' false _ _ _ _ hP h7] at ha
      cases ha

/-- An instance: the White pawn on a8 in `lastRowState`; no destination is accepted,
and no enumerated move starts on row 0. -/
theorem last_row_pawn_has_no_move_witness :
    getPieceAt lastRowState.board 0 0 = 'P'
      ∧ (∀ er ec : Int, (isMoveValid lastRowState 0 0 er ec).1 ≠ none)
      ∧ (generateValidMoves lastRowState).1.all (fun m => m.startR != 0) = true :=
  ⟨by decide,
    fun er ec => (last_row_pawn_has_no_move lastRowState).1 0 er ec (by decide),
    by decide!⟩

/-- C31: Colour symmetry. On every state whose board holds only the twelve piece
symbols or `'.'`, with `mirror` the state reflected top to bottom, recoloured, with
the cached king squares swapped and reflected and the side to move flipped:
`isMoveValid` accepts `(sr,sc) -> (er,ec)` exactly when it accepts
`(7-sr,sc) -> (7-er,ec)` in the mirrored state, and `isSquareAttacked` of `(r,c)` by
White equals `isSquareAttacked` of `(7-r,c)` by Black in the mirrored state, for all
integer coordinates. -/
theorem colour_symmetry (g : ChessGame) (hb : BoardOK g.board) :
    (∀ sr sc er ec : Int,
        (isMoveValid g sr sc er ec).1 = none
          ↔ (isMoveValid (mirror g) (7 - sr) sc (7 - er) ec).1 = none)
      ∧ (∀ r c : Int,
          isSquareAttacked g.board r c true = isSquareAttacked (mirror g).board (7 - r) c false)
      ∧ (∀ r c : Int,
          isSquareAttacked g.board r c false
            = isSquareAttacked (mirror g).board (7 - r) c true) := by
  refine ⟨?_, ?_, ?_⟩
  · intro sr sc er ec
    have h := accepts_mirror g hb sr sc er ec
    unfold accepts at h
    rw [← Option.isNone_iff_eq_none, ← Option.isNone_iff_eq_none, h]
  · intro r c
    exact (isSquareAttacked_mirror g.board hb r c true).symm
  · intro r c
    exact (isSquareAttacked_mirror g.board hb r c false).symm

/-- An instance: `scandinavianState` (after 1. e2-e4 d7-d5, White to move) and the
capture e4xd5, mirrored to the capture e5xd4 by Black. -/
theorem colour_symmetry_witness :
    BoardOK scandinavianState.board
      ∧ (isMoveValid scandinavianState 4 4 3 3).1 = none
      ∧ getPieceAt (mirror scandinavianState).board 3 4 = 'p'
      ∧ getPieceAt (mirror scandinavianState).board 4 3 = 'P'
      ∧ (mirror scandinavianState).isWhiteTurn = false
      ∧ (isMoveValid (mirror scandinavianState) (7 - 4) 4 (7 - 3) 3).1 = none
      ∧ isSquareAttacked scandinavianState.board 3 3 true
          = isSquareAttacked (mirror scandinavianState).board (7 - 3) 3 false :=
  ⟨by decide, by decide!, by decide, by decide, rfl,
    ((colour_symmetry scandinavianState (by decide)).1 4 4 3 3).mp (by decide!),
    (colour_symmetry scandinavianState (by decide)).2.1 3 3⟩

end Chess
